import Mathlib

/-!
# The `$group` pipeline stage (`db/pipeline/document_source_group.cpp`)

A shallow embedding of `DocumentSourceGroup`: the configuration parser
`createFromBson`, the population pass `populate`, the pull iterator
`eof` / `advance` / `getCurrent`, `makeDocument` and `createMerger`.

The types the stage only uses (values, documents, expressions, accumulators,
BSON elements, the upstream source, the ordered group map) are declared in
headers that are not part of the sources; they are modelled here from the
specification, each under a doc comment that says so.
-/

namespace mongo

/-! ## Values and their order -/

/-- Modelled from the spec: the immutable `Value` of `db/pipeline/value.h`
(not among the sources). Numbers are kept in the common numeric domain to which
the comparator promotes mixed operands; exact rationals stand for it. -/
inductive Value where
  | null
  | num (q : ℚ)
  | str (s : String)
  | doc (fields : List (String × Value))
  | arr (items : List Value)
  | bool (b : Bool)
  | date (t : Int)

namespace Value

/-- Modelled from the spec: the fixed type rank of section 4.1,
null, numeric, string, record, array, boolean, date. -/
def rank : Value → Nat
  | null => 0
  | num _ => 1
  | str _ => 2
  | doc _ => 3
  | arr _ => 4
  | bool _ => 5
  | date _ => 6

mutual
/-- Modelled from the spec: `Value::compare`, first by type rank, then by the
natural comparison within a type (records and arrays by length, then
field-wise or element-wise in order). -/
def cmp : Value → Value → Ordering
  | num a, num b => compare a b
  | str a, str b => compare a b
  | doc a, doc b => (compare a.length b.length).then (cmpFields a b)
  | arr a, arr b => (compare a.length b.length).then (cmpItems a b)
  | bool a, bool b => compare a b
  | date a, date b => compare a b
  | a, b => compare (rank a) (rank b)
/-- Element-wise comparison of two arrays, first difference decides. -/
def cmpItems : List Value → List Value → Ordering
  | [], [] => .eq
  | [], _ :: _ => .lt
  | _ :: _, [] => .gt
  | x :: xs, y :: ys => (cmp x y).then (cmpItems xs ys)
/-- Field-wise comparison of two records, first difference decides; a field is
compared by name, then by value. -/
def cmpFields : List (String × Value) → List (String × Value) → Ordering
  | [], [] => .eq
  | [], _ :: _ => .lt
  | _ :: _, [] => .gt
  | (n, x) :: xs, (m, y) :: ys =>
    ((compare n m).then (cmp x y)).then (cmpFields xs ys)
end

/-- The strict order that keys the group table: `a` sorts before `b`. -/
def lt (a b : Value) : Prop := cmp a b = Ordering.lt

instance (a b : Value) : Decidable (lt a b) := by
  unfold lt; infer_instance

end Value

/-- Modelled from the spec: a `Document` (record) is an ordered list of named
fields; `Document::addField` appends at the end. -/
abbrev Document := List (String × Value)

/-- Modelled from the spec: field lookup by name. In a record, whose field names
are unique, at most one field has the name; in a list that holds the name
twice the first one is read. -/
def Document.getField : Document → String → Option Value
  | [], _ => none
  | (n, v) :: rest, name => if n = name then some v else Document.getField rest name

/-! ## Expressions -/

/-- Modelled from the spec: an `Expression` is an opaque evaluator from a
document to a value. `fieldPath` is `ExpressionFieldPath::create`, the one
expression the sources build themselves; every other expression is carried by
its evaluation function. -/
inductive Expression where
  | fieldPath (path : String)
  | other (eval : Document → Value)

/-- Modelled from the spec: `Expression::evaluate`. A field reference reads the
named field of the document (null when the document has no such field). -/
def Expression.evaluate : Expression → Document → Value
  | .fieldPath path, d => (Document.getField d path).getD Value.null
  | .other eval, d => eval d

/-! ## Accumulators -/

/-- The five accumulator factories that `GroupOpTable` names. -/
inductive AccumulatorFactory where
  | AccumulatorAvg_create
  | AccumulatorMinMax_createMax
  | AccumulatorMinMax_createMin
  | AccumulatorPush_create
  | AccumulatorSum_create
  deriving DecidableEq, Repr

/-- Modelled from the spec: the `Accumulator` interface the stage uses
(`db/pipeline/accumulator.h` is not among the sources): a factory call makes a
fresh accumulator, `addOperand` binds its input expression, `evaluate` folds one
document into it and `getValue` is its snapshot. The stage is written against
this interface only, so the interface is a parameter of the embedding. This is
what a call does when it completes; whether a call of `evaluate` raises instead
is the separate parameter `Raises`. -/
structure AccumulatorOps (A : Type) where
  create : AccumulatorFactory → A
  addOperand : A → Expression → A
  evaluate : A → Document → A
  getValue : A → Value

/-- Modelled from the spec: the state of the four accumulator variants of
section 4.2 (Sum, Average, Extremum, Collect). -/
inductive AccState where
  | sum (total : ℚ)
  | avg (total : ℚ) (count : Nat)
  | extremum (wantMax : Bool) (current : Option Value)
  | push (items : List Value)

/-- Modelled from the spec: an accumulator is its bound operands and its fold
state. -/
structure Accumulator where
  vpOperand : List Expression
  state : AccState

/-- Modelled from the spec: the numeric reading of a value. A non-numeric input
to Sum or Average is the accumulator's own runtime error
(NonNumericAccumulatorInput), which `specRaises` describes; in the fold itself
it reads as zero, and the statements about the sums and averages computed are
about numeric input. -/
def Value.numeric : Value → ℚ
  | .num q => q
  | _ => 0

/-- Modelled from the spec: the empty state of each variant. -/
def Accumulator.create : AccumulatorFactory → Accumulator
  | .AccumulatorAvg_create => ⟨[], .avg 0 0⟩
  | .AccumulatorMinMax_createMax => ⟨[], .extremum true none⟩
  | .AccumulatorMinMax_createMin => ⟨[], .extremum false none⟩
  | .AccumulatorPush_create => ⟨[], .push []⟩
  | .AccumulatorSum_create => ⟨[], .sum 0⟩

/-- Modelled from the spec: `addOperand` records the bound expression. -/
def Accumulator.addOperand (a : Accumulator) (e : Expression) : Accumulator :=
  { a with vpOperand := a.vpOperand ++ [e] }

/-- Modelled from the spec: the fold step of each variant on one evaluated
value (the `accumulate` column of the table in section 4.2). -/
def AccState.accumulate : AccState → Value → AccState
  | .sum total, v => .sum (total + v.numeric)
  | .avg total count, v => .avg (total + v.numeric) (count + 1)
  | .extremum wantMax none, v => .extremum wantMax (some v)
  | .extremum wantMax (some cur), v =>
    if Value.cmp v cur = (if wantMax then Ordering.gt else Ordering.lt)
    then .extremum wantMax (some v) else .extremum wantMax (some cur)
  | .push items, v => .push (items ++ [v])

/-- Modelled from the spec: `evaluate` evaluates the bound expression on the
document and folds the result into the state. An accumulator without an operand
is left as it is. -/
def Accumulator.evaluate (a : Accumulator) (d : Document) : Accumulator :=
  match a.vpOperand with
  | [] => a
  | e :: _ => { a with state := a.state.accumulate (e.evaluate d) }

/-- Modelled from the spec: the snapshot of each variant (the `snapshot` column
of the table in section 4.2); an Average over no input is zero. -/
def Accumulator.getValue (a : Accumulator) : Value :=
  match a.state with
  | .sum total => .num total
  | .avg total count => if count = 0 then .num 0 else .num (total / count)
  | .extremum _ none => .null
  | .extremum _ (some cur) => cur
  | .push items => .arr items

/-- Modelled from the spec: the accumulators of section 4.2 as an instance of
the interface. -/
def specAccumulators : AccumulatorOps Accumulator where
  create := Accumulator.create
  addOperand := Accumulator.addOperand
  evaluate := Accumulator.evaluate
  getValue := Accumulator.getValue

/-- An accumulator that only records what it was given: the factory that made
it, the operands bound to it and the documents passed to `evaluate`, in call
order. -/
structure RecordingAccumulator where
  factory : AccumulatorFactory
  operands : List Expression
  seen : List Document

/-- The recording accumulators as an instance of the interface. -/
def recordingAccumulators : AccumulatorOps RecordingAccumulator where
  create := fun f => ⟨f, [], []⟩
  addOperand := fun a e => { a with operands := a.operands ++ [e] }
  evaluate := fun a d => { a with seen := a.seen ++ [d] }
  getValue := fun _ => Value.null

/-! ## BSON configuration objects -/

/-- Modelled from the spec: the wire value of a configuration element
(`db/jsobj.h` is not among the sources). The stage tells Object and Array from
every other type; String, NumberInt, Bool and jstNULL stand for the atomic
types. -/
inductive BSONValue where
  | Object (fields : List (String × BSONValue))
  | Array (items : List (String × BSONValue))
  | String (s : String)
  | NumberInt (n : Int)
  | Bool (b : Bool)
  | jstNULL

/-- Modelled from the spec: the type tag of a BSON element. -/
inductive BSONType where
  | Object
  | Array
  | String
  | NumberInt
  | Bool
  | jstNULL
  deriving DecidableEq, Repr

/-- Modelled from the spec: a `BSONElement` is a field name with its value. -/
abbrev BSONElement := String × BSONValue

/-- Modelled from the spec: `BSONElement::fieldName`. -/
def BSONElement.fieldName (e : BSONElement) : String := e.1

/-- Modelled from the spec: `BSONElement::type`. -/
def BSONElement.type (e : BSONElement) : BSONType :=
  match e.2 with
  | .Object _ => .Object
  | .Array _ => .Array
  | .String _ => .String
  | .NumberInt _ => .NumberInt
  | .Bool _ => .Bool
  | .jstNULL => .jstNULL

/-- Modelled from the spec: `BSONElement::Obj` with the iteration of
`BSONObjIterator`, the elements of an embedded object in their stored order. -/
def BSONElement.Obj (e : BSONElement) : List BSONElement :=
  match e.2 with
  | .Object fields => fields
  | .Array items => items
  | _ => []

/-- Modelled from the spec: the two entry points of the external expression
parser, `Expression::parseObject` (with `DOCUMENT_OK`) and
`Expression::parseOperand`; `none` is a parse that raises an error. -/
structure ExpressionParsers where
  parseObject : BSONElement → Option Expression
  parseOperand : BSONElement → Option Expression

/-- The ways an operation of the stage stops without a result: one constructor
for each assertion of the source (named after the error it stands for), the
failure of the external parser, the two uses of memory that C++ leaves
undefined, the runtime error that Sum and Average raise through the stage
(section 7), and the end of the fuel of a client loop (no operation of the
stage raises the last one). -/
inductive Fault where
  | notAnObject
  | DuplicateIdSpecification
  | idNotAnObject
  | ReservedNameAsField
  | fieldNotAnObject
  | UnknownAccumulatorOperator
  | ArrayOperandUnsupported
  | InvalidOperatorCount
  | MissingIdSpecification
  | expressionParse
  | advancePastEnd
  | nullPointer
  | outOfRange
  | NonNumericAccumulatorInput
  | fuelExhausted
  deriving DecidableEq, Repr

/-- The faults that `createFromBson` raises: the assertions on the
configuration and the failure of the external parser. -/
def Fault.isConfigurationError : Fault → Bool
  | .notAnObject => true
  | .DuplicateIdSpecification => true
  | .idNotAnObject => true
  | .ReservedNameAsField => true
  | .fieldNotAnObject => true
  | .UnknownAccumulatorOperator => true
  | .ArrayOperandUnsupported => true
  | .InvalidOperatorCount => true
  | .MissingIdSpecification => true
  | .expressionParse => true
  | .advancePastEnd => false
  | .nullPointer => false
  | .outOfRange => false
  | .NonNumericAccumulatorInput => false
  | .fuelExhausted => false

/-! ## Runtime errors of the collaborators -/

/-- Modelled from the spec: the runtime errors of the collaborators
(`db/pipeline/expression.h` and `db/pipeline/accumulator.h` are not among the
sources). A call of `Expression::evaluate` on the key expression, or of
`Accumulator::evaluate`, either raises the fault given here or completes as
`Expression.evaluate` and the interface `AccumulatorOps` say. The sources catch
nothing, so a raise leaves `populate` at the call that raised. -/
structure Raises (A : Type) where
  expression : Expression → Document → Option Fault
  accumulator : A → Document → Option Fault

/-- The collaborators that never raise. -/
def Raises.never {A : Type} : Raises A where
  expression := fun _ _ => none
  accumulator := fun _ _ => none

/-- Modelled from the spec: whether a value is numeric. -/
def Value.isNumeric : Value → Bool
  | .num _ => true
  | _ => false

/-- Modelled from the spec: Sum and Average raise NonNumericAccumulatorInput
when the value of their operand on the document is not numeric (sections 4.2 and
7); Extremum and Collect take every value. -/
def specRaises : Raises Accumulator where
  expression := fun _ _ => none
  accumulator := fun a d =>
    match a.vpOperand, a.state with
    | e :: _, .sum _ =>
      if (e.evaluate d).isNumeric then none else some Fault.NonNumericAccumulatorInput
    | e :: _, .avg _ _ =>
      if (e.evaluate d).isNumeric then none else some Fault.NonNumericAccumulatorInput
    | _, _ => none

/-! ## The operator table -/

/-- The struct `GroupOpDesc`. -/
structure GroupOpDesc where
  pName : String
  pFactory : AccumulatorFactory
  deriving DecidableEq, Repr

/-- Modelled from the spec: the C library `strcmp` on character lists, by sign.
Comparing code points agrees with comparing the bytes of the UTF-8 form. -/
def strcmpChars : List Char → List Char → Int
  | [], [] => 0
  | [], _ :: _ => -1
  | _ :: _, [] => 1
  | a :: as, b :: bs =>
    if a < b then -1 else if b < a then 1 else strcmpChars as bs

/-- Modelled from the spec: the C library `strcmp`. -/
def strcmp (a b : String) : Int := strcmpChars a.data b.data

/-- The comparator `GroupOpDescCmp`. -/
def GroupOpDescCmp (pL pR : GroupOpDesc) : Int := strcmp pL.pName pR.pName

/-- The table `GroupOpTable`. -/
def GroupOpTable : List GroupOpDesc :=
  [ ⟨"$avg", .AccumulatorAvg_create⟩,
    ⟨"$max", .AccumulatorMinMax_createMax⟩,
    ⟨"$min", .AccumulatorMinMax_createMin⟩,
    ⟨"$push", .AccumulatorPush_create⟩,
    ⟨"$sum", .AccumulatorSum_create⟩ ]

/-- The constant `NGroupOp`. -/
def NGroupOp : Nat := GroupOpTable.length

/-- Modelled from the spec: the loop of the C library `bsearch` over the
half-open index range from `lo` to `hi`. Every round shrinks the range, so
`hi - lo` rounds of fuel are enough. -/
def bsearchLoop (key : GroupOpDesc) (base : List GroupOpDesc)
    (compar : GroupOpDesc → GroupOpDesc → Int) :
    Nat → Nat → Nat → Option GroupOpDesc
  | 0, _, _ => none
  | fuel + 1, lo, hi =>
    if lo < hi then
      let mid := (lo + hi) / 2
      match base[mid]? with
      | none => none
      | some p =>
        let c := compar key p
        if c = 0 then some p
        else if c < 0 then bsearchLoop key base compar fuel lo mid
        else bsearchLoop key base compar fuel (mid + 1) hi
    else none

/-- Modelled from the spec: the C library `bsearch` over the first `nmemb`
entries of `base`; `none` is the null pointer. -/
def bsearch (key : GroupOpDesc) (base : List GroupOpDesc) (nmemb : Nat)
    (compar : GroupOpDesc → GroupOpDesc → Int) : Option GroupOpDesc :=
  bsearchLoop key base compar nmemb 0 nmemb

/-! ## The stage -/

/-- Modelled from the spec: the upstream record source behind `pSource`, a
pull iterator over the records still to come (`rest`, the head is the current
record); `pulled` counts the records handed out so far. -/
structure Upstream where
  rest : List Document
  pulled : Nat

/-- Modelled from the spec: `GroupsType`, the ordered map from group key to
accumulator vector (declared in `document_source.h`), kept as a list of entries
in ascending key order. An iterator is an index; `end()` is the length. -/
abbrev GroupsType (A : Type) := List (Value × List A)

/-- Modelled from the spec: `std::map::find`, the position of the entry whose
key compares equal, `end()` when there is none. -/
def GroupsType.find {A : Type} : GroupsType A → Value → Nat
  | [], _ => 0
  | (k, _) :: rest, key =>
    if Value.cmp k key = Ordering.eq then 0 else GroupsType.find rest key + 1

/-- Modelled from the spec: `std::map::insert`, which places a new entry at its
position in key order and leaves the map as it is when the key is present. -/
def GroupsType.insert {A : Type} : GroupsType A → Value × List A → GroupsType A
  | [], p => [p]
  | e :: rest, p =>
    match Value.cmp p.1 e.1 with
    | .lt => p :: e :: rest
    | .eq => e :: rest
    | .gt => e :: GroupsType.insert rest p

/-- Update through the pointer `pGroup = &it->second`: the accumulator vector
of the entry at position `it` is replaced by `f` of it. -/
def GroupsType.modifyAt {A : Type} : GroupsType A → Nat → (List A → List A) → GroupsType A
  | [], _, _ => []
  | (k, v) :: rest, 0, f => (k, f v) :: rest
  | e :: rest, it + 1, f => e :: GroupsType.modifyAt rest it f

/-- The members of `DocumentSourceGroup`, with `pSource` of its base class.
`groupsIterator` is left unset by the constructor; it reads 0 here. -/
structure DocumentSourceGroup (A : Type) where
  populated : Bool
  pIdExpression : Option Expression
  groups : GroupsType A
  vFieldName : List String
  vpAccumulatorFactory : List AccumulatorFactory
  vpExpression : List Expression
  groupsIterator : Nat
  pCurrent : Option Document
  pSource : Option Upstream

namespace DocumentSourceGroup

variable {A : Type}

/-- The constant `DocumentSourceGroup::idName`. -/
def idName : String := "_id"

/-- The constructor, through `DocumentSourceGroup::create`. -/
def create : DocumentSourceGroup A where
  populated := false
  pIdExpression := none
  groups := []
  vFieldName := []
  vpAccumulatorFactory := []
  vpExpression := []
  groupsIterator := 0
  pCurrent := none
  pSource := none

/-- Modelled from the spec: `setIdExpression` (defined in the header) stores
the key expression. -/
def setIdExpression (g : DocumentSourceGroup A) (pExpression : Expression) :
    DocumentSourceGroup A :=
  { g with pIdExpression := some pExpression }

/-- Modelled from the spec: `setSource` of the base class attaches the upstream
source, here a source that has handed out nothing yet. -/
def setSource (g : DocumentSourceGroup A) (docs : List Document) :
    DocumentSourceGroup A :=
  { g with pSource := some ⟨docs, 0⟩ }

/-- The method `addAccumulator`. -/
def addAccumulator (g : DocumentSourceGroup A) (fieldName : String)
    (pAccumulatorFactory : AccumulatorFactory) (pExpression : Expression) :
    DocumentSourceGroup A :=
  { g with
    vFieldName := g.vFieldName ++ [fieldName]
    vpAccumulatorFactory := g.vpAccumulatorFactory ++ [pAccumulatorFactory]
    vpExpression := g.vpExpression ++ [pExpression] }

/-! ### `createFromBson` -/

/-- The inner loop of `createFromBson` over the elements of one output field
`pFieldName`: each element names an operator, which is looked up in
`GroupOpTable`, and carries its operand; `subCount` counts the elements. -/
def parseSubFields (P : ExpressionParsers) (pFieldName : String) :
    List BSONElement → DocumentSourceGroup A → Nat →
    Except Fault (DocumentSourceGroup A × Nat)
  | [], pGroup, subCount => .ok (pGroup, subCount)
  | subElement :: more, pGroup, subCount =>
    match bsearch ⟨subElement.fieldName, .AccumulatorAvg_create⟩
        GroupOpTable NGroupOp GroupOpDescCmp with
    | none => .error .UnknownAccumulatorOperator
    | some pOp =>
      let parsed : Except Fault Expression :=
        if subElement.type = .Object then
          match P.parseObject subElement with
          | some e => .ok e
          | none => .error .expressionParse
        else if subElement.type = .Array then
          .error .ArrayOperandUnsupported
        else
          match P.parseOperand subElement with
          | some e => .ok e
          | none => .error .expressionParse
      match parsed with
      | .error f => .error f
      | .ok pGroupExpr =>
        parseSubFields P pFieldName more
          (pGroup.addAccumulator pFieldName pOp.pFactory pGroupExpr) (subCount + 1)

/-- The outer loop of `createFromBson` over the elements of the configuration
object, with the flag `idSet`. -/
def parseGroupFields (P : ExpressionParsers) :
    List BSONElement → DocumentSourceGroup A → Bool →
    Except Fault (DocumentSourceGroup A × Bool)
  | [], pGroup, idSet => .ok (pGroup, idSet)
  | groupField :: more, pGroup, idSet =>
    let pFieldName := groupField.fieldName
    if strcmp pFieldName "_id" = 0 then
      if idSet then .error .DuplicateIdSpecification
      else if groupField.type ≠ .Object then .error .idNotAnObject
      else
        match P.parseObject groupField with
        | none => .error .expressionParse
        | some pId => parseGroupFields P more (pGroup.setIdExpression pId) true
    else
      if pFieldName.data.head? = some '$' then .error .ReservedNameAsField
      else if groupField.type ≠ .Object then .error .fieldNotAnObject
      else
        match parseSubFields P pFieldName groupField.Obj pGroup 0 with
        | .error f => .error f
        | .ok (pGroup1, subCount) =>
          if subCount ≠ 1 then .error .InvalidOperatorCount
          else parseGroupFields P more pGroup1 idSet

/-- The function `createFromBson`. -/
def createFromBson (P : ExpressionParsers) (pBsonElement : BSONElement) :
    Except Fault (DocumentSourceGroup A) :=
  if pBsonElement.type ≠ .Object then .error .notAnObject
  else
    match parseGroupFields P pBsonElement.Obj (create : DocumentSourceGroup A) false with
    | .error f => .error f
    | .ok (pGroup, idSet) =>
      if idSet then .ok pGroup else .error .MissingIdSpecification

/-! ### `makeDocument` and `populate` -/

/-- The loop of `makeDocument` that adds one field for each `i` below
`vFieldName.size()`, named `vFieldName[i]` and valued by `(*pGroup)[i]`; the
two vectors are walked in step, and a missing accumulator is an access out of
range. -/
def makeFields (I : AccumulatorOps A) : List String → List A → Except Fault Document
  | [], _ => .ok []
  | _ :: _, [] => .error .outOfRange
  | name :: names, a :: as =>
    match makeFields I names as with
    | .error f => .error f
    | .ok fields => .ok ((name, I.getValue a) :: fields)

/-- The method `makeDocument` for the entry at position `rIter`. -/
def makeDocument (I : AccumulatorOps A) (g : DocumentSourceGroup A) (rIter : Nat) :
    Except Fault Document :=
  match g.groups[rIter]? with
  | none => .error .outOfRange
  | some (key, pGroup) =>
    match makeFields I g.vFieldName pGroup with
    | .error f => .error f
    | .ok fields => .ok ((idName, key) :: fields)

/-- The loop of `populate` that makes the accumulators of a new group: for each
`i` below `vpAccumulatorFactory.size()`, the factory `i` is called and
`vpExpression[i]` is added as its operand; the two vectors are walked in
step. -/
def newAccumulators (I : AccumulatorOps A) :
    List AccumulatorFactory → List Expression → Except Fault (List A)
  | [], _ => .ok []
  | _ :: _, [] => .error .outOfRange
  | factory :: factories, pExpression :: exprs =>
    match newAccumulators I factories exprs with
    | .error f => .error f
    | .ok accs => .ok (I.addOperand (I.create factory) pExpression :: accs)

/-- The body of the loop of `populate` for one upstream document: find the
group of its key, or insert a new group with fresh accumulators, then let every
accumulator of the group evaluate the document. -/
def populateDocument (I : AccumulatorOps A) (g : DocumentSourceGroup A)
    (pDocument : Document) : Except Fault (GroupsType A) :=
  match g.pIdExpression with
  | none => .error .nullPointer
  | some pIdExpression =>
    let pId := pIdExpression.evaluate pDocument
    let it := g.groups.find pId
    if it ≠ g.groups.length then
      .ok (g.groups.modifyAt it (fun pGroup => pGroup.map (fun a => I.evaluate a pDocument)))
    else
      let groups1 := g.groups.insert (pId, [])
      let it1 := groups1.find pId
      if it1 = groups1.length then .error .outOfRange
      else
        match newAccumulators I g.vpAccumulatorFactory g.vpExpression with
        | .error f => .error f
        | .ok accs =>
          let groups2 := groups1.modifyAt it1 (fun pGroup => pGroup ++ accs)
          .ok (groups2.modifyAt it1 (fun pGroup => pGroup.map (fun a => I.evaluate a pDocument)))

/-- The loop of `populate` over the upstream source: `docs` are the records the
source still holds, and each round takes the current one and advances. -/
def populateLoop (I : AccumulatorOps A) :
    List Document → Nat → DocumentSourceGroup A → Except Fault Unit × DocumentSourceGroup A
  | [], _, g => (.ok (), g)
  | pDocument :: rest, pulled, g =>
    match populateDocument I g pDocument with
    | .error f => (.error f, g)
    | .ok groups1 =>
      populateLoop I rest (pulled + 1)
        { g with groups := groups1, pSource := some ⟨rest, pulled + 1⟩ }

/-- The method `populate`, every call of a collaborator completing
(`Raising.populate` is the method with collaborators that raise). A fault
leaves the stage as it was when the fault was met. -/
def populate (I : AccumulatorOps A) (g : DocumentSourceGroup A) :
    Except Fault Unit × DocumentSourceGroup A :=
  match g.pSource with
  | none => (.error .nullPointer, g)
  | some pSource =>
    match populateLoop I pSource.rest pSource.pulled g with
    | (.error f, g1) => (.error f, g1)
    | (.ok (), g1) =>
      let g2 := { g1 with groupsIterator := 0 }
      if g2.groupsIterator ≠ g2.groups.length then
        match makeDocument I g2 g2.groupsIterator with
        | .error f => (.error f, g2)
        | .ok d => (.ok (), { g2 with pCurrent := some d, populated := true })
      else (.ok (), { g2 with populated := true })

/-! ### The pull iterator -/

/-- The guard at the head of `eof`, `advance` and `getCurrent`:
`if (!populated) populate();`. -/
def ensurePopulated (I : AccumulatorOps A) (g : DocumentSourceGroup A) :
    Except Fault Unit × DocumentSourceGroup A :=
  if g.populated then (.ok (), g) else populate I g

/-- The method `eof`. -/
def eof (I : AccumulatorOps A) (g : DocumentSourceGroup A) :
    Except Fault Bool × DocumentSourceGroup A :=
  match ensurePopulated I g with
  | (.error f, g1) => (.error f, g1)
  | (.ok (), g1) => (.ok (decide (g1.groupsIterator = g1.groups.length)), g1)

/-- The method `advance`. The assertion stops the call before the cursor
moves. -/
def advance (I : AccumulatorOps A) (g : DocumentSourceGroup A) :
    Except Fault Bool × DocumentSourceGroup A :=
  match ensurePopulated I g with
  | (.error f, g1) => (.error f, g1)
  | (.ok (), g1) =>
    if g1.groupsIterator = g1.groups.length then (.error .advancePastEnd, g1)
    else
      let g2 := { g1 with groupsIterator := g1.groupsIterator + 1 }
      if g2.groupsIterator = g2.groups.length then
        (.ok false, { g2 with pCurrent := none })
      else
        match makeDocument I g2 g2.groupsIterator with
        | .error f => (.error f, g2)
        | .ok d => (.ok true, { g2 with pCurrent := some d })

/-- The method `getCurrent`; `none` is the null pointer. -/
def getCurrent (I : AccumulatorOps A) (g : DocumentSourceGroup A) :
    Except Fault (Option Document) × DocumentSourceGroup A :=
  match ensurePopulated I g with
  | (.error f, g1) => (.error f, g1)
  | (.ok (), g1) => (.ok g1.pCurrent, g1)

/-! ### `createMerger` -/

/-- The loop of `createMerger`: for each `i` below `vFieldName.size()` the
merger gets the field `vFieldName[i]` with factory `vpAccumulatorFactory[i]`
and a field reference to `vFieldName[i]`; the two vectors are walked in
step. -/
def mergerFields : List String → List AccumulatorFactory → DocumentSourceGroup A →
    Except Fault (DocumentSourceGroup A)
  | [], _, pMerger => .ok pMerger
  | _ :: _, [], _ => .error .outOfRange
  | name :: names, factory :: factories, pMerger =>
    mergerFields names factories
      (pMerger.addAccumulator name factory (Expression.fieldPath name))

/-- The method `createMerger`. -/
def createMerger (g : DocumentSourceGroup A) : Except Fault (DocumentSourceGroup A) :=
  mergerFields g.vFieldName g.vpAccumulatorFactory
    ((create : DocumentSourceGroup A).setIdExpression (Expression.fieldPath "_id"))

/-! ### `sourceToBson` -/

/-- Modelled from the spec: the external serializers behind `addToBsonObj`.
`keySpec` is the value the key expression writes under `_id`; `operandSpec` is
the value an accumulator writes for its operand. -/
structure ExpressionSerializers where
  keySpec : Expression → BSONValue
  operandSpec : Expression → BSONValue

/-- Modelled from the spec: the operator name that the accumulators of a factory
write (section 4.5: each variant knows its own canonical operator name). -/
def operatorName : AccumulatorFactory → String
  | .AccumulatorAvg_create => "$avg"
  | .AccumulatorMinMax_createMax => "$max"
  | .AccumulatorMinMax_createMin => "$min"
  | .AccumulatorPush_create => "$push"
  | .AccumulatorSum_create => "$sum"

/-- The loop of `sourceToBson`: for each `i` below `vFieldName.size()` an
accumulator is made by factory `i`, given `vpExpression[i]` as operand, and
writes the element named `vFieldName[i]` (modelled from the spec: an object
with the operator name and the serialized operand); the three vectors are
walked in step. -/
def sourceFields (S : ExpressionSerializers) :
    List String → List AccumulatorFactory → List Expression →
    Except Fault (List BSONElement)
  | [], _, _ => .ok []
  | _ :: _, [], _ => .error .outOfRange
  | _ :: _, _ :: _, [] => .error .outOfRange
  | name :: names, factory :: factories, pExpression :: exprs =>
    match sourceFields S names factories exprs with
    | .error f => .error f
    | .ok fields =>
      .ok ((name, BSONValue.Object [(operatorName factory, S.operandSpec pExpression)])
        :: fields)

/-- The method `sourceToBson`; the result is the element appended to the
builder. -/
def sourceToBson (S : ExpressionSerializers) (g : DocumentSourceGroup A) :
    Except Fault BSONElement :=
  match g.pIdExpression with
  | none => .error .nullPointer
  | some pIdExpression =>
    match sourceFields S g.vFieldName g.vpAccumulatorFactory g.vpExpression with
    | .error f => .error f
    | .ok insides =>
      .ok ("$group", BSONValue.Object (("_id", S.keySpec pIdExpression) :: insides))

/-! ### Clients of the iterator -/

/-- A stage configured through the public interface: the key expression, then
one `addAccumulator` call for each field specification in order, then the
upstream source. -/
def configure (pId : Expression)
    (specs : List (String × AccumulatorFactory × Expression))
    (docs : List Document) : DocumentSourceGroup A :=
  (specs.foldl (fun g s => g.addAccumulator s.1 s.2.1 s.2.2)
    ((create : DocumentSourceGroup A).setIdExpression pId)).setSource docs

/-- A downstream consumer that drains the stage: while `eof()` is false, take
`getCurrent()` and call `advance()`. The records taken are returned in order;
`fuel` bounds the number of rounds. -/
def drain (I : AccumulatorOps A) :
    Nat → DocumentSourceGroup A → Except Fault (List (Option Document))
  | 0, _ => .error .fuelExhausted
  | fuel + 1, g =>
    match eof I g with
    | (.error f, _) => .error f
    | (.ok true, _) => .ok []
    | (.ok false, g1) =>
      match getCurrent I g1 with
      | (.error f, _) => .error f
      | (.ok pCurrent, g2) =>
        match advance I g2 with
        | (.error f, _) => .error f
        | (.ok _, g3) =>
          match drain I fuel g3 with
          | .error f => .error f
          | .ok more => .ok (pCurrent :: more)

/-- One call of the pull interface. -/
inductive Call where
  | eof
  | advance
  | getCurrent
  deriving DecidableEq, Repr

/-- The stage after one call of the pull interface, whatever the call
returned. -/
def call (I : AccumulatorOps A) (g : DocumentSourceGroup A) : Call → DocumentSourceGroup A
  | .eof => (eof I g).2
  | .advance => (advance I g).2
  | .getCurrent => (getCurrent I g).2

/-- The stage after a sequence of calls of the pull interface. -/
def calls (I : AccumulatorOps A) (g : DocumentSourceGroup A) (cs : List Call) :
    DocumentSourceGroup A :=
  cs.foldl (call I) g

/-! ### The stage with collaborators that raise

The same methods, with the runtime errors `R` of the collaborators: a raise
inside `populate` leaves the method at once, with everything done up to the
call that raised still done, and before `populated` is set. -/

namespace Raising

/-- The last loop of the body of `populate`: the accumulators of the group
evaluate the document in order, `(*pGroup)[i]->evaluate(pDocument)`. When one
raises, those before it have taken the document and those from it on have
not. -/
def evaluateGroup (I : AccumulatorOps A) (R : Raises A) (pDocument : Document) :
    List A → Except Fault Unit × List A
  | [] => (.ok (), [])
  | a :: as =>
    match R.accumulator a pDocument with
    | some f => (.error f, a :: as)
    | none =>
      match evaluateGroup I R pDocument as with
      | (r, as1) => (r, I.evaluate a pDocument :: as1)

/-- The loop `evaluateGroup` run through the pointer `pGroup = &it->second` on
the entry at position `it` of the table. -/
def evaluateAt (I : AccumulatorOps A) (R : Raises A) (pDocument : Document) :
    GroupsType A → Nat → Except Fault Unit × GroupsType A
  | [], _ => (.ok (), [])
  | (k, v) :: rest, 0 =>
    match evaluateGroup I R pDocument v with
    | (r, v1) => (r, (k, v1) :: rest)
  | e :: rest, it + 1 =>
    match evaluateAt I R pDocument rest it with
    | (r, rest1) => (r, e :: rest1)

/-- The body of the loop of `populate` for one upstream document, with the
table as the body leaves it: evaluate the key (which may raise), find the group
or insert a new one with fresh accumulators, then let the accumulators of the
group evaluate the document (each of which may raise). An access that C++
leaves undefined reads the table as before the document, as in
`DocumentSourceGroup.populateDocument`. -/
def populateDocument (I : AccumulatorOps A) (R : Raises A) (g : DocumentSourceGroup A)
    (pDocument : Document) : Except Fault Unit × GroupsType A :=
  match g.pIdExpression with
  | none => (.error .nullPointer, g.groups)
  | some pIdExpression =>
    match R.expression pIdExpression pDocument with
    | some f => (.error f, g.groups)
    | none =>
      let pId := pIdExpression.evaluate pDocument
      let it := g.groups.find pId
      if it ≠ g.groups.length then
        evaluateAt I R pDocument g.groups it
      else
        let groups1 := g.groups.insert (pId, [])
        let it1 := groups1.find pId
        if it1 = groups1.length then (.error .outOfRange, g.groups)
        else
          match newAccumulators I g.vpAccumulatorFactory g.vpExpression with
          | .error f => (.error f, g.groups)
          | .ok accs =>
            evaluateAt I R pDocument (groups1.modifyAt it1 (fun pGroup => pGroup ++ accs)) it1

/-- The loop of `populate` over the upstream source. When the body raises, the
loop is left with the table as the body left it and the upstream still at the
document that was being read. -/
def populateLoop (I : AccumulatorOps A) (R : Raises A) :
    List Document → Nat → DocumentSourceGroup A → Except Fault Unit × DocumentSourceGroup A
  | [], _, g => (.ok (), g)
  | pDocument :: rest, pulled, g =>
    match populateDocument I R g pDocument with
    | (.error f, groups1) => (.error f, { g with groups := groups1 })
    | (.ok (), groups1) =>
      populateLoop I R rest (pulled + 1)
        { g with groups := groups1, pSource := some ⟨rest, pulled + 1⟩ }

/-- The method `populate`. The statement `populated = true` is its last one:
it is reached only when the loop and `makeDocument` have completed. -/
def populate (I : AccumulatorOps A) (R : Raises A) (g : DocumentSourceGroup A) :
    Except Fault Unit × DocumentSourceGroup A :=
  match g.pSource with
  | none => (.error .nullPointer, g)
  | some pSource =>
    match populateLoop I R pSource.rest pSource.pulled g with
    | (.error f, g1) => (.error f, g1)
    | (.ok (), g1) =>
      let g2 := { g1 with groupsIterator := 0 }
      if g2.groupsIterator ≠ g2.groups.length then
        match makeDocument I g2 g2.groupsIterator with
        | .error f => (.error f, g2)
        | .ok d => (.ok (), { g2 with pCurrent := some d, populated := true })
      else (.ok (), { g2 with populated := true })

/-- The guard at the head of `eof`, `advance` and `getCurrent`:
`if (!populated) populate();`. -/
def ensurePopulated (I : AccumulatorOps A) (R : Raises A) (g : DocumentSourceGroup A) :
    Except Fault Unit × DocumentSourceGroup A :=
  if g.populated then (.ok (), g) else populate I R g

/-- The method `eof`. -/
def eof (I : AccumulatorOps A) (R : Raises A) (g : DocumentSourceGroup A) :
    Except Fault Bool × DocumentSourceGroup A :=
  match ensurePopulated I R g with
  | (.error f, g1) => (.error f, g1)
  | (.ok (), g1) => (.ok (decide (g1.groupsIterator = g1.groups.length)), g1)

/-- The method `advance`. -/
def advance (I : AccumulatorOps A) (R : Raises A) (g : DocumentSourceGroup A) :
    Except Fault Bool × DocumentSourceGroup A :=
  match ensurePopulated I R g with
  | (.error f, g1) => (.error f, g1)
  | (.ok (), g1) =>
    if g1.groupsIterator = g1.groups.length then (.error .advancePastEnd, g1)
    else
      let g2 := { g1 with groupsIterator := g1.groupsIterator + 1 }
      if g2.groupsIterator = g2.groups.length then
        (.ok false, { g2 with pCurrent := none })
      else
        match makeDocument I g2 g2.groupsIterator with
        | .error f => (.error f, g2)
        | .ok d => (.ok true, { g2 with pCurrent := some d })

/-- The method `getCurrent`; `none` is the null pointer. -/
def getCurrent (I : AccumulatorOps A) (R : Raises A) (g : DocumentSourceGroup A) :
    Except Fault (Option Document) × DocumentSourceGroup A :=
  match ensurePopulated I R g with
  | (.error f, g1) => (.error f, g1)
  | (.ok (), g1) => (.ok g1.pCurrent, g1)

/-- The stage after one call of the pull interface, whatever the call returned
or raised. -/
def call (I : AccumulatorOps A) (R : Raises A) (g : DocumentSourceGroup A) :
    Call → DocumentSourceGroup A
  | .eof => (eof I R g).2
  | .advance => (advance I R g).2
  | .getCurrent => (getCurrent I R g).2

/-- The fault that one call of the pull interface raised, if it raised one. -/
def fault (I : AccumulatorOps A) (R : Raises A) (g : DocumentSourceGroup A) :
    Call → Option Fault
  | .eof => match (eof I R g).1 with | .error f => some f | .ok _ => none
  | .advance => match (advance I R g).1 with | .error f => some f | .ok _ => none
  | .getCurrent => match (getCurrent I R g).1 with | .error f => some f | .ok _ => none

/-- The stage after a sequence of calls of the pull interface. -/
def calls (I : AccumulatorOps A) (R : Raises A) (g : DocumentSourceGroup A)
    (cs : List Call) : DocumentSourceGroup A :=
  cs.foldl (call I R) g

end Raising

end DocumentSourceGroup

/-! ## Notions used in the statements -/

namespace DocumentSourceGroup

variable {A : Type}

/-- The records of `docs` whose key compares equal to `key`, in arrival
order. -/
def members (pId : Expression) (docs : List Document) (key : Value) : List Document :=
  docs.filter (fun d => decide (Value.cmp (pId.evaluate d) key = Ordering.eq))

/-- The accumulator of a field specification as `populate` makes it for a new
group: made by the factory, with the expression added as operand. -/
def freshAccumulator (I : AccumulatorOps A)
    (s : String × AccumulatorFactory × Expression) : A :=
  I.addOperand (I.create s.2.1) s.2.2

/-- The accumulators of the field specifications after each has evaluated the
records `ms` in order, each record once. -/
def foldedAccumulators (I : AccumulatorOps A)
    (specs : List (String × AccumulatorFactory × Expression))
    (ms : List Document) : List A :=
  specs.map (fun s => ms.foldl I.evaluate (freshAccumulator I s))

/-- The output record of a table entry: `_id` with the key, then one field for
each name with the snapshot of the accumulator at the same position. -/
def recordOf (I : AccumulatorOps A) (names : List String)
    (entry : Value × List A) : Document :=
  (idName, entry.1) :: List.zip names (entry.2.map I.getValue)

/-- The operator name is one of the names of `GroupOpTable`. -/
def Registered (name : String) : Prop := ∃ d ∈ GroupOpTable, d.pName = name

/-- The shape `createFromBson` accepts for an output field (a top-level element
other than `_id`): the name does not begin with `$`, the value is an object,
and that object has exactly one element, which names a registered operator and
whose operand is not array-shaped. -/
def FieldAccepted (e : BSONElement) : Prop :=
  e.fieldName.data.head? ≠ some '$' ∧ e.type = BSONType.Object ∧
    ∃ sub, e.Obj = [sub] ∧ Registered sub.fieldName ∧ sub.type ≠ BSONType.Array

/-- The factory registered for an operator name, by exact match along the
table. -/
def registeredFactory (name : String) : Option AccumulatorFactory :=
  (GroupOpTable.find? (fun d => decide (d.pName = name))).map (fun d => d.pFactory)

/-- The operand of an operator element as the external parser reads it: an
object-shaped operand through `parseObject`, an atomic one through
`parseOperand`; an array-shaped operand is not read. -/
def parsedOperand (P : ExpressionParsers) (sub : BSONElement) : Option Expression :=
  if sub.type = BSONType.Object then P.parseObject sub
  else if sub.type = BSONType.Array then none
  else P.parseOperand sub

/-- The field specification that an output field stands for: its name, the
factory registered for its one operator, and the parsed operand. There is none
when the field does not have the accepted shape or a parser fails. -/
def fieldSpecOf (P : ExpressionParsers) (e : BSONElement) :
    Option (String × AccumulatorFactory × Expression) :=
  if e.fieldName.data.head? = some '$' then none
  else if e.type ≠ BSONType.Object then none
  else
    match e.Obj with
    | [sub] =>
      match registeredFactory sub.fieldName, parsedOperand P sub with
      | some factory, some operand => some (e.fieldName, factory, operand)
      | _, _ => none
    | _ => none

/-- The stage that `createFromBson` returns for the key expression `pId` and
the field specifications `specs`: configured, unpopulated, with no upstream
source attached yet. -/
def parsedStage (pId : Expression)
    (specs : List (String × AccumulatorFactory × Expression)) : DocumentSourceGroup A :=
  specs.foldl (fun g s => g.addAccumulator s.1 s.2.1 s.2.2)
    ((create : DocumentSourceGroup A).setIdExpression pId)

/-- The list `m` is an interleaving of the lists `a` and `b`: it holds the
elements of both, each list in its own order. Read from `m`, this is a split of
`m` into two disjoint parts. -/
inductive Interleaves {α : Type} : List α → List α → List α → Prop where
  | nil : Interleaves [] [] []
  | left (x : α) {m a b : List α} : Interleaves m a b → Interleaves (x :: m) (x :: a) b
  | right (x : α) {m a b : List α} : Interleaves m a b → Interleaves (x :: m) a (x :: b)

/-- The field specifications of the merge stage for those of a local stage:
the same output name and factory, with a field reference to the output name as
input expression. -/
def mergerSpecs (specs : List (String × AccumulatorFactory × Expression)) :
    List (String × AccumulatorFactory × Expression) :=
  specs.map (fun s => (s.1, s.2.1, Expression.fieldPath s.1))

/-- No collaborator raises while a stage with key expression `pId` and field
specifications `specs` populates from `docs`: the key expression raises on no
record, and no accumulator of a group raises on a record of the group, taken
after the records of the group that came before it. -/
def QuietOn (I : AccumulatorOps A) (R : Raises A) (pId : Expression)
    (specs : List (String × AccumulatorFactory × Expression))
    (docs : List Document) : Prop :=
  (∀ d ∈ docs, R.expression pId d = none) ∧
  ∀ seen d rest, docs = seen ++ d :: rest →
    ∀ a ∈ foldedAccumulators I specs (members pId seen (pId.evaluate d)),
      R.accumulator a d = none

/-- The stage `g0` once populated, with table `groups`, the upstream drained
after `pulled` records, the cursor at `it` and the cached record of the entry
under the cursor (none at the end). -/
def positioned (I : AccumulatorOps A) (g0 : DocumentSourceGroup A)
    (groups : GroupsType A) (pulled it : Nat) : DocumentSourceGroup A :=
  { g0 with
    populated := true
    groups := groups
    groupsIterator := it
    pSource := some ⟨[], pulled⟩
    pCurrent := (groups[it]?).map (recordOf I g0.vFieldName) }

/-- The configuration members of a stage are those of the key expression
`pId` and the field specifications `specs`. -/
def Configured (pId : Expression)
    (specs : List (String × AccumulatorFactory × Expression))
    (g : DocumentSourceGroup A) : Prop :=
  g.pIdExpression = some pId ∧
  g.vFieldName = specs.map (fun s => s.1) ∧
  g.vpAccumulatorFactory = specs.map (fun s => s.2.1) ∧
  g.vpExpression = specs.map (fun s => s.2.2)

/-- The table `groups` is the grouping of the records `seen`: its keys ascend
strictly, they are the keys of the records, and the accumulators of each entry
have evaluated the members of its group, in order. -/
def TableOf (I : AccumulatorOps A) (pId : Expression)
    (specs : List (String × AccumulatorFactory × Expression))
    (seen : List Document) (groups : GroupsType A) : Prop :=
  (groups.map Prod.fst).Pairwise Value.lt ∧
  (∀ k, k ∈ groups.map Prod.fst ↔ ∃ d ∈ seen, pId.evaluate d = k) ∧
  (∀ e ∈ groups, e.2 = foldedAccumulators I specs (members pId seen e.1))

end DocumentSourceGroup

/-! ## The order on values is a strict total order -/

namespace Value

theorem then_eq_iff (a b : Ordering) :
    a.then b = Ordering.eq ↔ a = Ordering.eq ∧ b = Ordering.eq := by
  cases a <;> cases b <;> simp [Ordering.then]

theorem then_lt_iff (a b : Ordering) :
    a.then b = Ordering.lt ↔ a = Ordering.lt ∨ (a = Ordering.eq ∧ b = Ordering.lt) := by
  cases a <;> cases b <;> simp [Ordering.then]

theorem swap_then_eq (a b : Ordering) : (a.then b).swap = a.swap.then b.swap := by
  cases a <;> cases b <;> rfl

theorem compare_swap_eq {α : Type} [LinearOrder α] (a b : α) :
    compare b a = (compare a b).swap := by
  rcases lt_trichotomy a b with h | h | h
  · rw [compare_lt_iff_lt.mpr h, compare_gt_iff_gt.mpr h]; rfl
  · subst h; rw [compare_eq_iff_eq.mpr rfl]; rfl
  · rw [compare_gt_iff_gt.mpr h, compare_lt_iff_lt.mpr h]; rfl

mutual
theorem cmp_refl : ∀ a : Value, cmp a a = Ordering.eq
  | null => by simp [cmp, rank, compare_eq_iff_eq]
  | num a => by simp [cmp, compare_eq_iff_eq]
  | str a => by simp [cmp, compare_eq_iff_eq]
  | doc fs => by simp [cmp, cmpFields_refl fs, then_eq_iff, compare_eq_iff_eq]
  | arr xs => by simp [cmp, cmpItems_refl xs, then_eq_iff, compare_eq_iff_eq]
  | bool b => by simp [cmp, compare_eq_iff_eq]
  | date t => by simp [cmp, compare_eq_iff_eq]
theorem cmpItems_refl : ∀ l : List Value, cmpItems l l = Ordering.eq
  | [] => by simp [cmpItems]
  | x :: xs => by simp [cmpItems, cmp_refl x, cmpItems_refl xs, then_eq_iff, compare_eq_iff_eq]
theorem cmpFields_refl : ∀ l : List (String × Value), cmpFields l l = Ordering.eq
  | [] => by simp [cmpFields]
  | (n, x) :: xs => by simp [cmpFields, cmp_refl x, cmpFields_refl xs, then_eq_iff, compare_eq_iff_eq]
end

mutual
theorem cmp_eq_imp : ∀ a b : Value, cmp a b = Ordering.eq → a = b
  | null, b, h => by cases b <;> simp [cmp, rank, compare_eq_iff_eq] at h ⊢
  | num q, b, h => by cases b <;> simp [cmp, rank, compare_eq_iff_eq] at h ⊢; exact h
  | str q, b, h => by cases b <;> simp [cmp, rank, compare_eq_iff_eq] at h ⊢; exact h
  | bool q, b, h => by cases b <;> simp [cmp, rank, compare_eq_iff_eq] at h ⊢; exact h
  | date q, b, h => by cases b <;> simp [cmp, rank, compare_eq_iff_eq] at h ⊢; exact h
  | doc fs, b, h => by
    cases b with
    | doc gs =>
      simp only [cmp, then_eq_iff] at h
      exact congrArg doc (cmpFields_eq_imp fs gs h.2)
    | _ => simp [cmp, rank, compare_eq_iff_eq] at h
  | arr xs, b, h => by
    cases b with
    | arr ys =>
      simp only [cmp, then_eq_iff] at h
      exact congrArg arr (cmpItems_eq_imp xs ys h.2)
    | _ => simp [cmp, rank, compare_eq_iff_eq] at h
theorem cmpItems_eq_imp : ∀ l₁ l₂ : List Value, cmpItems l₁ l₂ = Ordering.eq → l₁ = l₂
  | [], [], _ => rfl
  | [], _ :: _, h => by simp [cmpItems] at h
  | _ :: _, [], h => by simp [cmpItems] at h
  | x :: xs, y :: ys, h => by
    simp only [cmpItems, then_eq_iff] at h
    rw [cmp_eq_imp x y h.1, cmpItems_eq_imp xs ys h.2]
theorem cmpFields_eq_imp :
    ∀ l₁ l₂ : List (String × Value), cmpFields l₁ l₂ = Ordering.eq → l₁ = l₂
  | [], [], _ => rfl
  | [], _ :: _, h => by simp [cmpFields] at h
  | _ :: _, [], h => by simp [cmpFields] at h
  | (n, x) :: xs, (m, y) :: ys, h => by
    simp only [cmpFields, then_eq_iff, compare_eq_iff_eq] at h
    rw [h.1.1, cmp_eq_imp x y h.1.2, cmpFields_eq_imp xs ys h.2]
end

mutual
theorem cmp_swap : ∀ a b : Value, cmp b a = (cmp a b).swap
  | null, b => by cases b <;> simp only [cmp, rank] <;> exact compare_swap_eq _ _
  | num q, b => by cases b <;> simp only [cmp, rank] <;> exact compare_swap_eq _ _
  | str q, b => by cases b <;> simp only [cmp, rank] <;> exact compare_swap_eq _ _
  | bool q, b => by cases b <;> simp only [cmp, rank] <;> exact compare_swap_eq _ _
  | date q, b => by cases b <;> simp only [cmp, rank] <;> exact compare_swap_eq _ _
  | doc fs, b => by
    cases b with
    | doc gs =>
      simp only [cmp, swap_then_eq, cmpFields_swap fs gs]
      rw [compare_swap_eq fs.length gs.length]
    | _ => simp only [cmp, rank]; exact compare_swap_eq _ _
  | arr xs, b => by
    cases b with
    | arr ys =>
      simp only [cmp, swap_then_eq, cmpItems_swap xs ys]
      rw [compare_swap_eq xs.length ys.length]
    | _ => simp only [cmp, rank]; exact compare_swap_eq _ _
theorem cmpItems_swap : ∀ l₁ l₂ : List Value, cmpItems l₂ l₁ = (cmpItems l₁ l₂).swap
  | [], [] => rfl
  | [], _ :: _ => by simp only [cmpItems]; rfl
  | _ :: _, [] => by simp only [cmpItems]; rfl
  | x :: xs, y :: ys => by
    simp only [cmpItems, swap_then_eq, cmp_swap x y, cmpItems_swap xs ys]
theorem cmpFields_swap :
    ∀ l₁ l₂ : List (String × Value), cmpFields l₂ l₁ = (cmpFields l₁ l₂).swap
  | [], [] => rfl
  | [], _ :: _ => by simp only [cmpFields]; rfl
  | _ :: _, [] => by simp only [cmpFields]; rfl
  | (n, x) :: xs, (m, y) :: ys => by
    simp only [cmpFields, swap_then_eq, cmp_swap x y, cmpFields_swap xs ys]
    rw [compare_swap_eq n m]
end


theorem cmp_eq_iff (a b : Value) : cmp a b = Ordering.eq ↔ a = b :=
  ⟨cmp_eq_imp a b, fun h => h ▸ cmp_refl a⟩

theorem cmp_gt_iff (a b : Value) : cmp a b = Ordering.gt ↔ cmp b a = Ordering.lt := by
  rw [cmp_swap a b]; cases cmp a b <;> simp [Ordering.swap]

/-- Equality of values is decided by the comparator. -/
instance : DecidableEq Value :=
  fun a b => decidable_of_iff _ (cmp_eq_iff a b)

theorem rank_le_of_cmp_lt (a b : Value) (h : cmp a b = Ordering.lt) : rank a ≤ rank b := by
  cases a <;> cases b <;> simp [cmp, rank, compare_lt_iff_lt] at h ⊢

theorem cmp_lt_of_rank_lt (a b : Value) (h : rank a < rank b) : cmp a b = Ordering.lt := by
  cases a <;> cases b <;> simp [cmp, rank, compare_lt_iff_lt] at h ⊢

set_option linter.unusedTactic false in
set_option linter.unreachableTactic false in
mutual
theorem cmp_trans : ∀ a b c : Value,
    cmp a b = Ordering.lt → cmp b c = Ordering.lt → cmp a c = Ordering.lt
  | null, b, c, h₁, h₂ => by
    have r₁ := rank_le_of_cmp_lt _ _ h₁
    have r₂ := rank_le_of_cmp_lt _ _ h₂
    cases b <;> simp [cmp, rank, compare_lt_iff_lt] at h₁
    all_goals exact cmp_lt_of_rank_lt _ _ (by simp [rank] at r₁ r₂ ⊢; omega)
  | num q, b, c, h₁, h₂ => by
    have r₂ := rank_le_of_cmp_lt _ _ h₂
    cases b <;> simp only [cmp, rank, compare_lt_iff_lt] at h₁ <;> try omega
    all_goals first
      | exact cmp_lt_of_rank_lt _ _ (by simp [rank] at r₂ ⊢; omega)
      | (cases c <;> simp only [cmp, rank, compare_lt_iff_lt] at h₂ ⊢ <;>
          first | omega | exact lt_trans h₁ h₂)
  | str q, b, c, h₁, h₂ => by
    have r₂ := rank_le_of_cmp_lt _ _ h₂
    cases b <;> simp only [cmp, rank, compare_lt_iff_lt] at h₁ <;> try omega
    all_goals first
      | exact cmp_lt_of_rank_lt _ _ (by simp [rank] at r₂ ⊢; omega)
      | (cases c <;> simp only [cmp, rank, compare_lt_iff_lt] at h₂ ⊢ <;>
          first | omega | exact lt_trans h₁ h₂)
  | bool q, b, c, h₁, h₂ => by
    have r₂ := rank_le_of_cmp_lt _ _ h₂
    cases b <;> simp only [cmp, rank, compare_lt_iff_lt] at h₁ <;> try omega
    all_goals first
      | exact cmp_lt_of_rank_lt _ _ (by simp [rank] at r₂ ⊢; omega)
      | (cases c <;> simp only [cmp, rank, compare_lt_iff_lt] at h₂ ⊢ <;>
          first | omega | exact lt_trans h₁ h₂)
  | date q, b, c, h₁, h₂ => by
    have r₂ := rank_le_of_cmp_lt _ _ h₂
    cases b <;> simp only [cmp, rank, compare_lt_iff_lt] at h₁ <;> try omega
    all_goals first
      | exact cmp_lt_of_rank_lt _ _ (by simp [rank] at r₂ ⊢; omega)
      | (cases c <;> simp only [cmp, rank, compare_lt_iff_lt] at h₂ ⊢ <;>
          first | omega | exact lt_trans h₁ h₂)
  | doc fs, b, c, h₁, h₂ => by
    have r₂ := rank_le_of_cmp_lt _ _ h₂
    cases b <;> simp only [cmp, rank, compare_lt_iff_lt] at h₁ <;> try omega
    all_goals first
      | exact cmp_lt_of_rank_lt _ _ (by simp [rank] at r₂ ⊢; omega)
      | skip
    rename_i gs
    cases c <;> simp only [cmp, rank, compare_lt_iff_lt] at h₂ ⊢ <;> try omega
    rename_i hs
    simp only [then_lt_iff, compare_lt_iff_lt, compare_eq_iff_eq] at h₁ h₂ ⊢
    rcases h₁ with h₁ | ⟨e₁, h₁⟩
    · rcases h₂ with h₂ | ⟨e₂, h₂⟩
      · exact Or.inl (lt_trans h₁ h₂)
      · exact Or.inl (e₂ ▸ h₁)
    · rcases h₂ with h₂ | ⟨e₂, h₂⟩
      · exact Or.inl (e₁ ▸ h₂)
      · exact Or.inr ⟨e₁.trans e₂, cmpFields_trans fs gs hs h₁ h₂⟩
  | arr xs, b, c, h₁, h₂ => by
    have r₂ := rank_le_of_cmp_lt _ _ h₂
    cases b <;> simp only [cmp, rank, compare_lt_iff_lt] at h₁ <;> try omega
    all_goals first
      | exact cmp_lt_of_rank_lt _ _ (by simp [rank] at r₂ ⊢; omega)
      | skip
    rename_i ys
    cases c <;> simp only [cmp, rank, compare_lt_iff_lt] at h₂ ⊢ <;> try omega
    rename_i zs
    simp only [then_lt_iff, compare_lt_iff_lt, compare_eq_iff_eq] at h₁ h₂ ⊢
    rcases h₁ with h₁ | ⟨e₁, h₁⟩
    · rcases h₂ with h₂ | ⟨e₂, h₂⟩
      · exact Or.inl (lt_trans h₁ h₂)
      · exact Or.inl (e₂ ▸ h₁)
    · rcases h₂ with h₂ | ⟨e₂, h₂⟩
      · exact Or.inl (e₁ ▸ h₂)
      · exact Or.inr ⟨e₁.trans e₂, cmpItems_trans xs ys zs h₁ h₂⟩
theorem cmpItems_trans : ∀ l₁ l₂ l₃ : List Value,
    cmpItems l₁ l₂ = Ordering.lt → cmpItems l₂ l₃ = Ordering.lt →
    cmpItems l₁ l₃ = Ordering.lt
  | [], [], _, h₁, _ => by simp [cmpItems] at h₁
  | [], _ :: _, [], _, h₂ => by simp [cmpItems] at h₂
  | [], _ :: _, _ :: _, _, _ => by simp [cmpItems]
  | _ :: _, [], _, h₁, _ => by simp [cmpItems] at h₁
  | _ :: _, _ :: _, [], _, h₂ => by simp [cmpItems] at h₂
  | x :: xs, y :: ys, z :: zs, h₁, h₂ => by
    simp only [cmpItems, then_lt_iff] at h₁ h₂ ⊢
    rcases h₁ with h₁ | ⟨e₁, h₁⟩
    · rcases h₂ with h₂ | ⟨e₂, h₂⟩
      · exact Or.inl (cmp_trans x y z h₁ h₂)
      · exact Or.inl (cmp_eq_imp y z e₂ ▸ h₁)
    · have e := cmp_eq_imp x y e₁
      subst e
      rcases h₂ with h₂ | ⟨e₂, h₂⟩
      · exact Or.inl h₂
      · exact Or.inr ⟨e₂, cmpItems_trans xs ys zs h₁ h₂⟩
theorem cmpFields_trans : ∀ l₁ l₂ l₃ : List (String × Value),
    cmpFields l₁ l₂ = Ordering.lt → cmpFields l₂ l₃ = Ordering.lt →
    cmpFields l₁ l₃ = Ordering.lt
  | [], [], _, h₁, _ => by simp [cmpFields] at h₁
  | [], _ :: _, [], _, h₂ => by simp [cmpFields] at h₂
  | [], _ :: _, _ :: _, _, _ => by simp [cmpFields]
  | _ :: _, [], _, h₁, _ => by simp [cmpFields] at h₁
  | _ :: _, _ :: _, [], _, h₂ => by simp [cmpFields] at h₂
  | (n, x) :: xs, (m, y) :: ys, (k, z) :: zs, h₁, h₂ => by
    simp only [cmpFields, then_lt_iff, then_eq_iff, compare_lt_iff_lt,
      compare_eq_iff_eq] at h₁ h₂ ⊢
    rcases h₁ with (h₁ | ⟨e₁, h₁⟩) | ⟨⟨e₁, f₁⟩, h₁⟩
    · rcases h₂ with (h₂ | ⟨e₂, h₂⟩) | ⟨⟨e₂, f₂⟩, h₂⟩
      · exact Or.inl (Or.inl (lt_trans h₁ h₂))
      · exact Or.inl (Or.inl (e₂ ▸ h₁))
      · exact Or.inl (Or.inl (e₂ ▸ h₁))
    · subst e₁
      rcases h₂ with (h₂ | ⟨e₂, h₂⟩) | ⟨⟨e₂, f₂⟩, h₂⟩
      · exact Or.inl (Or.inl h₂)
      · exact Or.inl (Or.inr ⟨e₂, cmp_trans x y z h₁ h₂⟩)
      · exact Or.inl (Or.inr ⟨e₂, cmp_eq_imp y z f₂ ▸ h₁⟩)
    · subst e₁
      have e := cmp_eq_imp x y f₁
      subst e
      rcases h₂ with (h₂ | ⟨e₂, h₂⟩) | ⟨⟨e₂, f₂⟩, h₂⟩
      · exact Or.inl (Or.inl h₂)
      · exact Or.inl (Or.inr ⟨e₂, h₂⟩)
      · exact Or.inr ⟨⟨e₂, f₂⟩, cmpFields_trans xs ys zs h₁ h₂⟩
end

end Value

/-! ## The ordered group table -/

namespace GroupsType

variable {A : Type}

theorem lt_irrefl (a : Value) : ¬ Value.lt a a := by
  unfold Value.lt; rw [Value.cmp_refl]; simp

theorem lt_trans {a b c : Value} (h₁ : Value.lt a b) (h₂ : Value.lt b c) : Value.lt a c :=
  Value.cmp_trans a b c h₁ h₂

theorem find_le_length (groups : GroupsType A) (key : Value) :
    groups.find key ≤ groups.length := by
  induction groups with
  | nil => simp [find]
  | cons e rest ih =>
    obtain ⟨k, v⟩ := e
    simp only [find, List.length_cons]
    split
    · omega
    · omega

theorem find_eq_length_iff (groups : GroupsType A) (key : Value) :
    groups.find key = groups.length ↔ ∀ e ∈ groups, e.1 ≠ key := by
  induction groups with
  | nil => simp [find]
  | cons e rest ih =>
    obtain ⟨k, v⟩ := e
    simp only [find, List.length_cons, List.mem_cons, forall_eq_or_imp]
    by_cases h : Value.cmp k key = Ordering.eq
    · have hk : k = key := Value.cmp_eq_imp _ _ h
      subst hk
      simp [h]
    · have hk : k ≠ key := fun e => h (e ▸ Value.cmp_refl k)
      simp [h, hk, ih]

theorem getElem_find (groups : GroupsType A) (key : Value)
    (h : groups.find key ≠ groups.length) :
    ∃ v, groups[groups.find key]? = some (key, v) := by
  induction groups with
  | nil => simp [find] at h
  | cons e rest ih =>
    obtain ⟨k, v⟩ := e
    simp only [find, List.length_cons] at h ⊢
    by_cases hc : Value.cmp k key = Ordering.eq
    · have hk : k = key := Value.cmp_eq_imp _ _ hc
      subst hk
      simp [hc]
    · simp only [hc, if_false] at h ⊢
      have := ih (by omega)
      simpa using this

theorem map_fst_modifyAt (groups : GroupsType A) (it : Nat) (f : List A → List A) :
    (groups.modifyAt it f).map Prod.fst = groups.map Prod.fst := by
  induction groups generalizing it with
  | nil => simp [modifyAt]
  | cons e rest ih =>
    obtain ⟨k, v⟩ := e
    cases it with
    | zero => simp [modifyAt]
    | succ n => simp [modifyAt, ih]

theorem length_modifyAt (groups : GroupsType A) (it : Nat) (f : List A → List A) :
    (groups.modifyAt it f).length = groups.length := by
  have := congrArg List.length (map_fst_modifyAt groups it f)
  simpa using this

theorem modifyAt_modifyAt (groups : GroupsType A) (it : Nat) (f h : List A → List A) :
    (groups.modifyAt it f).modifyAt it h = groups.modifyAt it (fun v => h (f v)) := by
  induction groups generalizing it with
  | nil => simp [modifyAt]
  | cons e rest ih =>
    obtain ⟨k, v⟩ := e
    cases it with
    | zero => simp [modifyAt]
    | succ n => simp [modifyAt, ih]

theorem mem_modifyAt_find (groups : GroupsType A) (key : Value) (f : List A → List A)
    (hs : (groups.map Prod.fst).Pairwise Value.lt)
    (e : Value × List A) (he : e ∈ groups.modifyAt (groups.find key) f) :
    (e.1 = key ∧ ∃ v, (key, v) ∈ groups ∧ e.2 = f v) ∨ (e.1 ≠ key ∧ e ∈ groups) := by
  induction groups with
  | nil => simp [modifyAt] at he
  | cons e₀ rest ih =>
    obtain ⟨k, v⟩ := e₀
    simp only [List.map_cons, List.pairwise_cons] at hs
    by_cases hc : Value.cmp k key = Ordering.eq
    · have hk : k = key := Value.cmp_eq_imp _ _ hc
      subst hk
      simp only [find, hc, if_true, modifyAt, List.mem_cons] at he
      rcases he with he | he
      · left; subst he; exact ⟨rfl, v, by simp, rfl⟩
      · right
        refine ⟨?_, by simp [he]⟩
        intro h
        have := hs.1 e.1 (List.mem_map_of_mem Prod.fst he)
        rw [h] at this
        exact lt_irrefl _ this
    · have hk : k ≠ key := fun e => hc (e ▸ Value.cmp_refl k)
      simp only [find, hc, if_false, modifyAt, List.mem_cons] at he
      rcases he with he | he
      · right; subst he; exact ⟨hk, by simp⟩
      · rcases ih hs.2 he with ⟨h₁, w, hw, h₂⟩ | ⟨h₁, h₂⟩
        · left; exact ⟨h₁, w, by simp [hw], h₂⟩
        · right; exact ⟨h₁, by simp [h₂]⟩

theorem mem_insert (groups : GroupsType A) (p e : Value × List A)
    (he : e ∈ groups.insert p) : e = p ∨ e ∈ groups := by
  induction groups with
  | nil => simp [insert] at he; exact Or.inl he
  | cons e₀ rest ih =>
    simp only [insert] at he
    split at he
    · simp only [List.mem_cons] at he ⊢
      exact he
    · exact Or.inr he
    · simp only [List.mem_cons] at he ⊢
      rcases he with he | he
      · exact Or.inr (Or.inl he)
      · rcases ih he with h | h
        · exact Or.inl h
        · exact Or.inr (Or.inr h)

theorem mem_insert_of_mem (groups : GroupsType A) (p e : Value × List A)
    (he : e ∈ groups) : e ∈ groups.insert p := by
  induction groups with
  | nil => simp at he
  | cons e₀ rest ih =>
    simp only [insert]
    simp only [List.mem_cons] at he
    split
    · simp only [List.mem_cons]; exact Or.inr he
    · simp only [List.mem_cons]; exact he
    · simp only [List.mem_cons]
      rcases he with he | he
      · exact Or.inl he
      · exact Or.inr (ih he)

theorem self_mem_insert (groups : GroupsType A) (p : Value × List A)
    (h : ∀ e ∈ groups, e.1 ≠ p.1) : p ∈ groups.insert p := by
  induction groups with
  | nil => simp [insert]
  | cons e₀ rest ih =>
    simp only [insert]
    simp only [List.mem_cons, forall_eq_or_imp] at h
    split
    · simp
    · rename_i hc
      exact absurd (Value.cmp_eq_imp _ _ hc).symm h.1
    · simp only [List.mem_cons]; exact Or.inr (ih h.2)

theorem pairwise_insert (groups : GroupsType A) (p : Value × List A)
    (hs : (groups.map Prod.fst).Pairwise Value.lt) :
    ((groups.insert p).map Prod.fst).Pairwise Value.lt := by
  induction groups with
  | nil => simp [insert]
  | cons e₀ rest ih =>
    simp only [List.map_cons, List.pairwise_cons] at hs
    simp only [insert]
    split
    · rename_i hc
      simp only [List.map_cons, List.pairwise_cons, List.mem_cons, forall_eq_or_imp]
      exact ⟨⟨hc, fun a ha => lt_trans hc (hs.1 a ha)⟩, hs.1, hs.2⟩
    · simp only [List.map_cons, List.pairwise_cons]
      exact hs
    · rename_i hc
      simp only [List.map_cons, List.pairwise_cons]
      refine ⟨?_, ih hs.2⟩
      intro a ha
      obtain ⟨e, he, rfl⟩ := List.mem_map.mp ha
      rcases mem_insert rest p e he with h | h
      · subst h; exact (Value.cmp_gt_iff _ _).mp hc
      · exact hs.1 _ (List.mem_map_of_mem Prod.fst h)

end GroupsType

/-! ## Population -/

namespace DocumentSourceGroup

variable {A : Type}

theorem members_append (pId : Expression) (seen : List Document) (d : Document)
    (key : Value) :
    members pId (seen ++ [d]) key =
      members pId seen key ++ (if pId.evaluate d = key then [d] else []) := by
  unfold members
  rw [List.filter_append]
  by_cases h : pId.evaluate d = key
  · simp [h, Value.cmp_refl]
  · have : ¬ Value.cmp (pId.evaluate d) key = Ordering.eq :=
      fun e => h (Value.cmp_eq_imp _ _ e)
    simp [h, this]

theorem members_eq_nil (pId : Expression) (seen : List Document) (key : Value)
    (h : ∀ d ∈ seen, pId.evaluate d ≠ key) : members pId seen key = [] := by
  unfold members
  rw [List.filter_eq_nil_iff]
  intro d hd
  have := h d hd
  simp only [decide_eq_true_eq]
  exact fun e => this (Value.cmp_eq_imp _ _ e)

theorem foldedAccumulators_snoc (I : AccumulatorOps A)
    (specs : List (String × AccumulatorFactory × Expression))
    (ms : List Document) (d : Document) :
    foldedAccumulators I specs (ms ++ [d]) =
      (foldedAccumulators I specs ms).map (fun a => I.evaluate a d) := by
  simp [foldedAccumulators, List.foldl_append]

theorem length_foldedAccumulators (I : AccumulatorOps A)
    (specs : List (String × AccumulatorFactory × Expression)) (ms : List Document) :
    (foldedAccumulators I specs ms).length = specs.length := by
  simp [foldedAccumulators]

theorem newAccumulators_specs (I : AccumulatorOps A)
    (specs : List (String × AccumulatorFactory × Expression)) :
    newAccumulators I (specs.map (fun s => s.2.1)) (specs.map (fun s => s.2.2)) =
      .ok (foldedAccumulators I specs []) := by
  induction specs with
  | nil => simp [newAccumulators, foldedAccumulators]
  | cons s rest ih =>
    simp only [List.map_cons, newAccumulators, ih]
    simp [foldedAccumulators, freshAccumulator]

theorem populateDocument_tableOf (I : AccumulatorOps A) (pId : Expression)
    (specs : List (String × AccumulatorFactory × Expression))
    (seen : List Document) (g : DocumentSourceGroup A) (d : Document)
    (hc : Configured pId specs g) (ht : TableOf I pId specs seen g.groups) :
    ∃ groups1, populateDocument I g d = .ok groups1 ∧
      TableOf I pId specs (seen ++ [d]) groups1 := by
  obtain ⟨hid, -, hfac, hexp⟩ := hc
  obtain ⟨hs, hk, ha⟩ := ht
  unfold populateDocument
  simp only [hid]
  by_cases hf : g.groups.find (pId.evaluate d) = g.groups.length
  · -- a new group
    have habs := (GroupsType.find_eq_length_iff _ _).mp hf
    have hnone : ∀ d' ∈ seen, pId.evaluate d' ≠ pId.evaluate d := by
      intro d' hd' e
      obtain ⟨e', he', hk'⟩ := List.mem_map.mp ((hk (pId.evaluate d)).mpr ⟨d', hd', e⟩)
      exact habs e' he' hk'
    have hself : (pId.evaluate d, ([] : List A)) ∈
        g.groups.insert (pId.evaluate d, []) :=
      GroupsType.self_mem_insert _ _ habs
    have hfound : (g.groups.insert (pId.evaluate d, [])).find (pId.evaluate d) ≠
        (g.groups.insert (pId.evaluate d, [])).length := by
      intro e
      exact (GroupsType.find_eq_length_iff _ _).mp e _ hself rfl
    have hs1 := GroupsType.pairwise_insert g.groups (pId.evaluate d, []) hs
    simp only [hf, ne_eq, not_true_eq_false, if_false, hfound, hfac, hexp,
      newAccumulators_specs, GroupsType.modifyAt_modifyAt]
    refine ⟨_, rfl, ?_, ?_, ?_⟩
    · rw [GroupsType.map_fst_modifyAt]; exact hs1
    · intro k
      rw [GroupsType.map_fst_modifyAt]
      constructor
      · intro hk1
        obtain ⟨e, he, rfl⟩ := List.mem_map.mp hk1
        rcases GroupsType.mem_insert _ _ _ he with h | h
        · subst h; exact ⟨d, by simp, rfl⟩
        · obtain ⟨d', hd', e'⟩ := (hk e.1).mp (List.mem_map_of_mem Prod.fst h)
          exact ⟨d', by simp [hd'], e'⟩
      · rintro ⟨d', hd', rfl⟩
        simp only [List.mem_append, List.mem_singleton] at hd'
        rcases hd' with hd' | hd'
        · obtain ⟨e, he, hk'⟩ := List.mem_map.mp ((hk _).mpr ⟨d', hd', rfl⟩)
          exact List.mem_map.mpr ⟨e, GroupsType.mem_insert_of_mem _ _ _ he, hk'⟩
        · subst hd'
          exact List.mem_map.mpr ⟨_, hself, rfl⟩
    · intro e he
      rcases GroupsType.mem_modifyAt_find _ _ _ hs1 e he with ⟨h₁, v, hv, h₂⟩ | ⟨h₁, h₂⟩
      · have hv0 : v = [] := by
          rcases GroupsType.mem_insert _ _ _ hv with h | h
          · exact (Prod.mk.inj h).2
          · exact absurd rfl (habs _ h)
        subst hv0
        rw [h₂, h₁, members_append, members_eq_nil pId seen _ hnone]
        simp only [if_true, List.nil_append]
        rw [show ([d] : List Document) = [] ++ [d] from rfl, foldedAccumulators_snoc]
      · rcases GroupsType.mem_insert _ _ _ h₂ with h | h
        · exact absurd (congrArg Prod.fst h) h₁
        · rw [ha e h, members_append]
          simp [Ne.symm h₁]
  · -- an existing group
    obtain ⟨v, hv⟩ := GroupsType.getElem_find _ _ hf
    have hmem : (pId.evaluate d, v) ∈ g.groups := List.getElem?_mem hv
    simp only [hf, ne_eq, not_false_eq_true, if_true]
    refine ⟨_, rfl, ?_, ?_, ?_⟩
    · rw [GroupsType.map_fst_modifyAt]; exact hs
    · intro k
      rw [GroupsType.map_fst_modifyAt, hk]
      constructor
      · rintro ⟨d', hd', e'⟩
        exact ⟨d', by simp [hd'], e'⟩
      · rintro ⟨d', hd', rfl⟩
        simp only [List.mem_append, List.mem_singleton] at hd'
        rcases hd' with hd' | hd'
        · exact ⟨d', hd', rfl⟩
        · subst hd'
          exact (hk _).mp (List.mem_map_of_mem Prod.fst hmem)
    · intro e he
      rcases GroupsType.mem_modifyAt_find _ _ _ hs e he with ⟨h₁, w, hw, h₂⟩ | ⟨h₁, h₂⟩
      · have hw2 : w = foldedAccumulators I specs (members pId seen (pId.evaluate d)) :=
          ha _ hw
        rw [h₂, h₁, members_append]
        simp only [if_true]
        rw [foldedAccumulators_snoc, ← hw2]
      · rw [ha e h₂, members_append]
        simp [Ne.symm h₁]

theorem populateLoop_tableOf (I : AccumulatorOps A) (pId : Expression)
    (specs : List (String × AccumulatorFactory × Expression))
    (docs seen : List Document) (pulled : Nat) (g : DocumentSourceGroup A)
    (hc : Configured pId specs g) (ht : TableOf I pId specs seen g.groups)
    (hsrc : g.pSource = some ⟨docs, pulled⟩) :
    ∃ groups1, TableOf I pId specs (seen ++ docs) groups1 ∧
      populateLoop I docs pulled g =
        (.ok (), { g with groups := groups1, pSource := some ⟨[], pulled + docs.length⟩ }) := by
  induction docs generalizing seen pulled g with
  | nil =>
    refine ⟨g.groups, by simpa using ht, ?_⟩
    cases g
    simp only [populateLoop, List.length_nil, Nat.add_zero]
    simp only at hsrc
    rw [hsrc]
  | cons d rest ih =>
    obtain ⟨groups1, h1, t1⟩ := populateDocument_tableOf I pId specs seen g d hc ht
    have hc1 : Configured pId specs
        { g with groups := groups1, pSource := some ⟨rest, pulled + 1⟩ } := hc
    obtain ⟨groups2, t2, h2⟩ := ih (seen ++ [d]) (pulled + 1)
      { g with groups := groups1, pSource := some ⟨rest, pulled + 1⟩ } hc1 t1 rfl
    refine ⟨groups2, by simpa using t2, ?_⟩
    simp only [populateLoop, h1, h2, List.length_cons]
    rw [show pulled + 1 + rest.length = pulled + (rest.length + 1) by omega]

theorem makeFields_eq (I : AccumulatorOps A) (names : List String) (accs : List A)
    (h : names.length ≤ accs.length) :
    makeFields I names accs = .ok (List.zip names (accs.map I.getValue)) := by
  induction names generalizing accs with
  | nil => simp [makeFields]
  | cons n rest ih =>
    cases accs with
    | nil => simp at h
    | cons a as =>
      simp only [List.length_cons, Nat.add_le_add_iff_right] at h
      simp [makeFields, ih as h]

theorem makeDocument_eq (I : AccumulatorOps A) (g : DocumentSourceGroup A) (it : Nat)
    (e : Value × List A) (he : g.groups[it]? = some e)
    (hw : g.vFieldName.length ≤ e.2.length) :
    makeDocument I g it = .ok (recordOf I g.vFieldName e) := by
  obtain ⟨k, v⟩ := e
  simp only [makeDocument, he, makeFields_eq I _ _ hw, recordOf]

theorem length_of_tableOf (I : AccumulatorOps A) (pId : Expression)
    (specs : List (String × AccumulatorFactory × Expression))
    (seen : List Document) (groups : GroupsType A)
    (ht : TableOf I pId specs seen groups) :
    ∀ e ∈ groups, e.2.length = specs.length := by
  intro e he
  rw [ht.2.2 e he, length_foldedAccumulators]

theorem populate_eq (I : AccumulatorOps A) (pId : Expression)
    (specs : List (String × AccumulatorFactory × Expression))
    (docs : List Document) (pulled : Nat) (g : DocumentSourceGroup A)
    (hc : Configured pId specs g) (ht : g.groups = [])
    (hsrc : g.pSource = some ⟨docs, pulled⟩) (hcur : g.pCurrent = none) :
    ∃ groups1, TableOf I pId specs docs groups1 ∧
      populate I g = (.ok (), positioned I g groups1 (pulled + docs.length) 0) := by
  have ht0 : TableOf I pId specs [] g.groups := by
    rw [ht]; simp [TableOf]
  obtain ⟨groups1, t1, h1⟩ := populateLoop_tableOf I pId specs docs [] pulled g hc ht0 hsrc
  refine ⟨groups1, by simpa using t1, ?_⟩
  have hlen := length_of_tableOf I pId specs _ groups1 t1
  simp only [populate, hsrc, h1]
  cases hg : groups1 with
  | nil =>
    simp only [List.length_nil, ne_eq, not_true_eq_false, if_false, positioned]
    cases g
    simp only at hcur
    simp [hcur]
  | cons e rest =>
    have hw : g.vFieldName.length ≤ e.2.length := by
      rw [hlen e (by simp [hg]), hc.2.1]; simp
    have hm := makeDocument_eq I
      { g with groups := e :: rest, pSource := some ⟨[], pulled + docs.length⟩,
               groupsIterator := 0 } 0 e (by simp) hw
    simp only [List.length_cons, ne_eq, hm, positioned]
    simp

theorem foldl_addAccumulator (specs : List (String × AccumulatorFactory × Expression))
    (g : DocumentSourceGroup A) :
    (specs.foldl (fun g s => g.addAccumulator s.1 s.2.1 s.2.2) g) =
      { g with
        vFieldName := g.vFieldName ++ specs.map (fun s => s.1)
        vpAccumulatorFactory := g.vpAccumulatorFactory ++ specs.map (fun s => s.2.1)
        vpExpression := g.vpExpression ++ specs.map (fun s => s.2.2) } := by
  induction specs generalizing g with
  | nil => simp
  | cons s rest ih =>
    simp only [List.foldl_cons, ih]
    simp [addAccumulator]

theorem configure_eq (pId : Expression)
    (specs : List (String × AccumulatorFactory × Expression)) (docs : List Document) :
    (configure pId specs docs : DocumentSourceGroup A) =
      { populated := false
        pIdExpression := some pId
        groups := []
        vFieldName := specs.map (fun s => s.1)
        vpAccumulatorFactory := specs.map (fun s => s.2.1)
        vpExpression := specs.map (fun s => s.2.2)
        groupsIterator := 0
        pCurrent := none
        pSource := some ⟨docs, 0⟩ } := by
  simp [configure, foldl_addAccumulator, setSource, setIdExpression, create]

theorem configured_configure (pId : Expression)
    (specs : List (String × AccumulatorFactory × Expression)) (docs : List Document) :
    Configured pId specs (configure pId specs docs : DocumentSourceGroup A) := by
  simp [configure_eq, Configured]

theorem populate_configure (I : AccumulatorOps A) (pId : Expression)
    (specs : List (String × AccumulatorFactory × Expression)) (docs : List Document) :
    ∃ groups1, TableOf I pId specs docs groups1 ∧
      populate I (configure pId specs docs) =
        (.ok (), positioned I (configure pId specs docs) groups1 docs.length 0) := by
  have h := populate_eq I pId specs docs 0 (configure pId specs docs)
    (configured_configure pId specs docs) (by simp [configure_eq])
    (by simp [configure_eq]) (by simp [configure_eq])
  simpa using h

/-! ## The pull iterator on a populated stage -/

theorem eof_positioned (I : AccumulatorOps A) (g0 : DocumentSourceGroup A)
    (groups : GroupsType A) (pulled it : Nat) :
    eof I (positioned I g0 groups pulled it) =
      (.ok (decide (it = groups.length)), positioned I g0 groups pulled it) := by
  simp [eof, ensurePopulated, positioned]

theorem getCurrent_positioned (I : AccumulatorOps A) (g0 : DocumentSourceGroup A)
    (groups : GroupsType A) (pulled it : Nat) :
    getCurrent I (positioned I g0 groups pulled it) =
      (.ok ((groups[it]?).map (recordOf I g0.vFieldName)),
        positioned I g0 groups pulled it) := by
  simp [getCurrent, ensurePopulated, positioned]

theorem advance_positioned (I : AccumulatorOps A) (g0 : DocumentSourceGroup A)
    (groups : GroupsType A) (pulled it : Nat)
    (hw : ∀ e ∈ groups, g0.vFieldName.length ≤ e.2.length) (hit : it < groups.length) :
    advance I (positioned I g0 groups pulled it) =
      (.ok (decide (it + 1 ≠ groups.length)), positioned I g0 groups pulled (it + 1)) := by
  have hne : it ≠ groups.length := by omega
  by_cases hend : it + 1 = groups.length
  · simp [advance, ensurePopulated, positioned, hne, hend]
  · have hlt : it + 1 < groups.length := by omega
    have he : groups[it + 1]? = some groups[it + 1] := List.getElem?_eq_getElem hlt
    have hm := makeDocument_eq I
      { positioned I g0 groups pulled it with groupsIterator := it + 1 } (it + 1)
      groups[it + 1] (by simp [positioned])
      (by simpa [positioned] using hw _ (List.getElem_mem hlt))
    simp only [positioned] at hm
    simp [advance, ensurePopulated, positioned, hne, hend, hm, he]

theorem advance_positioned_end (I : AccumulatorOps A) (g0 : DocumentSourceGroup A)
    (groups : GroupsType A) (pulled : Nat) :
    advance I (positioned I g0 groups pulled groups.length) =
      (.error .advancePastEnd, positioned I g0 groups pulled groups.length) := by
  simp [advance, ensurePopulated, positioned]

theorem drain_positioned (I : AccumulatorOps A) (g0 : DocumentSourceGroup A)
    (groups : GroupsType A) (pulled : Nat)
    (hw : ∀ e ∈ groups, g0.vFieldName.length ≤ e.2.length) :
    ∀ (n it fuel : Nat), it + n = groups.length → n < fuel →
      drain I fuel (positioned I g0 groups pulled it) =
        .ok ((groups.drop it).map (fun e => some (recordOf I g0.vFieldName e))) := by
  intro n
  induction n with
  | zero =>
    intro it fuel hit hfuel
    obtain ⟨fuel, rfl⟩ : ∃ m, fuel = m + 1 := ⟨fuel - 1, by omega⟩
    have : it = groups.length := by omega
    subst this
    simp [drain, eof_positioned]
  | succ n ih =>
    intro it fuel hit hfuel
    obtain ⟨fuel, rfl⟩ : ∃ m, fuel = m + 1 := ⟨fuel - 1, by omega⟩
    have hlt : it < groups.length := by omega
    have hne : it ≠ groups.length := by omega
    have he : groups[it]? = some groups[it] := List.getElem?_eq_getElem hlt
    have hd : groups.drop it = groups[it] :: groups.drop (it + 1) :=
      List.drop_eq_getElem_cons hlt
    simp only [drain, eof_positioned, hne, decide_False, getCurrent_positioned,
      advance_positioned I g0 groups pulled it hw hlt,
      ih (it + 1) fuel (by omega) (by omega), he, Option.map_some', hd, List.map_cons]

theorem drain_configure (I : AccumulatorOps A) (pId : Expression)
    (specs : List (String × AccumulatorFactory × Expression)) (docs : List Document)
    (extra : Nat) :
    ∃ groups1, TableOf I pId specs docs groups1 ∧
      drain I (docs.length + 1 + extra) (configure pId specs docs) =
        .ok (groups1.map (fun e => some (recordOf I (specs.map (fun s => s.1)) e))) := by
  obtain ⟨groups1, t1, h1⟩ := populate_configure I pId specs docs
  refine ⟨groups1, t1, ?_⟩
  have hnames : (configure pId specs docs : DocumentSourceGroup A).vFieldName =
      specs.map (fun s => s.1) := by simp [configure_eq]
  have hw : ∀ e ∈ groups1,
      (configure pId specs docs : DocumentSourceGroup A).vFieldName.length ≤ e.2.length := by
    intro e he
    rw [length_of_tableOf I pId specs docs groups1 t1 e he, hnames]; simp
  have hlen : groups1.length ≤ docs.length := by
    have hnd : (groups1.map Prod.fst).Nodup :=
      List.Pairwise.imp (R := Value.lt) (S := fun a b => a ≠ b)
        (fun {a b} h e => by subst e; exact GroupsType.lt_irrefl _ h) t1.1
    have hsub : groups1.map Prod.fst ⊆ docs.map pId.evaluate := by
      intro k hk
      obtain ⟨d, hd, e⟩ := (t1.2.1 k).mp hk
      exact List.mem_map.mpr ⟨d, hd, e⟩
    have := (List.Nodup.subperm hnd hsub).length_le
    simpa using this
  have hpos := drain_positioned I (configure pId specs docs) groups1 docs.length hw
    groups1.length 0 (docs.length + 1 + extra) (by omega) (by omega)
  have hfirst : eof I (configure pId specs docs) =
      eof I (positioned I (configure pId specs docs) groups1 docs.length 0) := by
    rw [eof_positioned]
    have hp : (configure pId specs docs : DocumentSourceGroup A).populated = false := by
      simp [configure_eq]
    simp only [eof, ensurePopulated, hp, h1]
    simp [positioned]
  have hunfold : drain I (docs.length + 1 + extra) (configure pId specs docs) =
      drain I (docs.length + 1 + extra)
        (positioned I (configure pId specs docs) groups1 docs.length 0) := by
    rw [show docs.length + 1 + extra = (docs.length + extra) + 1 by omega]
    simp only [drain, hfirst]
  rw [hunfold, hpos, hnames]
  simp

theorem head_recordOf (I : AccumulatorOps A) (names : List String)
    (e : Value × List A) : (recordOf I names e).head? = some (idName, e.1) := by
  simp [recordOf]

theorem getField_recordOf (I : AccumulatorOps A) (names : List String)
    (e : Value × List A) : Document.getField (recordOf I names e) idName = some e.1 := by
  simp [recordOf, Document.getField]

theorem length_recordOf (I : AccumulatorOps A) (names : List String)
    (e : Value × List A) (h : e.2.length = names.length) :
    (recordOf I names e).length = 1 + names.length := by
  simp [recordOf, h]; omega

theorem foldl_recording (ms : List Document) (a : RecordingAccumulator) :
    ms.foldl recordingAccumulators.evaluate a = { a with seen := a.seen ++ ms } := by
  induction ms generalizing a with
  | nil => simp
  | cons m rest ih =>
    simp only [List.foldl_cons, ih]
    simp [recordingAccumulators]

theorem foldl_push (e : Expression) (ms : List Document) (items : List Value) :
    ms.foldl specAccumulators.evaluate ⟨[e], .push items⟩ =
      ⟨[e], .push (items ++ ms.map e.evaluate)⟩ := by
  induction ms generalizing items with
  | nil => simp
  | cons m rest ih =>
    have step : specAccumulators.evaluate ⟨[e], .push items⟩ m =
        ⟨[e], .push (items ++ [e.evaluate m])⟩ := rfl
    simp only [List.foldl_cons, step, ih]
    simp

/-! ## The claims -/

/-- C1: draining a stage configured with any key expression and field
specifications over any finite upstream list returns (with enough fuel for one
round per record and one more) a list of records, each starting with the field
`_id`; the `_id` values ascend strictly under the comparator that keys the group
table, none occurs twice, and they are exactly the values of the key expression
over the input records. -/
theorem drain_ids_ascending_distinct (I : AccumulatorOps A) (pId : Expression)
    (specs : List (String × AccumulatorFactory × Expression)) (docs : List Document)
    (extra : Nat) :
    ∃ (outs : List Document) (keys : List Value),
      drain I (docs.length + 1 + extra) (configure pId specs docs) = .ok (outs.map some) ∧
      outs.map List.head? = keys.map (fun k => some (idName, k)) ∧
      outs.map (fun r => Document.getField r idName) = keys.map some ∧
      keys.Pairwise Value.lt ∧ keys.Nodup ∧
      ∀ k, k ∈ keys ↔ ∃ d ∈ docs, pId.evaluate d = k := by
  obtain ⟨groups1, t1, h1⟩ := drain_configure I pId specs docs extra
  refine ⟨groups1.map (recordOf I (specs.map (fun s => s.1))), groups1.map Prod.fst,
    ?_, ?_, ?_, t1.1, ?_, t1.2.1⟩
  · rw [h1]; simp
  · simp [head_recordOf]
  · simp [getField_recordOf]
  · exact List.Pairwise.imp (R := Value.lt) (S := fun a b => a ≠ b)
      (fun {a b} h e => by subst e; exact GroupsType.lt_irrefl _ h) t1.1

/-- C2: after `populate`, for every group key in the table and every field
index, the accumulator at that index is the fresh accumulator of the field
(made by its factory, bound to its expression) after evaluating exactly the
upstream records of that key, in arrival order, each once. A recording
accumulator has therefore seen exactly those records, and a Collect
accumulator's value is the array of the group's values in arrival order. -/
theorem populate_feeds_group_members (pId : Expression)
    (specs : List (String × AccumulatorFactory × Expression)) (docs : List Document) :
    (∀ (B : Type) (I : AccumulatorOps B), ∃ g,
      populate I (configure pId specs docs) = (.ok (), g) ∧ g.populated = true ∧
      ∀ key pGroup, (key, pGroup) ∈ g.groups →
        pGroup = specs.map (fun s =>
          (members pId docs key).foldl I.evaluate (I.addOperand (I.create s.2.1) s.2.2))) ∧
    (∃ g, populate recordingAccumulators (configure pId specs docs) = (.ok (), g) ∧
      ∀ key pGroup, (key, pGroup) ∈ g.groups →
        pGroup.map (fun a => a.seen) = specs.map (fun _ => members pId docs key)) ∧
    (∃ g, populate specAccumulators (configure pId specs docs) = (.ok (), g) ∧
      ∀ key pGroup (i : Nat) name e, (key, pGroup) ∈ g.groups →
        specs[i]? = some (name, AccumulatorFactory.AccumulatorPush_create, e) →
        (pGroup[i]?).map Accumulator.getValue =
          some (Value.arr ((members pId docs key).map e.evaluate))) := by
  have gen : ∀ (B : Type) (I : AccumulatorOps B), ∃ g,
      populate I (configure pId specs docs) = (.ok (), g) ∧ g.populated = true ∧
      ∀ key pGroup, (key, pGroup) ∈ g.groups →
        pGroup = specs.map (fun s =>
          (members pId docs key).foldl I.evaluate (I.addOperand (I.create s.2.1) s.2.2)) := by
    intro B I
    obtain ⟨groups1, t1, h1⟩ := populate_configure I pId specs docs
    refine ⟨_, h1, rfl, ?_⟩
    intro key pGroup hm
    exact t1.2.2 (key, pGroup) hm
  refine ⟨gen, ?_, ?_⟩
  · obtain ⟨g, hg, -, h⟩ := gen _ recordingAccumulators
    refine ⟨g, hg, ?_⟩
    intro key pGroup hm
    rw [h key pGroup hm, List.map_map]
    apply List.map_congr_left
    intro s _
    simp only [Function.comp_apply, foldl_recording]
    simp [recordingAccumulators]
  · obtain ⟨g, hg, -, h⟩ := gen _ specAccumulators
    refine ⟨g, hg, ?_⟩
    intro key pGroup i name e hm hs
    rw [h key pGroup hm, List.getElem?_map, hs]
    have h2 := foldl_push e (members pId docs key) []
    simp only [List.nil_append] at h2
    simp only [specAccumulators, Accumulator.create, Accumulator.addOperand,
      List.nil_append, Option.map_some'] at h2 ⊢
    rw [h2]
    simp [Accumulator.getValue]

/-- C3 fails on the empty input stream: with a constant key expression and no
upstream record the stage yields no output group at all, not one. -/
theorem constant_key_empty_stream_yields_nothing :
    drain specAccumulators 1
        (configure (Expression.other (fun _ => Value.num 7))
          [("n", AccumulatorFactory.AccumulatorSum_create, Expression.fieldPath "y")] []) =
      .ok [] ∧
    ¬ ∃ r, drain specAccumulators 1
        (configure (Expression.other (fun _ => Value.num 7))
          [("n", AccumulatorFactory.AccumulatorSum_create, Expression.fieldPath "y")] []) =
      .ok [r] := by
  have h : drain specAccumulators 1
        (configure (Expression.other (fun _ => Value.num 7))
          [("n", AccumulatorFactory.AccumulatorSum_create, Expression.fieldPath "y")] []) =
      .ok [] := rfl
  refine ⟨h, ?_⟩
  rintro ⟨r, hr⟩
  rw [h] at hr
  cases hr

/-- C3, amended: for every non-empty input stream on which the key expression
takes one constant value, the stage yields exactly one output group, keyed by
that value, whose accumulators have evaluated every input record, in order. -/
theorem constant_key_one_group (I : AccumulatorOps A) (pId : Expression)
    (specs : List (String × AccumulatorFactory × Expression)) (docs : List Document)
    (c : Value) (extra : Nat)
    (hne : docs ≠ []) (hconst : ∀ d ∈ docs, pId.evaluate d = c) :
    drain I (docs.length + 1 + extra) (configure pId specs docs) =
      .ok [some (recordOf I (specs.map (fun s => s.1))
        (c, specs.map (fun s => docs.foldl I.evaluate (I.addOperand (I.create s.2.1) s.2.2))))] := by
  obtain ⟨groups1, t1, h1⟩ := drain_configure I pId specs docs extra
  obtain ⟨hs, hk, ha⟩ := t1
  have hall : ∀ e ∈ groups1, e.1 = c := by
    intro e he
    obtain ⟨d, hd, hd2⟩ := (hk e.1).mp (List.mem_map_of_mem Prod.fst he)
    rw [← hd2, hconst d hd]
  have hmem : members pId docs c = docs := by
    unfold members
    rw [List.filter_eq_self]
    intro d hd
    simp [hconst d hd, Value.cmp_refl]
  obtain ⟨d0, hd0⟩ := List.exists_mem_of_ne_nil docs hne
  have hc : c ∈ groups1.map Prod.fst := (hk c).mpr ⟨d0, hd0, hconst d0 hd0⟩
  cases hg : groups1 with
  | nil => rw [hg] at hc; simp at hc
  | cons e rest =>
    cases hr : rest with
    | cons e2 rest2 =>
      rw [hg, hr] at hs hall
      simp only [List.map_cons, List.pairwise_cons, List.mem_cons, forall_eq_or_imp] at hs
      have h1 := hall e (by simp)
      have h2 := hall e2 (by simp)
      have := hs.1.1
      rw [h1, h2] at this
      exact absurd this (GroupsType.lt_irrefl c)
    | nil =>
      rw [h1, hg, hr]
      have he1 : e.1 = c := hall e (by simp [hg])
      have he2 := ha e (by simp [hg])
      rw [he1, hmem] at he2
      obtain ⟨k, v⟩ := e
      simp only at he1 he2
      subst he1 he2
      rfl

/-- Witness for the amended C3: one record, grouped under the constant 7. -/
theorem constant_key_one_group_witness :
    drain specAccumulators 2
        (configure (Expression.other (fun _ => Value.num 7))
          [("n", AccumulatorFactory.AccumulatorPush_create, Expression.fieldPath "y")]
          [[("y", Value.str "a")]]) =
      .ok [some [("_id", Value.num 7), ("n", Value.arr [Value.str "a"])]] :=
  constant_key_one_group specAccumulators (Expression.other (fun _ => Value.num 7))
    [("n", AccumulatorFactory.AccumulatorPush_create, Expression.fieldPath "y")]
    [[("y", Value.str "a")]] (Value.num 7) 0 (by simp) (by simp [Expression.evaluate])

theorem strcmp_id : strcmp "_id" "_id" = 0 := by decide

theorem strcmp_total : strcmp "total" "_id" ≠ 0 := by decide

theorem bsearch_sum :
    bsearch ⟨"$sum", .AccumulatorAvg_create⟩ GroupOpTable NGroupOp GroupOpDescCmp =
      some ⟨"$sum", .AccumulatorSum_create⟩ := by decide

/-- C4 fails at its first step: whatever the external expression parsers do,
`createFromBson` rejects the configuration whose `_id` is the string `$x`,
because the `_id` element is not object-shaped. -/
theorem createFromBson_rejects_string_id :
    ¬ ∃ (P : ExpressionParsers) (g : DocumentSourceGroup Accumulator),
      createFromBson P
        ("$group", BSONValue.Object
          [("_id", BSONValue.String "$x"),
           ("total", BSONValue.Object [("$sum", BSONValue.String "$y")])]) = .ok g := by
  rintro ⟨P, g, h⟩
  simp [createFromBson, parseGroupFields, BSONElement.type, BSONElement.Obj,
    BSONElement.fieldName, strcmp_id] at h

/-- C4, amended: when `_id` is given as an object-shaped specification that the
external parser reads as the field reference `x`, and the operand `$y` is read
as the field reference `y`, parsing succeeds, and the stage run over the three
records yields exactly the record with `_id` 1 and `total` 15, then the record
with `_id` 2 and `total` 3. -/
theorem createFromBson_sum_example (P : ExpressionParsers)
    (idSpec : List (String × BSONValue))
    (hid : P.parseObject ("_id", BSONValue.Object idSpec) = some (Expression.fieldPath "x"))
    (hop : P.parseOperand ("$sum", BSONValue.String "$y") = some (Expression.fieldPath "y")) :
    ∃ g : DocumentSourceGroup Accumulator,
      createFromBson P
        ("$group", BSONValue.Object
          [("_id", BSONValue.Object idSpec),
           ("total", BSONValue.Object [("$sum", BSONValue.String "$y")])]) = .ok g ∧
      drain specAccumulators 4
        (g.setSource
          [[("x", Value.num 1), ("y", Value.num 10)],
           [("x", Value.num 1), ("y", Value.num 5)],
           [("x", Value.num 2), ("y", Value.num 3)]]) =
        .ok [some [("_id", Value.num 1), ("total", Value.num 15)],
             some [("_id", Value.num 2), ("total", Value.num 3)]] := by
  refine ⟨parsedStage (Expression.fieldPath "x")
    [("total", AccumulatorFactory.AccumulatorSum_create, Expression.fieldPath "y")], ?_, ?_⟩
  · simp [createFromBson, parseGroupFields, parseSubFields, BSONElement.type,
      BSONElement.Obj, BSONElement.fieldName, strcmp_id, strcmp_total, hid, hop,
      bsearch_sum, parsedStage, setIdExpression, addAccumulator, create]
  · with_unfolding_all rfl

/-- Witness for the amended C4: parsers that read every key specification as
the field reference `x` and every operand as the field reference `y`. -/
theorem createFromBson_sum_example_witness :
    ∃ g : DocumentSourceGroup Accumulator,
      createFromBson
        ⟨fun _ => some (Expression.fieldPath "x"), fun _ => some (Expression.fieldPath "y")⟩
        ("$group", BSONValue.Object
          [("_id", BSONValue.Object [("k", BSONValue.String "$x")]),
           ("total", BSONValue.Object [("$sum", BSONValue.String "$y")])]) = .ok g ∧
      drain specAccumulators 4
        (g.setSource
          [[("x", Value.num 1), ("y", Value.num 10)],
           [("x", Value.num 1), ("y", Value.num 5)],
           [("x", Value.num 2), ("y", Value.num 3)]]) =
        .ok [some [("_id", Value.num 1), ("total", Value.num 15)],
             some [("_id", Value.num 2), ("total", Value.num 3)]] :=
  createFromBson_sum_example
    ⟨fun _ => some (Expression.fieldPath "x"), fun _ => some (Expression.fieldPath "y")⟩
    [("k", BSONValue.String "$x")] rfl rfl

/-! ### States reached through the pull interface -/

theorem call_eq_of_ensurePopulated (I : AccumulatorOps A) (g g1 : DocumentSourceGroup A)
    (h : ensurePopulated I g = ensurePopulated I g1) (c : Call) :
    call I g c = call I g1 c := by
  cases c <;> simp only [call, eof, advance, getCurrent, h]

theorem ensurePopulated_positioned (I : AccumulatorOps A) (g0 : DocumentSourceGroup A)
    (groups : GroupsType A) (pulled it : Nat) :
    ensurePopulated I (positioned I g0 groups pulled it) =
      (.ok (), positioned I g0 groups pulled it) := by
  simp [ensurePopulated, positioned]

theorem call_positioned (I : AccumulatorOps A) (g0 : DocumentSourceGroup A)
    (groups : GroupsType A) (pulled it : Nat)
    (hw : ∀ e ∈ groups, g0.vFieldName.length ≤ e.2.length) (hit : it ≤ groups.length)
    (c : Call) :
    ∃ it1, it1 ≤ groups.length ∧
      call I (positioned I g0 groups pulled it) c = positioned I g0 groups pulled it1 := by
  cases c with
  | eof => exact ⟨it, hit, by simp [call, eof_positioned]⟩
  | getCurrent => exact ⟨it, hit, by simp [call, getCurrent_positioned]⟩
  | advance =>
    by_cases hlt : it < groups.length
    · exact ⟨it + 1, hlt, by simp [call, advance_positioned I g0 groups pulled it hw hlt]⟩
    · have : it = groups.length := by omega
      subst this
      exact ⟨groups.length, hit, by simp [call, advance_positioned_end]⟩

theorem calls_positioned (I : AccumulatorOps A) (g0 : DocumentSourceGroup A)
    (groups : GroupsType A) (pulled : Nat)
    (hw : ∀ e ∈ groups, g0.vFieldName.length ≤ e.2.length) (cs : List Call) :
    ∀ it, it ≤ groups.length → ∃ it1, it1 ≤ groups.length ∧
      calls I (positioned I g0 groups pulled it) cs = positioned I g0 groups pulled it1 := by
  induction cs with
  | nil => intro it hit; exact ⟨it, hit, rfl⟩
  | cons c rest ih =>
    intro it hit
    obtain ⟨it1, h1, e1⟩ := call_positioned I g0 groups pulled it hw hit c
    obtain ⟨it2, h2, e2⟩ := ih it1 h1
    exact ⟨it2, h2, by simp only [calls, List.foldl_cons, e1] at e2 ⊢; exact e2⟩

theorem calls_configure (I : AccumulatorOps A) (pId : Expression)
    (specs : List (String × AccumulatorFactory × Expression)) (docs : List Document) :
    ∃ groups1, TableOf I pId specs docs groups1 ∧
      populate I (configure pId specs docs) =
        (.ok (), positioned I (configure pId specs docs) groups1 docs.length 0) ∧
      ∀ c cs, ∃ it, it ≤ groups1.length ∧
        calls I (configure pId specs docs) (c :: cs) =
          positioned I (configure pId specs docs) groups1 docs.length it := by
  obtain ⟨groups1, t1, h1⟩ := populate_configure I pId specs docs
  refine ⟨groups1, t1, h1, ?_⟩
  intro c cs
  have hnames : (configure pId specs docs : DocumentSourceGroup A).vFieldName =
      specs.map (fun s => s.1) := by simp [configure_eq]
  have hw : ∀ e ∈ groups1,
      (configure pId specs docs : DocumentSourceGroup A).vFieldName.length ≤ e.2.length := by
    intro e he
    rw [length_of_tableOf I pId specs docs groups1 t1 e he, hnames]; simp
  have hp : (configure pId specs docs : DocumentSourceGroup A).populated = false := by
    simp [configure_eq]
  have hens : ensurePopulated I (configure pId specs docs) =
      ensurePopulated I (positioned I (configure pId specs docs) groups1 docs.length 0) := by
    rw [ensurePopulated_positioned]
    simp only [ensurePopulated, hp, h1]
    simp
  have hcall := call_eq_of_ensurePopulated I _ _ hens c
  obtain ⟨it1, hi1, e1⟩ := call_positioned I (configure pId specs docs) groups1 docs.length 0
    hw (by omega) c
  obtain ⟨it2, hi2, e2⟩ := calls_positioned I (configure pId specs docs) groups1 docs.length
    hw cs it1 hi1
  refine ⟨it2, hi2, ?_⟩
  simp only [calls, List.foldl_cons, hcall, e1] at e2 ⊢
  exact e2

/-- C5: in every populated, non-exhausted state that a configured stage reaches
through calls of the pull interface, `getCurrent` returns (and leaves the stage
unchanged) the record of the entry under the cursor: first the field `_id` with
the group key, then one field for each field specification, in their order,
named by `vFieldName` and valued by `getValue` of the accumulator at the same
position; the record has one more field than there are field
specifications. -/
theorem getCurrent_returns_entry_record (I : AccumulatorOps A) (pId : Expression)
    (specs : List (String × AccumulatorFactory × Expression)) (docs : List Document)
    (cs : List Call)
    (hp : (calls I (configure pId specs docs) cs).populated = true)
    (hne : (calls I (configure pId specs docs) cs).groupsIterator ≠
      (calls I (configure pId specs docs) cs).groups.length) :
    ∃ key pGroup,
      (calls I (configure pId specs docs) cs).groups[
        (calls I (configure pId specs docs) cs).groupsIterator]? = some (key, pGroup) ∧
      (calls I (configure pId specs docs) cs).vFieldName = specs.map (fun s => s.1) ∧
      pGroup.length = specs.length ∧
      getCurrent I (calls I (configure pId specs docs) cs) =
        (.ok (some ((idName, key) ::
            List.zip (specs.map (fun s => s.1)) (pGroup.map I.getValue))),
          calls I (configure pId specs docs) cs) ∧
      ((idName, key) ::
        List.zip (specs.map (fun s => s.1)) (pGroup.map I.getValue)).length =
          1 + specs.length := by
  obtain ⟨groups1, t1, -, hcs⟩ := calls_configure I pId specs docs
  have hnames : (configure pId specs docs : DocumentSourceGroup A).vFieldName =
      specs.map (fun s => s.1) := by simp [configure_eq]
  cases cs with
  | nil => simp [calls, configure_eq] at hp
  | cons c rest =>
    obtain ⟨it, hit, e⟩ := hcs c rest
    rw [e] at hne ⊢
    have hlt : it < groups1.length := by
      simp only [positioned] at hne
      omega
    have hlen := length_of_tableOf I pId specs docs groups1 t1 _ (List.getElem_mem hlt)
    refine ⟨groups1[it].1, groups1[it].2, ?_, ?_, hlen, ?_, ?_⟩
    · simp [positioned, List.getElem?_eq_getElem hlt]
    · simp [positioned, hnames]
    · rw [getCurrent_positioned, List.getElem?_eq_getElem hlt, hnames]
      rfl
    · simp [hlen]; omega

/-- Witness for C5: the state after one `eof` call on a stage with one Collect
field over two records of one group. -/
theorem getCurrent_returns_entry_record_witness :
    ∃ key pGroup,
      (calls specAccumulators
        (configure (Expression.fieldPath "x")
          [("all", AccumulatorFactory.AccumulatorPush_create, Expression.fieldPath "y")]
          [[("x", Value.str "a"), ("y", Value.num 1)],
           [("x", Value.str "a"), ("y", Value.num 2)]]) [Call.eof]).groups[
        (calls specAccumulators
          (configure (Expression.fieldPath "x")
            [("all", AccumulatorFactory.AccumulatorPush_create, Expression.fieldPath "y")]
            [[("x", Value.str "a"), ("y", Value.num 1)],
             [("x", Value.str "a"), ("y", Value.num 2)]]) [Call.eof]).groupsIterator]? =
        some (key, pGroup) ∧
      (calls specAccumulators
        (configure (Expression.fieldPath "x")
          [("all", AccumulatorFactory.AccumulatorPush_create, Expression.fieldPath "y")]
          [[("x", Value.str "a"), ("y", Value.num 1)],
           [("x", Value.str "a"), ("y", Value.num 2)]]) [Call.eof]).vFieldName =
        [("all", AccumulatorFactory.AccumulatorPush_create, Expression.fieldPath "y")].map
          (fun s => s.1) ∧
      pGroup.length =
        [("all", AccumulatorFactory.AccumulatorPush_create, Expression.fieldPath "y")].length ∧
      getCurrent specAccumulators
        (calls specAccumulators
          (configure (Expression.fieldPath "x")
            [("all", AccumulatorFactory.AccumulatorPush_create, Expression.fieldPath "y")]
            [[("x", Value.str "a"), ("y", Value.num 1)],
             [("x", Value.str "a"), ("y", Value.num 2)]]) [Call.eof]) =
        (.ok (some ((idName, key) ::
            List.zip
              ([("all", AccumulatorFactory.AccumulatorPush_create,
                  Expression.fieldPath "y")].map (fun s => s.1))
              (pGroup.map specAccumulators.getValue))),
          calls specAccumulators
            (configure (Expression.fieldPath "x")
              [("all", AccumulatorFactory.AccumulatorPush_create, Expression.fieldPath "y")]
              [[("x", Value.str "a"), ("y", Value.num 1)],
               [("x", Value.str "a"), ("y", Value.num 2)]]) [Call.eof]) ∧
      ((idName, key) ::
        List.zip
          ([("all", AccumulatorFactory.AccumulatorPush_create,
              Expression.fieldPath "y")].map (fun s => s.1))
          (pGroup.map specAccumulators.getValue)).length =
          1 + [("all", AccumulatorFactory.AccumulatorPush_create,
                Expression.fieldPath "y")].length :=
  getCurrent_returns_entry_record specAccumulators (Expression.fieldPath "x")
    [("all", AccumulatorFactory.AccumulatorPush_create, Expression.fieldPath "y")]
    [[("x", Value.str "a"), ("y", Value.num 1)],
     [("x", Value.str "a"), ("y", Value.num 2)]] [Call.eof] rfl (by decide)

/-! ### Collaborators that raise -/

theorem raising_evaluateGroup_quiet (I : AccumulatorOps A) (R : Raises A) (d : Document)
    (v : List A) (hq : ∀ a ∈ v, R.accumulator a d = none) :
    Raising.evaluateGroup I R d v = (.ok (), v.map (fun a => I.evaluate a d)) := by
  induction v with
  | nil => rfl
  | cons a as ih =>
    have ha := hq a (by simp)
    have ih1 := ih (fun b hb => hq b (by simp [hb]))
    simp only [Raising.evaluateGroup, ha, ih1, List.map_cons]

theorem raising_evaluateAt_quiet (I : AccumulatorOps A) (R : Raises A) (d : Document)
    (groups : GroupsType A) :
    ∀ it : Nat, (∀ e, groups[it]? = some e → ∀ a ∈ e.2, R.accumulator a d = none) →
      Raising.evaluateAt I R d groups it =
        (.ok (), groups.modifyAt it (fun pGroup => pGroup.map (fun a => I.evaluate a d))) := by
  induction groups with
  | nil => intro it _; rfl
  | cons e rest ih =>
    intro it hq
    obtain ⟨k, v⟩ := e
    cases it with
    | zero =>
      have hv := raising_evaluateGroup_quiet I R d v (hq (k, v) (by simp))
      simp only [Raising.evaluateAt, hv, GroupsType.modifyAt]
    | succ it =>
      have ih1 := ih it (fun e he => hq e (by simpa using he))
      simp only [Raising.evaluateAt, ih1, GroupsType.modifyAt]

theorem modifyAt_getElem (groups : GroupsType A) (f : List A → List A) :
    ∀ it : Nat, (groups.modifyAt it f)[it]? = (groups[it]?).map (fun e => (e.1, f e.2)) := by
  induction groups with
  | nil => intro it; simp [GroupsType.modifyAt]
  | cons e rest ih =>
    intro it
    obtain ⟨k, v⟩ := e
    cases it with
    | zero => simp [GroupsType.modifyAt]
    | succ it => simpa [GroupsType.modifyAt] using ih it

theorem raising_populateDocument_quiet (I : AccumulatorOps A) (R : Raises A)
    (pId : Expression) (specs : List (String × AccumulatorFactory × Expression))
    (seen : List Document) (g : DocumentSourceGroup A) (d : Document)
    (hc : Configured pId specs g) (ht : TableOf I pId specs seen g.groups)
    (he : R.expression pId d = none)
    (ha : ∀ a ∈ foldedAccumulators I specs (members pId seen (pId.evaluate d)),
      R.accumulator a d = none) :
    ∃ groups1, Raising.populateDocument I R g d = (.ok (), groups1) ∧
      populateDocument I g d = .ok groups1 := by
  obtain ⟨hid, -, hfac, hexp⟩ := hc
  obtain ⟨hs, hk, hacc⟩ := ht
  unfold Raising.populateDocument populateDocument
  simp only [hid, he]
  by_cases hf : g.groups.find (pId.evaluate d) = g.groups.length
  · have habs := (GroupsType.find_eq_length_iff _ _).mp hf
    have hnone : ∀ d' ∈ seen, pId.evaluate d' ≠ pId.evaluate d := by
      intro d' hd' e
      obtain ⟨e', he', hk'⟩ := List.mem_map.mp ((hk (pId.evaluate d)).mpr ⟨d', hd', e⟩)
      exact habs e' he' hk'
    have hself : (pId.evaluate d, ([] : List A)) ∈
        g.groups.insert (pId.evaluate d, []) :=
      GroupsType.self_mem_insert _ _ habs
    have hfound : (g.groups.insert (pId.evaluate d, [])).find (pId.evaluate d) ≠
        (g.groups.insert (pId.evaluate d, [])).length := by
      intro e
      exact (GroupsType.find_eq_length_iff _ _).mp e _ hself rfl
    obtain ⟨v0, hv0⟩ := GroupsType.getElem_find _ _ hfound
    have hv0nil : v0 = [] := by
      rcases GroupsType.mem_insert _ _ _ (List.getElem?_mem hv0) with h | h
      · exact (Prod.mk.inj h).2
      · exact absurd rfl (habs _ h)
    subst hv0nil
    simp only [hf, ne_eq, not_true_eq_false, if_false, hfound, hfac, hexp,
      newAccumulators_specs]
    refine ⟨_, raising_evaluateAt_quiet I R d _ _ ?_, rfl⟩
    intro e hget a hmem
    rw [modifyAt_getElem, hv0] at hget
    simp only [Option.map_some', List.nil_append, Option.some.injEq] at hget
    subst hget
    apply ha
    rw [members_eq_nil pId seen _ hnone]
    exact hmem
  · obtain ⟨v, hv⟩ := GroupsType.getElem_find _ _ hf
    have hmem : (pId.evaluate d, v) ∈ g.groups := List.getElem?_mem hv
    simp only [hf, ne_eq, not_false_eq_true, if_true]
    refine ⟨_, raising_evaluateAt_quiet I R d _ _ ?_, rfl⟩
    intro e hget a hmema
    rw [hv] at hget
    simp only [Option.some.injEq] at hget
    subst hget
    apply ha
    rw [← hacc _ hmem]
    exact hmema

theorem raising_populateLoop_quiet (I : AccumulatorOps A) (R : Raises A)
    (pId : Expression) (specs : List (String × AccumulatorFactory × Expression))
    (docs seen : List Document) (pulled : Nat) (g : DocumentSourceGroup A)
    (hc : Configured pId specs g) (ht : TableOf I pId specs seen g.groups)
    (hq : QuietOn I R pId specs (seen ++ docs)) :
    Raising.populateLoop I R docs pulled g = populateLoop I docs pulled g := by
  induction docs generalizing seen pulled g with
  | nil => rfl
  | cons d rest ih =>
    have he : R.expression pId d = none := hq.1 d (by simp)
    have ha := hq.2 seen d rest rfl
    obtain ⟨groups1, h1, h2⟩ := raising_populateDocument_quiet I R pId specs seen g d hc ht he ha
    obtain ⟨groups2, h3, t1⟩ := populateDocument_tableOf I pId specs seen g d hc ht
    have e12 : groups2 = groups1 := by
      rw [h2] at h3
      exact (Except.ok.inj h3).symm
    subst e12
    have hc1 : Configured pId specs
        { g with groups := groups2, pSource := some ⟨rest, pulled + 1⟩ } := hc
    simp only [Raising.populateLoop, populateLoop, h1, h2]
    exact ih (seen ++ [d]) (pulled + 1) _ hc1 t1 (by simpa using hq)

theorem raising_populate_quiet (I : AccumulatorOps A) (R : Raises A)
    (pId : Expression) (specs : List (String × AccumulatorFactory × Expression))
    (docs : List Document) (pulled : Nat) (g : DocumentSourceGroup A)
    (hc : Configured pId specs g) (ht : g.groups = [])
    (hsrc : g.pSource = some ⟨docs, pulled⟩)
    (hq : QuietOn I R pId specs docs) :
    Raising.populate I R g = populate I g := by
  have ht0 : TableOf I pId specs [] g.groups := by
    rw [ht]; simp [TableOf]
  simp only [Raising.populate, populate, hsrc,
    raising_populateLoop_quiet I R pId specs docs [] pulled g hc ht0 (by simpa using hq)]

theorem raising_call_eq_of_ensurePopulated (I : AccumulatorOps A) (R : Raises A)
    (g g1 : DocumentSourceGroup A)
    (h : Raising.ensurePopulated I R g = Raising.ensurePopulated I R g1) (c : Call) :
    Raising.call I R g c = Raising.call I R g1 c := by
  cases c <;> simp only [Raising.call, Raising.eof, Raising.advance, Raising.getCurrent, h]

theorem raising_call_of_populated (I : AccumulatorOps A) (R : Raises A)
    (g : DocumentSourceGroup A) (c : Call) (hp : g.populated = true) :
    (Raising.call I R g c).groups = g.groups ∧ (Raising.call I R g c).pSource = g.pSource ∧
      (Raising.call I R g c).populated = true := by
  cases c with
  | eof => simp [Raising.call, Raising.eof, Raising.ensurePopulated, hp]
  | getCurrent => simp [Raising.call, Raising.getCurrent, Raising.ensurePopulated, hp]
  | advance =>
    simp only [Raising.call, Raising.advance, Raising.ensurePopulated, hp, if_true]
    split
    · exact ⟨rfl, rfl, hp⟩
    · split
      · exact ⟨rfl, rfl, rfl⟩
      · split
        · exact ⟨rfl, rfl, rfl⟩
        · exact ⟨rfl, rfl, rfl⟩

theorem raising_calls_of_populated (I : AccumulatorOps A) (R : Raises A) (cs : List Call) :
    ∀ g : DocumentSourceGroup A, g.populated = true →
      (Raising.calls I R g cs).groups = g.groups ∧
        (Raising.calls I R g cs).pSource = g.pSource ∧
        (Raising.calls I R g cs).populated = true := by
  induction cs with
  | nil => intro g hp; exact ⟨rfl, rfl, hp⟩
  | cons c rest ih =>
    intro g hp
    obtain ⟨h1, h2, h3⟩ := raising_call_of_populated I R g c hp
    obtain ⟨k1, k2, k3⟩ := ih (Raising.call I R g c) h3
    simp only [Raising.calls, List.foldl_cons] at k1 k2 k3 ⊢
    exact ⟨k1.trans h1, k2.trans h2, k3⟩

theorem raising_populateLoop_populated (I : AccumulatorOps A) (R : Raises A)
    (docs : List Document) :
    ∀ (pulled : Nat) (g : DocumentSourceGroup A),
      (Raising.populateLoop I R docs pulled g).2.populated = g.populated := by
  induction docs with
  | nil => intro pulled g; rfl
  | cons d rest ih =>
    intro pulled g
    simp only [Raising.populateLoop]
    cases hd : Raising.populateDocument I R g d with
    | mk r groups1 =>
      cases r with
      | error f => rfl
      | ok u => exact ih (pulled + 1) _

theorem raising_populateLoop_source (I : AccumulatorOps A) (R : Raises A)
    (docs : List Document) :
    ∀ (pulled : Nat) (g : DocumentSourceGroup A), g.pSource = some ⟨docs, pulled⟩ →
      (Raising.populateLoop I R docs pulled g).1 = .ok () →
      (Raising.populateLoop I R docs pulled g).2.pSource =
        some ⟨[], pulled + docs.length⟩ := by
  induction docs with
  | nil => intro pulled g hsrc _; simpa [Raising.populateLoop] using hsrc
  | cons d rest ih =>
    intro pulled g hsrc hok
    simp only [Raising.populateLoop] at hok ⊢
    cases hd : Raising.populateDocument I R g d with
    | mk r groups1 =>
      rw [hd] at hok
      cases r with
      | error f => simp at hok
      | ok u =>
        simp only at hok ⊢
        rw [ih (pulled + 1) _ rfl hok, List.length_cons]
        congr 2
        omega

theorem raising_populate_of_ok (I : AccumulatorOps A) (R : Raises A)
    (g : DocumentSourceGroup A) (hok : (Raising.populate I R g).1 = .ok ()) :
    (Raising.populate I R g).2.populated = true ∧
      ∀ docs pulled, g.pSource = some ⟨docs, pulled⟩ →
        (Raising.populate I R g).2.pSource = some ⟨[], pulled + docs.length⟩ := by
  unfold Raising.populate at hok ⊢
  cases hs : g.pSource with
  | none => rw [hs] at hok; simp at hok
  | some src =>
    obtain ⟨docs0, pulled0⟩ := src
    rw [hs] at hok
    simp only at hok ⊢
    have hsrc := raising_populateLoop_source I R docs0 pulled0 g hs
    cases hl : Raising.populateLoop I R docs0 pulled0 g with
    | mk r g1 =>
      rw [hl] at hok hsrc
      cases r with
      | error f => simp at hok
      | ok u =>
        simp only at hok hsrc ⊢
        have hsrc1 := hsrc trivial
        have hdone : ∀ docs pulled, some (⟨docs0, pulled0⟩ : Upstream) = some ⟨docs, pulled⟩ →
            g1.pSource = some ⟨[], pulled + docs.length⟩ := by
          intro docs pulled e
          cases e
          exact hsrc1
        by_cases hlen : (0 : Nat) ≠ g1.groups.length
        · rw [if_pos hlen] at hok ⊢
          cases hm : makeDocument I { g1 with groupsIterator := 0 } 0 with
          | error f => rw [hm] at hok; simp at hok
          | ok d => exact ⟨rfl, hdone⟩
        · rw [if_neg hlen]
          exact ⟨rfl, hdone⟩

theorem raising_populate_of_error (I : AccumulatorOps A) (R : Raises A)
    (g : DocumentSourceGroup A) (f : Fault)
    (herr : (Raising.populate I R g).1 = .error f) :
    (Raising.populate I R g).2.populated = g.populated := by
  unfold Raising.populate at herr ⊢
  cases hs : g.pSource with
  | none => rfl
  | some src =>
    obtain ⟨docs0, pulled0⟩ := src
    rw [hs] at herr
    simp only at herr ⊢
    have hpop := raising_populateLoop_populated I R docs0 pulled0 g
    cases hl : Raising.populateLoop I R docs0 pulled0 g with
    | mk r g1 =>
      rw [hl] at herr hpop
      cases r with
      | error f1 => exact hpop
      | ok u =>
        simp only at herr hpop ⊢
        by_cases hlen : (0 : Nat) ≠ g1.groups.length
        · rw [if_pos hlen] at herr ⊢
          cases hm : makeDocument I { g1 with groupsIterator := 0 } 0 with
          | error f1 => exact hpop
          | ok d => rw [hm] at herr; simp at herr
        · rw [if_neg hlen] at herr
          simp at herr

/-! ### With collaborators that never raise the two readings of the stage agree -/

theorem raising_populateDocument_never (I : AccumulatorOps A) (g : DocumentSourceGroup A)
    (d : Document) :
    Raising.populateDocument I Raises.never g d =
      match populateDocument I g d with
      | .ok groups1 => (.ok (), groups1)
      | .error f => (.error f, g.groups) := by
  have hat : ∀ (groups : GroupsType A) (it : Nat),
      Raising.evaluateAt I Raises.never d groups it =
        (.ok (), groups.modifyAt it (fun pGroup => pGroup.map (fun a => I.evaluate a d))) :=
    fun groups it => raising_evaluateAt_quiet I Raises.never d groups it
      (fun _ _ _ _ => rfl)
  unfold Raising.populateDocument populateDocument
  cases hid : g.pIdExpression with
  | none => rfl
  | some pId =>
    have hex : (Raises.never : Raises A).expression pId d = none := rfl
    simp only [hex]
    by_cases hf : g.groups.find (pId.evaluate d) = g.groups.length
    · simp only [hf, ne_eq, not_true_eq_false, if_false]
      by_cases h1 : (g.groups.insert (pId.evaluate d, [])).find (pId.evaluate d) =
          (g.groups.insert (pId.evaluate d, [])).length
      · simp only [h1, if_true]
      · simp only [h1, if_false]
        cases newAccumulators I g.vpAccumulatorFactory g.vpExpression with
        | error f => rfl
        | ok accs => exact hat _ _
    · simp only [hf, ne_eq, not_false_eq_true, if_true]
      exact hat _ _

theorem raising_populateLoop_never (I : AccumulatorOps A) (docs : List Document) :
    ∀ (pulled : Nat) (g : DocumentSourceGroup A),
      Raising.populateLoop I Raises.never docs pulled g = populateLoop I docs pulled g := by
  induction docs with
  | nil => intro pulled g; rfl
  | cons d rest ih =>
    intro pulled g
    simp only [Raising.populateLoop, populateLoop, raising_populateDocument_never]
    cases populateDocument I g d with
    | error f => rfl
    | ok groups1 => exact ih _ _

theorem raising_ensurePopulated_never (I : AccumulatorOps A) (g : DocumentSourceGroup A) :
    Raising.ensurePopulated I Raises.never g = ensurePopulated I g := by
  simp only [Raising.ensurePopulated, ensurePopulated, Raising.populate, populate,
    raising_populateLoop_never]

theorem raising_call_never (I : AccumulatorOps A) (g : DocumentSourceGroup A) (c : Call) :
    Raising.call I Raises.never g c = call I g c := by
  cases c <;>
    simp only [Raising.call, call, Raising.eof, eof, Raising.advance, advance,
      Raising.getCurrent, getCurrent, raising_ensurePopulated_never]

theorem raising_calls_never (I : AccumulatorOps A) (cs : List Call) :
    ∀ g : DocumentSourceGroup A, Raising.calls I Raises.never g cs = calls I g cs := by
  induction cs with
  | nil => intro g; rfl
  | cons c rest ih =>
    intro g
    simp only [Raising.calls, calls, List.foldl_cons, raising_call_never]
    exact ih _

/-- C9 fails when a collaborator raises during population. The stage has two
Sum fields, over `y` and over `z`, and the first upstream record carries a
string under `z`. The first `eof` call runs `populate`, which inserts the group
of the record, lets the first Sum take it, and is left when the second Sum
raises NonNumericAccumulatorInput: `populated` is not set and the upstream is
not drained. The second `eof` call therefore runs `populate` again, on the
table as it was left, and the first Sum takes the same record a second time: a
later call has read the upstream and modified the table. -/
theorem populate_raise_leaves_unpopulated_and_reenters :
    (Raising.eof specAccumulators specRaises
      (configure (Expression.fieldPath "x")
        [("a", AccumulatorFactory.AccumulatorSum_create, Expression.fieldPath "y"),
         ("b", AccumulatorFactory.AccumulatorSum_create, Expression.fieldPath "z")]
        [[("x", Value.num 1), ("y", Value.num 1), ("z", Value.str "s")],
         [("x", Value.num 2), ("y", Value.num 2), ("z", Value.num 2)]])).1 =
      .error Fault.NonNumericAccumulatorInput ∧
    (Raising.calls specAccumulators specRaises
      (configure (Expression.fieldPath "x")
        [("a", AccumulatorFactory.AccumulatorSum_create, Expression.fieldPath "y"),
         ("b", AccumulatorFactory.AccumulatorSum_create, Expression.fieldPath "z")]
        [[("x", Value.num 1), ("y", Value.num 1), ("z", Value.str "s")],
         [("x", Value.num 2), ("y", Value.num 2), ("z", Value.num 2)]])
      [Call.eof]).populated = false ∧
    (Raising.calls specAccumulators specRaises
      (configure (Expression.fieldPath "x")
        [("a", AccumulatorFactory.AccumulatorSum_create, Expression.fieldPath "y"),
         ("b", AccumulatorFactory.AccumulatorSum_create, Expression.fieldPath "z")]
        [[("x", Value.num 1), ("y", Value.num 1), ("z", Value.str "s")],
         [("x", Value.num 2), ("y", Value.num 2), ("z", Value.num 2)]])
      [Call.eof]).pSource =
      some ⟨[[("x", Value.num 1), ("y", Value.num 1), ("z", Value.str "s")],
         [("x", Value.num 2), ("y", Value.num 2), ("z", Value.num 2)]], 0⟩ ∧
    (Raising.calls specAccumulators specRaises
      (configure (Expression.fieldPath "x")
        [("a", AccumulatorFactory.AccumulatorSum_create, Expression.fieldPath "y"),
         ("b", AccumulatorFactory.AccumulatorSum_create, Expression.fieldPath "z")]
        [[("x", Value.num 1), ("y", Value.num 1), ("z", Value.str "s")],
         [("x", Value.num 2), ("y", Value.num 2), ("z", Value.num 2)]])
      [Call.eof]).groups =
      [(Value.num 1, [⟨[Expression.fieldPath "y"], AccState.sum 1⟩,
        ⟨[Expression.fieldPath "z"], AccState.sum 0⟩])] ∧
    (Raising.calls specAccumulators specRaises
      (configure (Expression.fieldPath "x")
        [("a", AccumulatorFactory.AccumulatorSum_create, Expression.fieldPath "y"),
         ("b", AccumulatorFactory.AccumulatorSum_create, Expression.fieldPath "z")]
        [[("x", Value.num 1), ("y", Value.num 1), ("z", Value.str "s")],
         [("x", Value.num 2), ("y", Value.num 2), ("z", Value.num 2)]])
      [Call.eof, Call.eof]).groups =
      [(Value.num 1, [⟨[Expression.fieldPath "y"], AccState.sum 2⟩,
        ⟨[Expression.fieldPath "z"], AccState.sum 0⟩])] ∧
    (Raising.calls specAccumulators specRaises
      (configure (Expression.fieldPath "x")
        [("a", AccumulatorFactory.AccumulatorSum_create, Expression.fieldPath "y"),
         ("b", AccumulatorFactory.AccumulatorSum_create, Expression.fieldPath "z")]
        [[("x", Value.num 1), ("y", Value.num 1), ("z", Value.str "s")],
         [("x", Value.num 2), ("y", Value.num 2), ("z", Value.num 2)]])
      [Call.eof, Call.eof]).populated = false ∧
    AccState.sum 2 ≠ AccState.sum 1 := by
  refine ⟨?_, ?_, ?_, ?_, ?_, ?_, ?_⟩
  · with_unfolding_all rfl
  · with_unfolding_all rfl
  · with_unfolding_all rfl
  · with_unfolding_all rfl
  · with_unfolding_all rfl
  · with_unfolding_all rfl
  · intro h
    have h2 : (2 : ℚ) = 1 := AccState.sum.inj h
    norm_num at h2

/-- C9, amended: for every stage state, all collaborators and every sequence of
calls of `eof`, `advance` and `getCurrent`. On an unpopulated stage the first
call runs `populate`; when `populate` completes, it has pulled the upstream to
its end (every remaining record once) and set `populated`, and no later call
changes the upstream or the table. On a populated stage no call changes the
upstream or the table. When a collaborator raises inside `populate`, the call
raises that fault and leaves the stage as `populate` left it, still
unpopulated. `populate` does complete on a configured stage whenever no
collaborator raises on the records of the upstream, and it then does what it
does with collaborators that cannot raise; with collaborators that never raise,
every sequence of calls leaves the stage as `calls` says. -/
theorem populate_completed_drains_once_table_frozen (I : AccumulatorOps A) (R : Raises A) :
    (∀ (g : DocumentSourceGroup A) (c : Call) (cs : List Call),
      g.populated = false → (Raising.populate I R g).1 = .ok () →
        (Raising.call I R g c).populated = true ∧
        (Raising.call I R g c).groups = (Raising.populate I R g).2.groups ∧
        (Raising.call I R g c).pSource = (Raising.populate I R g).2.pSource ∧
        (∀ docs pulled, g.pSource = some ⟨docs, pulled⟩ →
          (Raising.call I R g c).pSource = some ⟨[], pulled + docs.length⟩) ∧
        (Raising.calls I R (Raising.call I R g c) cs).populated = true ∧
        (Raising.calls I R (Raising.call I R g c) cs).groups =
          (Raising.call I R g c).groups ∧
        (Raising.calls I R (Raising.call I R g c) cs).pSource =
          (Raising.call I R g c).pSource) ∧
    (∀ (g : DocumentSourceGroup A) (cs : List Call), g.populated = true →
      (Raising.calls I R g cs).populated = true ∧
      (Raising.calls I R g cs).groups = g.groups ∧
      (Raising.calls I R g cs).pSource = g.pSource) ∧
    (∀ (g : DocumentSourceGroup A) (c : Call) (f : Fault),
      g.populated = false → (Raising.populate I R g).1 = .error f →
        Raising.fault I R g c = some f ∧
        Raising.call I R g c = (Raising.populate I R g).2 ∧
        (Raising.call I R g c).populated = false) ∧
    (∀ (pId : Expression) (specs : List (String × AccumulatorFactory × Expression))
      (docs : List Document) (c : Call) (cs : List Call),
      QuietOn I R pId specs docs →
        Raising.populate I R (configure pId specs docs) =
          populate I (configure pId specs docs) ∧
        (Raising.populate I R (configure pId specs docs)).1 = .ok () ∧
        (Raising.calls I R (configure pId specs docs) (c :: cs)).populated = true ∧
        (Raising.calls I R (configure pId specs docs) (c :: cs)).groups =
          (Raising.populate I R (configure pId specs docs)).2.groups ∧
        (Raising.calls I R (configure pId specs docs) (c :: cs)).pSource =
          some ⟨[], docs.length⟩) ∧
    (∀ (g : DocumentSourceGroup A) (cs : List Call),
      Raising.calls I Raises.never g cs = calls I g cs) := by
  have part2 : ∀ (g : DocumentSourceGroup A) (cs : List Call), g.populated = true →
      (Raising.calls I R g cs).populated = true ∧
      (Raising.calls I R g cs).groups = g.groups ∧
      (Raising.calls I R g cs).pSource = g.pSource := by
    intro g cs hp
    obtain ⟨h1, h2, h3⟩ := raising_calls_of_populated I R cs g hp
    exact ⟨h3, h1, h2⟩
  have part1 : ∀ (g : DocumentSourceGroup A) (c : Call),
      g.populated = false → (Raising.populate I R g).1 = .ok () →
        (Raising.call I R g c).populated = true ∧
        (Raising.call I R g c).groups = (Raising.populate I R g).2.groups ∧
        (Raising.call I R g c).pSource = (Raising.populate I R g).2.pSource := by
    intro g c hp hok
    obtain ⟨hpop, -⟩ := raising_populate_of_ok I R g hok
    have hens : Raising.ensurePopulated I R g =
        Raising.ensurePopulated I R (Raising.populate I R g).2 := by
      have e1 : Raising.ensurePopulated I R g = Raising.populate I R g := by
        simp [Raising.ensurePopulated, hp]
      have e2 : Raising.ensurePopulated I R (Raising.populate I R g).2 =
          (.ok (), (Raising.populate I R g).2) := by
        simp [Raising.ensurePopulated, hpop]
      rw [e1, e2]
      exact Prod.ext hok rfl
    rw [raising_call_eq_of_ensurePopulated I R _ _ hens c]
    obtain ⟨h1, h2, h3⟩ := raising_call_of_populated I R (Raising.populate I R g).2 c hpop
    exact ⟨h3, h1, h2⟩
  refine ⟨?_, part2, ?_, ?_, fun g cs => raising_calls_never I cs g⟩
  · intro g c cs hp hok
    obtain ⟨h1, h2, h3⟩ := part1 g c hp hok
    obtain ⟨k1, k2, k3⟩ := part2 (Raising.call I R g c) cs h1
    refine ⟨h1, h2, h3, ?_, k1, k2, k3⟩
    intro docs pulled hsrc
    rw [h3]
    exact (raising_populate_of_ok I R g hok).2 docs pulled hsrc
  · intro g c f hp herr
    have hpop := raising_populate_of_error I R g f herr
    have hens : Raising.ensurePopulated I R g = Raising.populate I R g := by
      simp [Raising.ensurePopulated, hp]
    have hpair : Raising.populate I R g = (.error f, (Raising.populate I R g).2) :=
      Prod.ext herr rfl
    have hcall : Raising.call I R g c = (Raising.populate I R g).2 := by
      cases c <;>
        simp only [Raising.call, Raising.eof, Raising.advance, Raising.getCurrent, hens] <;>
        rw [hpair]
    refine ⟨?_, hcall, ?_⟩
    · cases c <;>
        simp only [Raising.fault, Raising.eof, Raising.advance, Raising.getCurrent, hens] <;>
        rw [hpair]
    · rw [hcall, hpop, hp]
  · intro pId specs docs c cs hq
    have heq := raising_populate_quiet I R pId specs docs 0 (configure pId specs docs)
      (configured_configure pId specs docs) (by simp [configure_eq])
      (by simp [configure_eq]) hq
    obtain ⟨groups1, -, hpop⟩ := populate_configure I pId specs docs
    have hok : (Raising.populate I R (configure pId specs docs)).1 = .ok () := by
      rw [heq, hpop]
    have hp : (configure pId specs docs : DocumentSourceGroup A).populated = false := by
      simp [configure_eq]
    obtain ⟨h1, h2, h3⟩ := part1 _ c hp hok
    obtain ⟨k1, k2, k3⟩ := part2 (Raising.call I R (configure pId specs docs) c) cs h1
    have hsrc := (raising_populate_of_ok I R _ hok).2 docs 0 (by simp [configure_eq])
    refine ⟨heq, hok, ?_, ?_, ?_⟩
    · simpa only [Raising.calls, List.foldl_cons] using k1
    · simp only [Raising.calls, List.foldl_cons] at k2 ⊢
      rw [k2, h2]
    · simp only [Raising.calls, List.foldl_cons] at k3 ⊢
      rw [k3, h3, hsrc]
      simp

/-- Witness for the amended C9: a stage with one Sum field over two numeric
records of one group, with the accumulators of section 4.2 and their runtime
error. No collaborator raises on these records, so the first call populates the
stage and the later calls leave the drained upstream as it is. -/
theorem populate_completed_drains_once_table_frozen_witness :
    QuietOn specAccumulators specRaises (Expression.fieldPath "x")
      [("a", AccumulatorFactory.AccumulatorSum_create, Expression.fieldPath "y")]
      [[("x", Value.num 1), ("y", Value.num 1)], [("x", Value.num 1), ("y", Value.num 2)]] ∧
    (Raising.populate specAccumulators specRaises
      (configure (Expression.fieldPath "x")
        [("a", AccumulatorFactory.AccumulatorSum_create, Expression.fieldPath "y")]
        [[("x", Value.num 1), ("y", Value.num 1)],
         [("x", Value.num 1), ("y", Value.num 2)]])).1 = .ok () ∧
    (Raising.calls specAccumulators specRaises
      (configure (Expression.fieldPath "x")
        [("a", AccumulatorFactory.AccumulatorSum_create, Expression.fieldPath "y")]
        [[("x", Value.num 1), ("y", Value.num 1)],
         [("x", Value.num 1), ("y", Value.num 2)]])
      [Call.eof, Call.getCurrent, Call.advance]).populated = true ∧
    (Raising.calls specAccumulators specRaises
      (configure (Expression.fieldPath "x")
        [("a", AccumulatorFactory.AccumulatorSum_create, Expression.fieldPath "y")]
        [[("x", Value.num 1), ("y", Value.num 1)],
         [("x", Value.num 1), ("y", Value.num 2)]])
      [Call.eof, Call.getCurrent, Call.advance]).pSource = some ⟨[], 2⟩ := by
  have hq : QuietOn specAccumulators specRaises (Expression.fieldPath "x")
      [("a", AccumulatorFactory.AccumulatorSum_create, Expression.fieldPath "y")]
      [[("x", Value.num 1), ("y", Value.num 1)],
       [("x", Value.num 1), ("y", Value.num 2)]] := by
    refine ⟨fun _ _ => rfl, ?_⟩
    intro seen d rest h a ha
    rcases seen with _ | ⟨s1, _ | ⟨s2, seen⟩⟩
    · simp only [List.nil_append, List.cons.injEq] at h
      obtain ⟨rfl, -⟩ := h
      simp only [foldedAccumulators, List.map_cons, List.map_nil, List.mem_singleton] at ha
      subst ha
      with_unfolding_all rfl
    · simp only [List.cons_append, List.nil_append, List.cons.injEq] at h
      obtain ⟨rfl, rfl, -⟩ := h
      simp only [foldedAccumulators, List.map_cons, List.map_nil, List.mem_singleton] at ha
      subst ha
      with_unfolding_all rfl
    · simp at h
  have h := (populate_completed_drains_once_table_frozen specAccumulators specRaises).2.2.2.1
    (Expression.fieldPath "x")
    [("a", AccumulatorFactory.AccumulatorSum_create, Expression.fieldPath "y")]
    [[("x", Value.num 1), ("y", Value.num 1)], [("x", Value.num 1), ("y", Value.num 2)]]
    Call.eof [Call.getCurrent, Call.advance] hq
  exact ⟨hq, h.2.1, h.2.2.1, h.2.2.2.2⟩

/-- C10: in every populated state with the cursor at a valid entry that a
configured stage reaches through calls of the pull interface, `advance` moves
the cursor one entry on in key order and leaves the table as it is; if there is
a next entry it returns true and `getCurrent` then returns that entry's record;
if there is none it returns false, the cached record is cleared and `eof` is
true; in both cases the value returned is the negation of `eof` right
after. -/
theorem advance_moves_to_next_entry (I : AccumulatorOps A) (pId : Expression)
    (specs : List (String × AccumulatorFactory × Expression)) (docs : List Document)
    (cs : List Call)
    (hp : (calls I (configure pId specs docs) cs).populated = true)
    (hit : (calls I (configure pId specs docs) cs).groupsIterator <
      (calls I (configure pId specs docs) cs).groups.length) :
    (advance I (calls I (configure pId specs docs) cs)).2.groupsIterator =
      (calls I (configure pId specs docs) cs).groupsIterator + 1 ∧
    (advance I (calls I (configure pId specs docs) cs)).2.groups =
      (calls I (configure pId specs docs) cs).groups ∧
    (∀ e, (calls I (configure pId specs docs) cs).groups[
        (calls I (configure pId specs docs) cs).groupsIterator + 1]? = some e →
      (advance I (calls I (configure pId specs docs) cs)).1 = .ok true ∧
      getCurrent I (advance I (calls I (configure pId specs docs) cs)).2 =
        (.ok (some (recordOf I (specs.map (fun s => s.1)) e)),
          (advance I (calls I (configure pId specs docs) cs)).2)) ∧
    ((calls I (configure pId specs docs) cs).groups[
        (calls I (configure pId specs docs) cs).groupsIterator + 1]? = none →
      (advance I (calls I (configure pId specs docs) cs)).1 = .ok false ∧
      (advance I (calls I (configure pId specs docs) cs)).2.pCurrent = none ∧
      (eof I (advance I (calls I (configure pId specs docs) cs)).2).1 = .ok true) ∧
    ∃ b, (advance I (calls I (configure pId specs docs) cs)).1 = .ok b ∧
      (eof I (advance I (calls I (configure pId specs docs) cs)).2).1 = .ok (!b) := by
  obtain ⟨groups1, t1, -, hcs⟩ := calls_configure I pId specs docs
  have hnames : (configure pId specs docs : DocumentSourceGroup A).vFieldName =
      specs.map (fun s => s.1) := by simp [configure_eq]
  have hw : ∀ e ∈ groups1,
      (configure pId specs docs : DocumentSourceGroup A).vFieldName.length ≤ e.2.length := by
    intro e he
    rw [length_of_tableOf I pId specs docs groups1 t1 e he, hnames]; simp
  cases cs with
  | nil => simp [calls, configure_eq] at hp
  | cons c rest =>
    obtain ⟨it, -, e⟩ := hcs c rest
    rw [e] at hit ⊢
    have hlt : it < groups1.length := by simpa [positioned] using hit
    rw [advance_positioned I _ groups1 docs.length it hw hlt, eof_positioned,
      getCurrent_positioned, hnames]
    refine ⟨by simp [positioned], by simp [positioned], ?_, ?_, ?_⟩
    · intro e1 he1
      have he2 : groups1[it + 1]? = some e1 := by simpa [positioned] using he1
      have hlt2 : it + 1 < groups1.length := by
        rcases Nat.lt_or_ge (it + 1) groups1.length with h | h
        · exact h
        · rw [List.getElem?_eq_none h] at he2; cases he2
      have hne : it + 1 ≠ groups1.length := by omega
      simp [hne, he2]
    · intro he1
      have he2 : groups1[it + 1]? = none := by simpa [positioned] using he1
      have hge : groups1.length ≤ it + 1 := List.getElem?_eq_none_iff.mp he2
      have heq : it + 1 = groups1.length := by omega
      simp [heq, positioned]
    · refine ⟨decide (it + 1 ≠ groups1.length), rfl, ?_⟩
      by_cases h : it + 1 = groups1.length <;> simp [h]

/-- Witness for C10: the state after one `eof` call on a stage with two
groups. -/
theorem advance_moves_to_next_entry_witness :
    (advance specAccumulators
      (calls specAccumulators
        (configure (Expression.fieldPath "x") []
          [[("x", Value.str "a")], [("x", Value.str "b")]]) [Call.eof])).1 = .ok true ∧
    (getCurrent specAccumulators
      (advance specAccumulators
        (calls specAccumulators
          (configure (Expression.fieldPath "x") []
            [[("x", Value.str "a")], [("x", Value.str "b")]]) [Call.eof])).2).1 =
      .ok (some [("_id", Value.str "b")]) :=
  have h := advance_moves_to_next_entry specAccumulators (Expression.fieldPath "x") []
    [[("x", Value.str "a")], [("x", Value.str "b")]] [Call.eof] rfl (by decide)
  ⟨(h.2.2.1 (Value.str "b", []) rfl).1,
    congrArg Prod.fst (h.2.2.1 (Value.str "b", []) rfl).2⟩

/-! ### `createFromBson` -/

theorem strcmpChars_eq_zero_iff (a b : List Char) : strcmpChars a b = 0 ↔ a = b := by
  induction a generalizing b with
  | nil => cases b <;> simp [strcmpChars]
  | cons x xs ih =>
    cases b with
    | nil => simp [strcmpChars]
    | cons y ys =>
      simp only [strcmpChars, List.cons.injEq]
      by_cases h1 : x < y
      · simp [h1, ne_of_lt h1]
      · by_cases h2 : y < x
        · simp [h1, h2, (ne_of_lt h2).symm]
        · have : x = y := le_antisymm (not_lt.mp h2) (not_lt.mp h1)
          simp [h1, h2, this, ih]

theorem strcmp_eq_zero_iff (a b : String) : strcmp a b = 0 ↔ a = b := by
  unfold strcmp
  rw [strcmpChars_eq_zero_iff]
  exact ⟨fun h => String.ext h, fun h => h ▸ rfl⟩

theorem bsearchLoop_some (key : GroupOpDesc) (base : List GroupOpDesc)
    (compar : GroupOpDesc → GroupOpDesc → Int) (p : GroupOpDesc) :
    ∀ fuel lo hi, bsearchLoop key base compar fuel lo hi = some p →
      p ∈ base ∧ compar key p = 0 := by
  intro fuel
  induction fuel with
  | zero => intro lo hi h; simp [bsearchLoop] at h
  | succ n ih =>
    intro lo hi h
    simp only [bsearchLoop] at h
    split at h
    · split at h
      · cases h
      · rename_i q hq
        split at h
        · cases h
          exact ⟨List.getElem?_mem hq, by assumption⟩
        · split at h
          · exact ih _ _ h
          · exact ih _ _ h
    · cases h

theorem bsearch_some (name : String) (f : AccumulatorFactory) (p : GroupOpDesc)
    (h : bsearch ⟨name, f⟩ GroupOpTable NGroupOp GroupOpDescCmp = some p) :
    p ∈ GroupOpTable ∧ p.pName = name := by
  obtain ⟨h1, h2⟩ := bsearchLoop_some _ _ _ _ _ _ _ h
  exact ⟨h1, ((strcmp_eq_zero_iff _ _).mp h2).symm⟩

theorem bsearch_registered (d : GroupOpDesc) (hd : d ∈ GroupOpTable) :
    bsearch ⟨d.pName, .AccumulatorAvg_create⟩ GroupOpTable NGroupOp GroupOpDescCmp =
      some d := by
  simp only [GroupOpTable, List.mem_cons, List.mem_singleton, List.not_mem_nil,
    or_false] at hd
  rcases hd with h | h | h | h | h <;> subst h <;> decide

theorem registeredFactory_some (name : String) (factory : AccumulatorFactory)
    (h : registeredFactory name = some factory) :
    bsearch ⟨name, .AccumulatorAvg_create⟩ GroupOpTable NGroupOp GroupOpDescCmp =
      some ⟨name, factory⟩ := by
  unfold registeredFactory at h
  cases hf : GroupOpTable.find? (fun d => decide (d.pName = name)) with
  | none => rw [hf] at h; simp at h
  | some d =>
    rw [hf] at h
    simp only [Option.map_some', Option.some.injEq] at h
    have hm := List.mem_of_find?_eq_some hf
    have hn := List.find?_some hf
    simp only [decide_eq_true_eq] at hn
    have := bsearch_registered d hm
    rw [hn] at this
    rw [this]
    cases d
    simp_all

theorem parseSubFields_ok (P : ExpressionParsers) (pFieldName : String)
    (subs : List BSONElement) :
    ∀ (g : DocumentSourceGroup A) (k : Nat) (r : DocumentSourceGroup A × Nat),
      parseSubFields P pFieldName subs g k = .ok r →
      r.2 = k + subs.length ∧
      ∀ sub ∈ subs, Registered sub.fieldName ∧ sub.type ≠ BSONType.Array := by
  induction subs with
  | nil =>
    intro g k r h
    simp only [parseSubFields, Except.ok.injEq] at h
    subst h
    simp
  | cons sub rest ih =>
    intro g k r h
    simp only [parseSubFields] at h
    cases hb : bsearch ⟨sub.fieldName, .AccumulatorAvg_create⟩ GroupOpTable NGroupOp
        GroupOpDescCmp with
    | none => rw [hb] at h; simp at h
    | some pOp =>
      rw [hb] at h
      simp only at h
      obtain ⟨hm, hn⟩ := bsearch_some _ _ _ hb
      have hreg : Registered sub.fieldName := ⟨pOp, hm, hn⟩
      by_cases ho : sub.type = BSONType.Object
      · have hna : sub.type ≠ BSONType.Array := by rw [ho]; decide
        simp only [ho, if_true] at h
        cases hp : P.parseObject sub with
        | none => rw [hp] at h; simp at h
        | some e =>
          rw [hp] at h
          simp only at h
          obtain ⟨h1, h2⟩ := ih _ _ _ h
          refine ⟨by rw [h1, List.length_cons]; omega, ?_⟩
          intro s hs
          rcases List.mem_cons.mp hs with e1 | e1
          · subst e1; exact ⟨hreg, hna⟩
          · exact h2 s e1
      · simp only [ho, if_false] at h
        by_cases ha : sub.type = BSONType.Array
        · simp [ha] at h
        · simp only [ha, if_false] at h
          cases hp : P.parseOperand sub with
          | none => rw [hp] at h; simp at h
          | some e =>
            rw [hp] at h
            simp only at h
            obtain ⟨h1, h2⟩ := ih _ _ _ h
            refine ⟨by rw [h1, List.length_cons]; omega, ?_⟩
            intro s hs
            rcases List.mem_cons.mp hs with e1 | e1
            · subst e1; exact ⟨hreg, ha⟩
            · exact h2 s e1

theorem parseGroupFields_ok (P : ExpressionParsers) (fields : List BSONElement) :
    ∀ (g : DocumentSourceGroup A) (idSet : Bool) (r : DocumentSourceGroup A × Bool),
      parseGroupFields P fields g idSet = .ok r →
      (∀ e ∈ fields, e.fieldName ≠ "_id" → FieldAccepted e) ∧
      (∀ e ∈ fields, e.fieldName = "_id" → e.type = BSONType.Object) ∧
      (fields.filter (fun e => decide (e.fieldName = "_id"))).length +
        (if idSet then 1 else 0) ≤ 1 ∧
      (r.2 = true → idSet = true ∨ ∃ e ∈ fields, e.fieldName = "_id") := by
  induction fields with
  | nil =>
    intro g idSet r h
    simp only [parseGroupFields, Except.ok.injEq] at h
    subst h
    cases idSet <;> simp
  | cons e rest ih =>
    intro g idSet r h
    simp only [parseGroupFields, strcmp_eq_zero_iff] at h
    by_cases hid : e.fieldName = "_id"
    · simp only [hid, if_true] at h
      cases idSet with
      | true => simp at h
      | false =>
        simp only [Bool.false_eq_true, if_false] at h
        by_cases ho : e.type = BSONType.Object
        · simp only [ho, ne_eq, not_true_eq_false, if_false] at h
          cases hp : P.parseObject e with
          | none => rw [hp] at h; simp at h
          | some pId =>
            rw [hp] at h
            simp only at h
            obtain ⟨h1, h2, h3, h4⟩ := ih _ _ _ h
            refine ⟨?_, ?_, ?_, ?_⟩
            · intro x hx hne
              rcases List.mem_cons.mp hx with e1 | e1
              · subst e1; exact absurd hid hne
              · exact h1 x e1 hne
            · intro x hx _
              rcases List.mem_cons.mp hx with e1 | e1
              · subst e1; exact ho
              · exact h2 x e1 (by assumption)
            · simp only [if_true] at h3
              simp only [hid, decide_True, List.filter_cons_of_pos, List.length_cons,
                Bool.false_eq_true, if_false]
              omega
            · intro _
              exact Or.inr ⟨e, by simp, hid⟩
        · simp [ho] at h
    · simp only [hid, if_false] at h
      by_cases hd : e.fieldName.data.head? = some '$'
      · simp [hd] at h
      · simp only [hd, if_false] at h
        by_cases ho : e.type = BSONType.Object
        · simp only [ho, ne_eq, not_true_eq_false, if_false] at h
          cases hs : parseSubFields P e.fieldName e.Obj g 0 with
          | error f => rw [hs] at h; simp at h
          | ok r1 =>
            obtain ⟨g1, subCount⟩ := r1
            rw [hs] at h
            simp only at h
            obtain ⟨c1, c2⟩ := parseSubFields_ok P _ _ _ _ _ hs
            simp only [Nat.zero_add] at c1
            by_cases hc : subCount = 1
            · simp only [hc, ne_eq, not_true_eq_false, if_false] at h
              obtain ⟨h1, h2, h3, h4⟩ := ih _ _ _ h
              have hacc : FieldAccepted e := by
                refine ⟨hd, ho, ?_⟩
                have hl : e.Obj.length = 1 := by rw [← c1, hc]
                obtain ⟨sub, hsub⟩ := List.length_eq_one.mp hl
                exact ⟨sub, hsub, c2 sub (by simp [hsub])⟩
              refine ⟨?_, ?_, ?_, ?_⟩
              · intro x hx hne
                rcases List.mem_cons.mp hx with e1 | e1
                · subst e1; exact hacc
                · exact h1 x e1 hne
              · intro x hx hx2
                rcases List.mem_cons.mp hx with e1 | e1
                · subst e1; exact absurd hx2 hid
                · exact h2 x e1 hx2
              · simp [hid]
                exact h3
              · intro hr
                rcases h4 hr with e1 | ⟨x, hx, hx2⟩
                · exact Or.inl e1
                · exact Or.inr ⟨x, by simp [hx], hx2⟩
            · simp [hc] at h
        · simp [ho] at h

theorem createFromBson_ok (P : ExpressionParsers) (cfg : BSONElement)
    (g : DocumentSourceGroup A) (h : createFromBson P cfg = .ok g) :
    cfg.type = BSONType.Object ∧
    (∀ e ∈ cfg.Obj, e.fieldName ≠ "_id" → FieldAccepted e) ∧
    (∀ e ∈ cfg.Obj, e.fieldName = "_id" → e.type = BSONType.Object) ∧
    (cfg.Obj.filter (fun e => decide (e.fieldName = "_id"))).length = 1 := by
  unfold createFromBson at h
  by_cases ho : cfg.type = BSONType.Object
  · simp only [ho, ne_eq, not_true_eq_false, if_false] at h
    cases hp : parseGroupFields P cfg.Obj (create : DocumentSourceGroup A) false with
    | error f => rw [hp] at h; simp at h
    | ok r =>
      obtain ⟨g1, idSet⟩ := r
      rw [hp] at h
      simp only at h
      obtain ⟨h1, h2, h3, h4⟩ := parseGroupFields_ok P _ _ _ _ hp
      cases idSet with
      | false => simp at h
      | true =>
        refine ⟨ho, h1, h2, ?_⟩
        simp only [Bool.false_eq_true, if_false, Nat.add_zero] at h3
        rcases h4 rfl with e1 | ⟨x, hx, hx2⟩
        · cases e1
        · have : 0 < (cfg.Obj.filter (fun e => decide (e.fieldName = "_id"))).length :=
            List.length_pos_of_mem (List.mem_filter.mpr ⟨hx, by simp [hx2]⟩)
          omega
  · simp [ho] at h

theorem parseSubFields_error (P : ExpressionParsers) (pFieldName : String)
    (subs : List BSONElement) :
    ∀ (g : DocumentSourceGroup A) (k : Nat) (f : Fault),
      parseSubFields P pFieldName subs g k = .error f → f.isConfigurationError = true := by
  induction subs with
  | nil => intro g k f h; simp [parseSubFields] at h
  | cons sub rest ih =>
    intro g k f h
    simp only [parseSubFields] at h
    split at h
    · cases h; rfl
    · split at h
      · rename_i f1 hf1
        cases h
        split at hf1
        · split at hf1
          · cases hf1
          · cases hf1; rfl
        · split at hf1
          · cases hf1; rfl
          · split at hf1
            · cases hf1
            · cases hf1; rfl
      · exact ih _ _ _ h

theorem parseGroupFields_error (P : ExpressionParsers) (fields : List BSONElement) :
    ∀ (g : DocumentSourceGroup A) (idSet : Bool) (f : Fault),
      parseGroupFields P fields g idSet = .error f → f.isConfigurationError = true := by
  induction fields with
  | nil => intro g idSet f h; simp [parseGroupFields] at h
  | cons e rest ih =>
    intro g idSet f h
    simp only [parseGroupFields] at h
    split at h
    · split at h
      · cases h; rfl
      · split at h
        · cases h; rfl
        · split at h
          · cases h; rfl
          · exact ih _ _ _ h
    · split at h
      · cases h; rfl
      · split at h
        · cases h; rfl
        · split at h
          · rename_i f1 hf1
            cases h
            exact parseSubFields_error P _ _ _ _ _ hf1
          · split at h
            · cases h; rfl
            · exact ih _ _ _ h

theorem createFromBson_error (P : ExpressionParsers) (cfg : BSONElement) (f : Fault)
    (h : (createFromBson P cfg : Except Fault (DocumentSourceGroup A)) = .error f) :
    f.isConfigurationError = true := by
  unfold createFromBson at h
  split at h
  · cases h; rfl
  · split at h
    · rename_i f1 hf1
      cases h
      exact parseGroupFields_error P _ _ _ _ hf1
    · split at h
      · cases h
      · cases h; rfl

/-- C6: `createFromBson` fails with a configuration error and returns no stage
for every configuration (whatever the external parsers do) that has no `_id`
key, or has the `_id` key more than once, or has an output field with an
operator name that is not in `GroupOpTable`, or has an output field with an
array-shaped operand. -/
theorem createFromBson_rejects_id_and_operator_errors (P : ExpressionParsers)
    (cfg : BSONElement)
    (h : (∀ e ∈ cfg.Obj, e.fieldName ≠ "_id") ∨
      2 ≤ (cfg.Obj.filter (fun e => decide (e.fieldName = "_id"))).length ∨
      (∃ e ∈ cfg.Obj, e.fieldName ≠ "_id" ∧ ∃ sub ∈ e.Obj, ¬ Registered sub.fieldName) ∨
      (∃ e ∈ cfg.Obj, e.fieldName ≠ "_id" ∧ ∃ sub ∈ e.Obj, sub.type = BSONType.Array)) :
    ∃ f, (createFromBson P cfg : Except Fault (DocumentSourceGroup A)) = .error f ∧
      f.isConfigurationError = true := by
  cases hc : (createFromBson P cfg : Except Fault (DocumentSourceGroup A)) with
  | error f => exact ⟨f, rfl, createFromBson_error P cfg f hc⟩
  | ok g =>
    exfalso
    obtain ⟨-, h1, -, h3⟩ := createFromBson_ok P cfg g hc
    rcases h with h | h | ⟨e, he, hne, sub, hsub, hreg⟩ | ⟨e, he, hne, sub, hsub, harr⟩
    · have : cfg.Obj.filter (fun e => decide (e.fieldName = "_id")) = [] := by
        rw [List.filter_eq_nil_iff]
        intro e he
        simp [h e he]
      rw [this] at h3
      simp at h3
    · omega
    · obtain ⟨-, -, s, hs, hr, -⟩ := h1 e he hne
      rw [hs] at hsub
      simp only [List.mem_singleton] at hsub
      subst hsub
      exact hreg hr
    · obtain ⟨-, -, s, hs, -, ha⟩ := h1 e he hne
      rw [hs] at hsub
      simp only [List.mem_singleton] at hsub
      subst hsub
      exact ha harr

/-- Witness for C6: one rejected configuration for each of the four cases (no
`_id`; `_id` twice; the unknown operator `$median`; an array operand). -/
theorem createFromBson_rejects_id_and_operator_errors_witness :
    (∃ f, (createFromBson ⟨fun _ => none, fun _ => none⟩
      ("$group", BSONValue.Object
        [("n", BSONValue.Object [("$sum", BSONValue.NumberInt 1)])]) :
      Except Fault (DocumentSourceGroup Accumulator)) = .error f ∧
      f.isConfigurationError = true) ∧
    (∃ f, (createFromBson ⟨fun _ => none, fun _ => none⟩
      ("$group", BSONValue.Object
        [("_id", BSONValue.Object []), ("_id", BSONValue.Object [])]) :
      Except Fault (DocumentSourceGroup Accumulator)) = .error f ∧
      f.isConfigurationError = true) ∧
    (∃ f, (createFromBson ⟨fun _ => none, fun _ => none⟩
      ("$group", BSONValue.Object
        [("_id", BSONValue.Object []),
         ("n", BSONValue.Object [("$median", BSONValue.NumberInt 1)])]) :
      Except Fault (DocumentSourceGroup Accumulator)) = .error f ∧
      f.isConfigurationError = true) ∧
    (∃ f, (createFromBson ⟨fun _ => none, fun _ => none⟩
      ("$group", BSONValue.Object
        [("_id", BSONValue.Object []),
         ("n", BSONValue.Object [("$sum", BSONValue.Array [])])]) :
      Except Fault (DocumentSourceGroup Accumulator)) = .error f ∧
      f.isConfigurationError = true) :=
  ⟨createFromBson_rejects_id_and_operator_errors _ _ (Or.inl (by decide)),
   createFromBson_rejects_id_and_operator_errors _ _ (Or.inr (Or.inl (by decide))),
   createFromBson_rejects_id_and_operator_errors _ _
     (Or.inr (Or.inr (Or.inl ⟨("n", BSONValue.Object [("$median", BSONValue.NumberInt 1)]),
       by simp [BSONElement.Obj], by decide, ("$median", BSONValue.NumberInt 1),
       by simp [BSONElement.Obj], by
         rintro ⟨d, hd, hn⟩
         simp only [GroupOpTable, List.mem_cons, List.mem_singleton, List.not_mem_nil,
           or_false] at hd
         rcases hd with h | h | h | h | h <;> subst h <;> revert hn <;> decide⟩))),
   createFromBson_rejects_id_and_operator_errors _ _
     (Or.inr (Or.inr (Or.inr ⟨("n", BSONValue.Object [("$sum", BSONValue.Array [])]),
       by simp [BSONElement.Obj], by decide, ("$sum", BSONValue.Array []),
       by simp [BSONElement.Obj], rfl⟩)))⟩

/-- C7: `createFromBson` fails with a configuration error for every
configuration (whatever the external parsers do) that has a top-level key other
than `_id` which begins with `$`, or whose value is not an object, or whose
value object does not have exactly one key (none, or more than one, registered
operators or not). -/
theorem createFromBson_rejects_malformed_field (P : ExpressionParsers)
    (cfg : BSONElement)
    (h : ∃ e ∈ cfg.Obj, e.fieldName ≠ "_id" ∧
      (e.fieldName.data.head? = some '$' ∨ e.type ≠ BSONType.Object ∨ e.Obj.length ≠ 1)) :
    ∃ f, (createFromBson P cfg : Except Fault (DocumentSourceGroup A)) = .error f ∧
      f.isConfigurationError = true := by
  cases hc : (createFromBson P cfg : Except Fault (DocumentSourceGroup A)) with
  | error f => exact ⟨f, rfl, createFromBson_error P cfg f hc⟩
  | ok g =>
    exfalso
    obtain ⟨-, h1, -, -⟩ := createFromBson_ok P cfg g hc
    obtain ⟨e, he, hne, hbad⟩ := h
    obtain ⟨a1, a2, s, hs, -, -⟩ := h1 e he hne
    rcases hbad with hb | hb | hb
    · exact a1 hb
    · exact hb a2
    · rw [hs] at hb
      simp at hb

/-- Witness for C7: a field with two registered operators is rejected. -/
theorem createFromBson_rejects_malformed_field_witness :
    ∃ f, (createFromBson
      ⟨fun _ => some (Expression.fieldPath "x"), fun _ => some (Expression.fieldPath "y")⟩
      ("$group", BSONValue.Object
        [("_id", BSONValue.Object []),
         ("n", BSONValue.Object
            [("$sum", BSONValue.String "$y"), ("$max", BSONValue.String "$y")])]) :
      Except Fault (DocumentSourceGroup Accumulator)) = .error f ∧
      f.isConfigurationError = true :=
  createFromBson_rejects_malformed_field _ _
    ⟨("n", BSONValue.Object
        [("$sum", BSONValue.String "$y"), ("$max", BSONValue.String "$y")]),
      by simp [BSONElement.Obj], by decide,
      Or.inr (Or.inr (by simp [BSONElement.Obj]))⟩

theorem fieldSpecOf_some (P : ExpressionParsers) (e : BSONElement)
    (spec : String × AccumulatorFactory × Expression) (h : fieldSpecOf P e = some spec) :
    e.fieldName.data.head? ≠ some '$' ∧ e.type = BSONType.Object ∧
      ∃ sub, e.Obj = [sub] ∧ registeredFactory sub.fieldName = some spec.2.1 ∧
        parsedOperand P sub = some spec.2.2 ∧ spec.1 = e.fieldName := by
  unfold fieldSpecOf at h
  by_cases hd : e.fieldName.data.head? = some '$'
  · simp [hd] at h
  · by_cases ho : e.type = BSONType.Object
    · simp only [hd, if_false, ho, ne_eq, not_true_eq_false] at h
      split at h
      · rename_i sub hsub
        split at h
        · rename_i factory operand hf hp
          simp only [Option.some.injEq] at h
          subst h
          exact ⟨hd, ho, sub, hsub, hf, hp, rfl⟩
        · cases h
      · cases h
    · simp [hd, ho] at h

theorem fieldSpecOf_of_accepted (P : ExpressionParsers) (e : BSONElement)
    (ha : FieldAccepted e) (hp : ∀ sub ∈ e.Obj, (parsedOperand P sub).isSome) :
    ∃ spec, fieldSpecOf P e = some spec := by
  obtain ⟨hd, ho, sub, hsub, ⟨d, hd1, hd2⟩, -⟩ := ha
  have hreg : (registeredFactory sub.fieldName).isSome := by
    unfold registeredFactory
    rw [Option.isSome_map', List.find?_isSome]
    exact ⟨d, hd1, by simp [hd2]⟩
  have hpar := hp sub (by simp [hsub])
  obtain ⟨factory, hf⟩ := Option.isSome_iff_exists.mp hreg
  obtain ⟨operand, hx⟩ := Option.isSome_iff_exists.mp hpar
  exact ⟨(e.fieldName, factory, operand), by simp [fieldSpecOf, hd, ho, hsub, hf, hx]⟩

theorem parseSubFields_single (P : ExpressionParsers) (pFieldName : String)
    (sub : BSONElement) (g : DocumentSourceGroup A)
    (factory : AccumulatorFactory) (operand : Expression)
    (hf : registeredFactory sub.fieldName = some factory)
    (hp : parsedOperand P sub = some operand) :
    parseSubFields P pFieldName [sub] g 0 =
      .ok (g.addAccumulator pFieldName factory operand, 1) := by
  have hb := registeredFactory_some _ _ hf
  unfold parsedOperand at hp
  simp only [parseSubFields, hb]
  by_cases ho : sub.type = BSONType.Object
  · simp only [ho, if_true] at hp ⊢
    simp [hp]
  · by_cases ha : sub.type = BSONType.Array
    · simp [ho, ha] at hp
    · simp only [ho, ha, if_false] at hp ⊢
      simp [hp]

theorem parseGroupFields_accepts (P : ExpressionParsers) (fields : List BSONElement) :
    ∀ (g : DocumentSourceGroup A) (idSet : Bool)
      (specs : List (String × AccumulatorFactory × Expression)),
      (fields.filter (fun e => decide (e.fieldName ≠ "_id"))).map (fieldSpecOf P) =
        specs.map some →
      (∀ e ∈ fields, e.fieldName = "_id" →
        e.type = BSONType.Object ∧ (P.parseObject e).isSome) →
      (fields.filter (fun e => decide (e.fieldName = "_id"))).length +
        (if idSet then 1 else 0) ≤ 1 →
      parseGroupFields P fields g idSet =
        .ok ({ g with
            pIdExpression :=
              match fields.filter (fun e => decide (e.fieldName = "_id")) with
              | [] => g.pIdExpression
              | e :: _ => P.parseObject e
            vFieldName := g.vFieldName ++ specs.map (fun s => s.1)
            vpAccumulatorFactory := g.vpAccumulatorFactory ++ specs.map (fun s => s.2.1)
            vpExpression := g.vpExpression ++ specs.map (fun s => s.2.2) },
          idSet || !(fields.filter (fun e => decide (e.fieldName = "_id"))).isEmpty) := by
  induction fields with
  | nil =>
    intro g idSet specs hs _ _
    have : specs = [] := by cases specs <;> simp_all
    subst this
    simp [parseGroupFields]
  | cons e rest ih =>
    intro g idSet specs hs hids hcount
    by_cases hid : e.fieldName = "_id"
    · have hf1 : (e :: rest).filter (fun e => decide (e.fieldName = "_id")) =
          e :: rest.filter (fun e => decide (e.fieldName = "_id")) := by simp [hid]
      have hf2 : (e :: rest).filter (fun e => decide (e.fieldName ≠ "_id")) =
          rest.filter (fun e => decide (e.fieldName ≠ "_id")) := by simp [hid]
      rw [hf1] at hcount
      rw [hf2] at hs
      have hrest : rest.filter (fun e => decide (e.fieldName = "_id")) = [] := by
        apply List.eq_nil_of_length_eq_zero
        simp only [List.length_cons] at hcount
        omega
      have hset : idSet = false := by
        cases idSet
        · rfl
        · simp at hcount
      subst hset
      obtain ⟨ho, hp⟩ := hids e (by simp) hid
      obtain ⟨pId, hpid⟩ := Option.isSome_iff_exists.mp hp
      have := ih (g.setIdExpression pId) true specs hs
        (fun x hx => hids x (by simp [hx])) (by simp [hrest])
      simp only [parseGroupFields, strcmp_eq_zero_iff, hid, if_true, Bool.false_eq_true,
        if_false, ho, ne_eq, not_true_eq_false, hpid, this, hf1, hrest]
      simp [setIdExpression]
    · have hf1 : (e :: rest).filter (fun e => decide (e.fieldName = "_id")) =
          rest.filter (fun e => decide (e.fieldName = "_id")) := by simp [hid]
      have hf2 : (e :: rest).filter (fun e => decide (e.fieldName ≠ "_id")) =
          e :: rest.filter (fun e => decide (e.fieldName ≠ "_id")) := by simp [hid]
      rw [hf1] at hcount
      rw [hf2] at hs
      cases specs with
      | nil => simp at hs
      | cons spec specs1 =>
        simp only [List.map_cons, List.cons.injEq] at hs
        obtain ⟨hd, ho, sub, hsub, hfac, hpar, hname⟩ := fieldSpecOf_some P e spec hs.1
        have hsingle := parseSubFields_single P e.fieldName sub g _ _ hfac hpar
        have := ih (g.addAccumulator e.fieldName spec.2.1 spec.2.2) idSet specs1 hs.2
          (fun x hx => hids x (by simp [hx])) hcount
        simp only [parseGroupFields, strcmp_eq_zero_iff, hid, if_false, hd, ho, ne_eq,
          not_true_eq_false, hsub, hsingle, this, hf1]
        simp [addAccumulator, hname]

/-- C8: for every configuration object with exactly one `_id` key (at any
position) that is object-shaped, and whose every other key has the accepted
shape (no leading `$`, an object value with exactly one key that names a
registered operator with a non-array operand), `createFromBson` succeeds when
the external parsers succeed on the `_id` element and on every operand. The
stage it returns is unpopulated, holds the parsed key expression, and its three
field vectors have exactly one entry for each key other than `_id`, in the
order of the keys: the key name, the factory registered for its operator, and
the parsed operand. -/
theorem createFromBson_builds_field_specs (P : ExpressionParsers)
    (fields : List BSONElement) (idElem : BSONElement) (pId : Expression)
    (hid : fields.filter (fun e => decide (e.fieldName = "_id")) = [idElem])
    (hidObj : idElem.type = BSONType.Object)
    (hidParse : P.parseObject idElem = some pId)
    (hacc : ∀ e ∈ fields, e.fieldName ≠ "_id" → FieldAccepted e)
    (hparse : ∀ e ∈ fields, e.fieldName ≠ "_id" →
      ∀ sub ∈ e.Obj, (parsedOperand P sub).isSome) :
    ∃ (g : DocumentSourceGroup A) (specs : List (String × AccumulatorFactory × Expression)),
      createFromBson P ("$group", BSONValue.Object fields) = .ok g ∧
      (fields.filter (fun e => decide (e.fieldName ≠ "_id"))).map (fieldSpecOf P) =
        specs.map some ∧
      specs.map (fun s => s.1) =
        (fields.filter (fun e => decide (e.fieldName ≠ "_id"))).map (fun e => e.fieldName) ∧
      g.vFieldName = specs.map (fun s => s.1) ∧
      g.vpAccumulatorFactory = specs.map (fun s => s.2.1) ∧
      g.vpExpression = specs.map (fun s => s.2.2) ∧
      g.pIdExpression = some pId ∧ g.populated = false ∧ g.groups = [] ∧
      g = parsedStage pId specs ∧
      ∀ docs, g.setSource docs = configure pId specs docs := by
  have hex : ∀ l : List BSONElement, (∀ e ∈ l, ∃ spec, fieldSpecOf P e = some spec) →
      ∃ specs : List (String × AccumulatorFactory × Expression),
        l.map (fieldSpecOf P) = specs.map some := by
    intro l
    induction l with
    | nil => intro _; exact ⟨[], rfl⟩
    | cons e rest ih =>
      intro h
      obtain ⟨spec, hs⟩ := h e (by simp)
      obtain ⟨specs, hss⟩ := ih (fun x hx => h x (by simp [hx]))
      exact ⟨spec :: specs, by simp [hs, hss]⟩
  obtain ⟨specs, hspecs⟩ := hex (fields.filter (fun e => decide (e.fieldName ≠ "_id")))
    (by
      intro e he
      obtain ⟨h1, h2⟩ := List.mem_filter.mp he
      simp only [ne_eq, decide_not, Bool.not_eq_true', decide_eq_false_iff_not] at h2
      exact fieldSpecOf_of_accepted P e (hacc e h1 h2) (hparse e h1 h2))
  have hnames : specs.map (fun s => s.1) =
      (fields.filter (fun e => decide (e.fieldName ≠ "_id"))).map (fun e => e.fieldName) := by
    have key : ∀ (l : List BSONElement)
        (specs : List (String × AccumulatorFactory × Expression)),
        l.map (fieldSpecOf P) = specs.map some →
        specs.map (fun s => s.1) = l.map (fun e => e.fieldName) := by
      intro l
      induction l with
      | nil => intro specs h; cases specs <;> simp_all
      | cons e rest ih =>
        intro specs h
        cases specs with
        | nil => simp at h
        | cons spec specs1 =>
          simp only [List.map_cons, List.cons.injEq] at h ⊢
          obtain ⟨-, -, -, -, -, -, hn⟩ := fieldSpecOf_some P e spec h.1
          exact ⟨hn, ih specs1 h.2⟩
    exact key _ _ hspecs
  have hids : ∀ e ∈ fields, e.fieldName = "_id" →
      e.type = BSONType.Object ∧ (P.parseObject e).isSome := by
    intro e he hn
    have : e ∈ fields.filter (fun e => decide (e.fieldName = "_id")) :=
      List.mem_filter.mpr ⟨he, by simp [hn]⟩
    rw [hid] at this
    simp only [List.mem_singleton] at this
    subst this
    exact ⟨hidObj, by simp [hidParse]⟩
  have hrun := parseGroupFields_accepts P fields (create : DocumentSourceGroup A) false
    specs hspecs hids (by simp [hid])
  have hstage : (parsedStage pId specs : DocumentSourceGroup A) =
      { (create : DocumentSourceGroup A) with
        pIdExpression := some pId
        vFieldName := specs.map (fun s => s.1)
        vpAccumulatorFactory := specs.map (fun s => s.2.1)
        vpExpression := specs.map (fun s => s.2.2) } := by
    simp [parsedStage, foldl_addAccumulator, setIdExpression, create]
  refine ⟨parsedStage pId specs, specs, ?_, hspecs, hnames, ?_, ?_, ?_, ?_, ?_, ?_, rfl, ?_⟩
  · simp only [createFromBson, BSONElement.type, BSONElement.Obj, hrun, hid, hidParse,
      hstage]
    simp [create]
  · rw [hstage]
  · rw [hstage]
  · rw [hstage]
  · rw [hstage]
  · rw [hstage]; rfl
  · rw [hstage]; rfl
  · intro docs
    rfl

/-- Witness for C8: `_id` in the middle, a `$max` field before it and a `$push`
field after it. -/
theorem createFromBson_builds_field_specs_witness :
    ∃ (g : DocumentSourceGroup Accumulator)
      (specs : List (String × AccumulatorFactory × Expression)),
      createFromBson
        ⟨fun _ => some (Expression.fieldPath "x"), fun e =>
          match e.2 with
          | BSONValue.String s => some (Expression.fieldPath s)
          | _ => none⟩
        ("$group", BSONValue.Object
          [("hi", BSONValue.Object [("$max", BSONValue.String "a")]),
           ("_id", BSONValue.Object []),
           ("all", BSONValue.Object [("$push", BSONValue.String "b")])]) = .ok g ∧
      g.vFieldName = ["hi", "all"] ∧
      g.vpAccumulatorFactory =
        [AccumulatorFactory.AccumulatorMinMax_createMax,
         AccumulatorFactory.AccumulatorPush_create] ∧
      g.vpExpression = specs.map (fun s => s.2.2) ∧
      specs.map (fun s => s.2.2.evaluate [("a", Value.num 1), ("b", Value.num 2)]) =
        [Value.num 1, Value.num 2] := by
  obtain ⟨g, specs, h1, h2, h3, h4, h5, h6, -⟩ :=
    createFromBson_builds_field_specs (A := Accumulator)
      ⟨fun _ => some (Expression.fieldPath "x"), fun e =>
        match e.2 with
        | BSONValue.String s => some (Expression.fieldPath s)
        | _ => none⟩
      [("hi", BSONValue.Object [("$max", BSONValue.String "a")]),
       ("_id", BSONValue.Object []),
       ("all", BSONValue.Object [("$push", BSONValue.String "b")])]
      ("_id", BSONValue.Object []) (Expression.fieldPath "x")
      rfl rfl rfl
      (by
        intro e he hne
        simp only [List.mem_cons, List.mem_singleton, List.not_mem_nil, or_false] at he
        rcases he with h | h | h
        · subst h
          exact ⟨by decide, rfl, _, rfl,
            ⟨⟨"$max", .AccumulatorMinMax_createMax⟩, by simp [GroupOpTable], rfl⟩, by decide⟩
        · subst h; exact absurd rfl hne
        · subst h
          exact ⟨by decide, rfl, _, rfl,
            ⟨⟨"$push", .AccumulatorPush_create⟩, by simp [GroupOpTable], rfl⟩, by decide⟩)
      (by
        intro e he hne sub hsub
        simp only [List.mem_cons, List.mem_singleton, List.not_mem_nil, or_false] at he
        rcases he with h | h | h
        · subst h
          simp only [BSONElement.Obj, List.mem_singleton] at hsub
          subst hsub
          rfl
        · subst h; exact absurd rfl hne
        · subst h
          simp only [BSONElement.Obj, List.mem_singleton] at hsub
          subst hsub
          rfl)
  have hspecs : specs =
      [("hi", AccumulatorFactory.AccumulatorMinMax_createMax, Expression.fieldPath "a"),
       ("all", AccumulatorFactory.AccumulatorPush_create, Expression.fieldPath "b")] := by
    have : (specs.map some) =
        [some ("hi", AccumulatorFactory.AccumulatorMinMax_createMax, Expression.fieldPath "a"),
         some ("all", AccumulatorFactory.AccumulatorPush_create, Expression.fieldPath "b")] := by
      rw [← h2]
      rfl
    exact List.map_injective_iff.mpr (Option.some_injective _) this
  subst hspecs
  exact ⟨g, _, h1, h4, h5, h6, rfl⟩

/-! ### The exhausted stage -/

/-- C11: `advance` on an exhausted stage (populated, cursor at the end of the
table) fails on its assertion: it returns no value and leaves the stage, the
cursor included, as it was. This covers a stage freshly populated from an empty
upstream, where the call populates and then fails with the cursor at the end of
the empty table. Conversely, in every populated state that a configured stage
reaches with the cursor at a valid entry, `advance` returns a value. -/
theorem advance_on_exhausted_fails (I : AccumulatorOps A) :
    (∀ g : DocumentSourceGroup A, g.populated = true →
      g.groupsIterator = g.groups.length →
      advance I g = (.error .advancePastEnd, g)) ∧
    (∀ (pId : Expression) (specs : List (String × AccumulatorFactory × Expression)),
      (advance I (configure pId specs [])).1 = .error .advancePastEnd ∧
      (advance I (configure pId specs [])).2.populated = true ∧
      (advance I (configure pId specs [])).2.groups = [] ∧
      (advance I (configure pId specs [])).2.groupsIterator = 0) ∧
    (∀ (pId : Expression) (specs : List (String × AccumulatorFactory × Expression))
      (docs : List Document) (cs : List Call),
      (calls I (configure pId specs docs) cs).populated = true →
      (calls I (configure pId specs docs) cs).groupsIterator <
        (calls I (configure pId specs docs) cs).groups.length →
      ∃ b, (advance I (calls I (configure pId specs docs) cs)).1 = .ok b) := by
  refine ⟨?_, ?_, ?_⟩
  · intro g hp hit
    simp [advance, ensurePopulated, hp, hit]
  · intro pId specs
    obtain ⟨groups1, t1, hpop, -⟩ := calls_configure I pId specs []
    have hnil : groups1 = [] := by
      cases hg : groups1 with
      | nil => rfl
      | cons e rest =>
        have := (t1.2.1 e.1).mp (by simp [hg])
        simp at this
    subst hnil
    have hp : (configure pId specs [] : DocumentSourceGroup A).populated = false := by
      simp [configure_eq]
    simp [advance, ensurePopulated, hp, hpop, positioned]
  · intro pId specs docs cs hp hit
    obtain ⟨groups1, t1, -, hcs⟩ := calls_configure I pId specs docs
    have hnames : (configure pId specs docs : DocumentSourceGroup A).vFieldName =
        specs.map (fun s => s.1) := by simp [configure_eq]
    have hw : ∀ e ∈ groups1,
        (configure pId specs docs : DocumentSourceGroup A).vFieldName.length ≤ e.2.length := by
      intro e he
      rw [length_of_tableOf I pId specs docs groups1 t1 e he, hnames]; simp
    cases cs with
    | nil => simp [calls, configure_eq] at hp
    | cons c rest =>
      obtain ⟨it, -, e⟩ := hcs c rest
      rw [e] at hit ⊢
      have hlt : it < groups1.length := by simpa [positioned] using hit
      rw [advance_positioned I _ groups1 docs.length it hw hlt]
      exact ⟨_, rfl⟩

/-- C12 fails: after the one group of a one-record stream has been passed, the
stage is exhausted (`eof` is true), and `getCurrent` does not fail; it returns
the null record pointer. -/
theorem getCurrent_on_exhausted_returns_null :
    (eof specAccumulators
      (calls specAccumulators
        (configure (Expression.fieldPath "x") [] [[("x", Value.num 1)]])
        [Call.eof, Call.advance])).1 = .ok true ∧
    (getCurrent specAccumulators
      (calls specAccumulators
        (configure (Expression.fieldPath "x") [] [[("x", Value.num 1)]])
        [Call.eof, Call.advance])).1 = .ok none := by
  constructor <;> rfl

/-- C12, amended: in every exhausted state that a configured stage reaches
through calls of the pull interface (populated, cursor at the end of the
table), `getCurrent` does not fail: it returns the null record pointer (the
cached record was cleared by `advance` at the end of the table, or never set
when the upstream was empty) and leaves the stage as it was. -/
theorem getCurrent_on_exhausted (I : AccumulatorOps A) (pId : Expression)
    (specs : List (String × AccumulatorFactory × Expression)) (docs : List Document)
    (cs : List Call)
    (hp : (calls I (configure pId specs docs) cs).populated = true)
    (hend : (calls I (configure pId specs docs) cs).groupsIterator =
      (calls I (configure pId specs docs) cs).groups.length) :
    getCurrent I (calls I (configure pId specs docs) cs) =
      (.ok none, calls I (configure pId specs docs) cs) := by
  obtain ⟨groups1, -, -, hcs⟩ := calls_configure I pId specs docs
  cases cs with
  | nil => simp [calls, configure_eq] at hp
  | cons c rest =>
    obtain ⟨it, -, e⟩ := hcs c rest
    rw [e] at hend ⊢
    have hit : it = groups1.length := by simpa [positioned] using hend
    subst hit
    rw [getCurrent_positioned]
    simp

/-- Witness for the amended C12: a stage over an empty upstream, after one
`eof` call. -/
theorem getCurrent_on_exhausted_witness :
    getCurrent specAccumulators
        (calls specAccumulators
          (configure (Expression.fieldPath "x")
            [("n", AccumulatorFactory.AccumulatorSum_create, Expression.fieldPath "y")] [])
          [Call.eof]) =
      (.ok none,
        calls specAccumulators
          (configure (Expression.fieldPath "x")
            [("n", AccumulatorFactory.AccumulatorSum_create, Expression.fieldPath "y")] [])
          [Call.eof]) :=
  getCurrent_on_exhausted specAccumulators (Expression.fieldPath "x")
    [("n", AccumulatorFactory.AccumulatorSum_create, Expression.fieldPath "y")] []
    [Call.eof] rfl rfl

/-! ### `createMerger` -/

theorem mergerFields_eq (specs : List (String × AccumulatorFactory × Expression))
    (pMerger : DocumentSourceGroup A) :
    mergerFields (specs.map (fun s => s.1)) (specs.map (fun s => s.2.1)) pMerger =
      .ok ((mergerSpecs specs).foldl (fun g s => g.addAccumulator s.1 s.2.1 s.2.2) pMerger) := by
  induction specs generalizing pMerger with
  | nil => simp [mergerFields, mergerSpecs]
  | cons s rest ih =>
    simp only [List.map_cons, mergerFields, ih]
    simp [mergerSpecs]

theorem createMerger_eq (pId : Expression)
    (specs : List (String × AccumulatorFactory × Expression))
    (g : DocumentSourceGroup A) (h : Configured pId specs g) :
    createMerger g = .ok (parsedStage (Expression.fieldPath "_id") (mergerSpecs specs)) := by
  obtain ⟨-, hn, hf, -⟩ := h
  simp only [createMerger, hn, hf, mergerFields_eq, parsedStage]

theorem parsedStage_eq (pId : Expression)
    (specs : List (String × AccumulatorFactory × Expression)) :
    (parsedStage pId specs : DocumentSourceGroup A) =
      { populated := false
        pIdExpression := some pId
        groups := []
        vFieldName := specs.map (fun s => s.1)
        vpAccumulatorFactory := specs.map (fun s => s.2.1)
        vpExpression := specs.map (fun s => s.2.2)
        groupsIterator := 0
        pCurrent := none
        pSource := none } := by
  simp [parsedStage, foldl_addAccumulator, setIdExpression, create]

theorem configured_parsedStage (pId : Expression)
    (specs : List (String × AccumulatorFactory × Expression)) :
    Configured pId specs (parsedStage pId specs : DocumentSourceGroup A) := by
  simp [parsedStage_eq, Configured]

/-- C13: for every configured stage `g` with field specifications `specs`,
`createMerger` returns a new, unpopulated stage (empty table, no source) whose
key expression is the field reference `_id` and which has exactly as many field
specifications as `g`: at each position the output name and the factory of `g`,
and as input expression the field reference to that output name. The call is a
function of `g` and does not change it. -/
theorem createMerger_builds_field_references (pId : Expression)
    (specs : List (String × AccumulatorFactory × Expression))
    (g : DocumentSourceGroup A) (h : Configured pId specs g) :
    ∃ m : DocumentSourceGroup A, createMerger g = .ok m ∧
      m.populated = false ∧ m.groups = [] ∧ m.pCurrent = none ∧ m.pSource = none ∧
      m.pIdExpression = some (Expression.fieldPath "_id") ∧
      m.vFieldName = g.vFieldName ∧
      m.vpAccumulatorFactory = g.vpAccumulatorFactory ∧
      m.vpExpression = g.vFieldName.map Expression.fieldPath ∧
      m.vFieldName.length = specs.length ∧
      m.vpAccumulatorFactory.length = specs.length ∧
      m.vpExpression.length = specs.length := by
  refine ⟨_, createMerger_eq pId specs g h, ?_⟩
  obtain ⟨-, hn, hf, -⟩ := h
  rw [parsedStage_eq, hn, hf]
  simp [mergerSpecs, Function.comp_def]

/-- Witness for C13: the merger of a stage with a Sum and a Collect field. -/
theorem createMerger_builds_field_references_witness :
    ∃ m : DocumentSourceGroup Accumulator,
      createMerger (configure (Expression.fieldPath "x")
        [("total", AccumulatorFactory.AccumulatorSum_create, Expression.fieldPath "y"),
         ("all", AccumulatorFactory.AccumulatorPush_create, Expression.fieldPath "z")]
        []) = .ok m ∧
      m.pIdExpression = some (Expression.fieldPath "_id") ∧
      m.vFieldName = ["total", "all"] ∧
      m.vpAccumulatorFactory =
        [AccumulatorFactory.AccumulatorSum_create,
         AccumulatorFactory.AccumulatorPush_create] ∧
      m.vpExpression = [Expression.fieldPath "total", Expression.fieldPath "all"] := by
  obtain ⟨m, h1, -, -, -, -, h2, h3, h4, h5, -⟩ :=
    createMerger_builds_field_references (A := Accumulator) (Expression.fieldPath "x")
      [("total", AccumulatorFactory.AccumulatorSum_create, Expression.fieldPath "y"),
       ("all", AccumulatorFactory.AccumulatorPush_create, Expression.fieldPath "z")]
      (configure (Expression.fieldPath "x")
        [("total", AccumulatorFactory.AccumulatorSum_create, Expression.fieldPath "y"),
         ("all", AccumulatorFactory.AccumulatorPush_create, Expression.fieldPath "z")]
        [])
      (configured_configure _ _ _)
  exact ⟨m, h1, h2, h3, h4, h5⟩

theorem mergerSpecs_mergerSpecs (specs : List (String × AccumulatorFactory × Expression)) :
    mergerSpecs (mergerSpecs specs) = mergerSpecs specs := by
  simp [mergerSpecs]

/-- C20: `createMerger` is idempotent on configurations: for every configured
stage `g`, the merger of the merger of `g` is the merger of `g` (the key
expression is the field reference `_id`, and the output names, factories and
field-reference input expressions are the same). -/
theorem createMerger_idempotent (pId : Expression)
    (specs : List (String × AccumulatorFactory × Expression))
    (g : DocumentSourceGroup A) (h : Configured pId specs g) :
    ∃ m : DocumentSourceGroup A, createMerger g = .ok m ∧ createMerger m = .ok m ∧
      m.pIdExpression = some (Expression.fieldPath "_id") ∧
      m.vFieldName = g.vFieldName ∧
      m.vpAccumulatorFactory = g.vpAccumulatorFactory ∧
      m.vpExpression = g.vFieldName.map Expression.fieldPath := by
  refine ⟨_, createMerger_eq pId specs g h, ?_, ?_⟩
  · rw [createMerger_eq (Expression.fieldPath "_id") (mergerSpecs specs) _
      (configured_parsedStage _ _), mergerSpecs_mergerSpecs]
  · obtain ⟨-, hn, hf, -⟩ := h
    rw [parsedStage_eq, hn, hf]
    simp [mergerSpecs, Function.comp_def]

/-- Witness for C20: the merger of a stage with one Average field. -/
theorem createMerger_idempotent_witness :
    ∃ m : DocumentSourceGroup Accumulator,
      createMerger (configure (Expression.fieldPath "x")
        [("mean", AccumulatorFactory.AccumulatorAvg_create, Expression.fieldPath "y")]
        []) = .ok m ∧
      createMerger m = .ok m ∧
      m.vFieldName = ["mean"] ∧
      m.vpExpression = [Expression.fieldPath "mean"] := by
  obtain ⟨m, h1, h2, -, h3, -, h4⟩ :=
    createMerger_idempotent (A := Accumulator) (Expression.fieldPath "x")
      [("mean", AccumulatorFactory.AccumulatorAvg_create, Expression.fieldPath "y")]
      (configure (Expression.fieldPath "x")
        [("mean", AccumulatorFactory.AccumulatorAvg_create, Expression.fieldPath "y")]
        [])
      (configured_configure _ _ _)
  exact ⟨m, h1, h2, h3, h4⟩

/-! ### The operator lookup -/

theorem mem_table_names (name : String) :
    name ∈ GroupOpTable.map (fun d => d.pName) ↔
      name ∈ ["$avg", "$max", "$min", "$push", "$sum"] := by
  simp [GroupOpTable]

/-- C17: the operator lookup of `createFromBson`, a binary search of
`GroupOpTable` with `GroupOpDescCmp`, finds an entry exactly when the name is
one of `$avg`, `$max`, `$min`, `$push`, `$sum`, and the entry it returns is the
one of that name, with the factory registered for it. The table ascends
strictly under `strcmp`, and for every name the binary search returns what a
linear search for an exact match returns. -/
theorem bsearch_agrees_with_exact_match :
    (GroupOpTable.map (fun d => d.pName)).Pairwise (fun a b => strcmp a b < 0) ∧
    (∀ (name : String) (f0 : AccumulatorFactory),
      bsearch ⟨name, f0⟩ GroupOpTable NGroupOp GroupOpDescCmp =
        GroupOpTable.find? (fun d => decide (d.pName = name))) ∧
    (∀ (name : String) (f0 : AccumulatorFactory),
      (∃ p, bsearch ⟨name, f0⟩ GroupOpTable NGroupOp GroupOpDescCmp = some p) ↔
        name ∈ ["$avg", "$max", "$min", "$push", "$sum"]) ∧
    (∀ (name : String) (f0 : AccumulatorFactory) (p : GroupOpDesc),
      bsearch ⟨name, f0⟩ GroupOpTable NGroupOp GroupOpDescCmp = some p →
        p ∈ GroupOpTable ∧ p.pName = name ∧ registeredFactory name = some p.pFactory) := by
  have agree : ∀ (name : String) (f0 : AccumulatorFactory),
      bsearch ⟨name, f0⟩ GroupOpTable NGroupOp GroupOpDescCmp =
        GroupOpTable.find? (fun d => decide (d.pName = name)) := by
    intro name f0
    by_cases hn : name ∈ ["$avg", "$max", "$min", "$push", "$sum"]
    · simp only [List.mem_cons, List.mem_singleton, List.not_mem_nil, or_false] at hn
      rcases hn with h | h | h | h | h <;> subst h <;> cases f0 <;> decide
    · have h1 : bsearch ⟨name, f0⟩ GroupOpTable NGroupOp GroupOpDescCmp = none := by
        cases hb : bsearch ⟨name, f0⟩ GroupOpTable NGroupOp GroupOpDescCmp with
        | none => rfl
        | some p =>
          obtain ⟨hm, hp⟩ := bsearch_some name f0 p hb
          exact absurd ((mem_table_names name).mp (List.mem_map.mpr ⟨p, hm, hp⟩)) hn
      have h2 : GroupOpTable.find? (fun d => decide (d.pName = name)) = none := by
        rw [List.find?_eq_none]
        intro d hd
        simp only [decide_eq_true_eq]
        intro e
        exact hn ((mem_table_names name).mp (List.mem_map.mpr ⟨d, hd, e⟩))
      rw [h1, h2]
  refine ⟨by decide, agree, ?_, ?_⟩
  · intro name f0
    constructor
    · rintro ⟨p, hp⟩
      obtain ⟨hm, hn⟩ := bsearch_some name f0 p hp
      exact (mem_table_names name).mp (List.mem_map.mpr ⟨p, hm, hn⟩)
    · intro hn
      simp only [List.mem_cons, List.mem_singleton, List.not_mem_nil, or_false] at hn
      rcases hn with h | h | h | h | h <;> subst h <;>
        exact ⟨_, (agree _ f0).trans rfl⟩
  · intro name f0 p hp
    obtain ⟨hm, hn⟩ := bsearch_some name f0 p hp
    refine ⟨hm, hn, ?_⟩
    unfold registeredFactory
    rw [← agree name f0, hp]
    rfl

/-! ### The table invariant -/

theorem parseSubFields_shape (P : ExpressionParsers) (pFieldName : String)
    (subs : List BSONElement) :
    ∀ (g0 : DocumentSourceGroup A) (k : Nat) (r : DocumentSourceGroup A × Nat),
      parseSubFields P pFieldName subs g0 k = .ok r →
      ∃ specs : List (String × AccumulatorFactory × Expression),
        r.1 = specs.foldl (fun g s => g.addAccumulator s.1 s.2.1 s.2.2) g0 ∧
        ∀ s ∈ specs, s.1 = pFieldName := by
  induction subs with
  | nil =>
    intro g0 k r h
    simp only [parseSubFields, Except.ok.injEq] at h
    subst h
    exact ⟨[], rfl, by simp⟩
  | cons sb rest ih =>
    intro g0 k r h
    simp only [parseSubFields] at h
    cases hb : bsearch ⟨sb.fieldName, .AccumulatorAvg_create⟩ GroupOpTable NGroupOp
        GroupOpDescCmp with
    | none => rw [hb] at h; simp at h
    | some pOp =>
      rw [hb] at h
      simp only at h
      by_cases ho : sb.type = BSONType.Object
      · simp only [ho, if_true] at h
        cases hp : P.parseObject sb with
        | none => rw [hp] at h; simp at h
        | some e =>
          rw [hp] at h
          simp only at h
          obtain ⟨specs, hs, hn⟩ := ih _ _ _ h
          exact ⟨(pFieldName, pOp.pFactory, e) :: specs, hs, by
            intro s hs
            rcases List.mem_cons.mp hs with e1 | e1
            · rw [e1]
            · exact hn s e1⟩
      · simp only [ho, if_false] at h
        by_cases ha : sb.type = BSONType.Array
        · simp [ha] at h
        · simp only [ha, if_false] at h
          cases hp : P.parseOperand sb with
          | none => rw [hp] at h; simp at h
          | some e =>
            rw [hp] at h
            simp only at h
            obtain ⟨specs, hs, hn⟩ := ih _ _ _ h
            exact ⟨(pFieldName, pOp.pFactory, e) :: specs, hs, by
              intro s hs
              rcases List.mem_cons.mp hs with e1 | e1
              · rw [e1]
              · exact hn s e1⟩

theorem parseGroupFields_shape (P : ExpressionParsers) (fields : List BSONElement) :
    ∀ (g0 : DocumentSourceGroup A) (idSet : Bool) (r : DocumentSourceGroup A × Bool),
      parseGroupFields P fields g0 idSet = .ok r →
      ∃ (specs : List (String × AccumulatorFactory × Expression)),
        r.1.vFieldName = g0.vFieldName ++ specs.map (fun s => s.1) ∧
        r.1.vpAccumulatorFactory = g0.vpAccumulatorFactory ++ specs.map (fun s => s.2.1) ∧
        r.1.vpExpression = g0.vpExpression ++ specs.map (fun s => s.2.2) ∧
        r.1.populated = g0.populated ∧ r.1.groups = g0.groups ∧
        r.1.groupsIterator = g0.groupsIterator ∧ r.1.pCurrent = g0.pCurrent ∧
        r.1.pSource = g0.pSource ∧
        (r.2 = true → idSet = false → ∃ pId, r.1.pIdExpression = some pId) ∧
        (idSet = true → r.1.pIdExpression = g0.pIdExpression) ∧
        (∀ s ∈ specs, s.1 ≠ "_id" ∧ s.1.data.head? ≠ some '$') := by
  induction fields with
  | nil =>
    intro g0 idSet r h
    simp only [parseGroupFields, Except.ok.injEq] at h
    subst h
    refine ⟨[], by simp, by simp, by simp, rfl, rfl, rfl, rfl, rfl, ?_, fun _ => rfl,
      by simp⟩
    intro h1 h2
    simp only at h1
    rw [h1] at h2
    cases h2
  | cons e rest ih =>
    intro g0 idSet r h
    simp only [parseGroupFields, strcmp_eq_zero_iff] at h
    by_cases hid : e.fieldName = "_id"
    · simp only [hid, if_true] at h
      cases idSet with
      | true => simp at h
      | false =>
        simp only [Bool.false_eq_true, if_false] at h
        by_cases ho : e.type = BSONType.Object
        · simp only [ho, ne_eq, not_true_eq_false, if_false] at h
          cases hp : P.parseObject e with
          | none => rw [hp] at h; simp at h
          | some pId =>
            rw [hp] at h
            simp only at h
            obtain ⟨specs, h1, h2, h3, h4, h5, h6, h7, h8, -, h10, h11⟩ := ih _ _ _ h
            refine ⟨specs, h1, h2, h3, h4, h5, h6, h7, h8, ?_, ?_, h11⟩
            · intro _ _
              exact ⟨pId, h10 rfl⟩
            · intro hs
              cases hs
        · simp [ho] at h
    · simp only [hid, if_false] at h
      by_cases hd : e.fieldName.data.head? = some '$'
      · simp [hd] at h
      · simp only [hd, if_false] at h
        by_cases ho : e.type = BSONType.Object
        · simp only [ho, ne_eq, not_true_eq_false, if_false] at h
          cases hs : parseSubFields P e.fieldName e.Obj g0 0 with
          | error f => rw [hs] at h; simp at h
          | ok r1 =>
            obtain ⟨g1, subCount⟩ := r1
            rw [hs] at h
            simp only at h
            by_cases hc : subCount = 1
            · simp only [hc, ne_eq, not_true_eq_false, if_false] at h
              obtain ⟨specs1, hs1, hn1⟩ := parseSubFields_shape P _ _ _ _ _ hs
              simp only at hs1
              obtain ⟨specs, h1, h2, h3, h4, h5, h6, h7, h8, h9, h10, h11⟩ := ih _ _ _ h
              rw [hs1, foldl_addAccumulator] at h1 h2 h3 h4 h5 h6 h7 h8 h10
              simp only at h1 h2 h3 h4 h5 h6 h7 h8 h10
              refine ⟨specs1 ++ specs, by simp [h1], by simp [h2], by simp [h3],
                h4, h5, h6, h7, h8, h9, h10, ?_⟩
              intro s hs
              rcases List.mem_append.mp hs with e1 | e1
              · rw [hn1 s e1]
                exact ⟨hid, hd⟩
              · exact h11 s e1
            · simp [hc] at h
        · simp [ho] at h

theorem createFromBson_parsedStage_of_ok (P : ExpressionParsers) (cfg : BSONElement)
    (g : DocumentSourceGroup A) (h : createFromBson P cfg = .ok g) :
    ∃ pId specs, g = parsedStage pId specs ∧
      ∀ s ∈ specs, s.1 ≠ "_id" ∧ s.1.data.head? ≠ some '$' := by
  unfold createFromBson at h
  by_cases ho : cfg.type = BSONType.Object
  · simp only [ho, ne_eq, not_true_eq_false, if_false] at h
    cases hp : parseGroupFields P cfg.Obj (create : DocumentSourceGroup A) false with
    | error f => rw [hp] at h; simp at h
    | ok r =>
      obtain ⟨g1, idSet⟩ := r
      rw [hp] at h
      simp only at h
      cases idSet with
      | false => simp at h
      | true =>
        simp only [if_true, Except.ok.injEq] at h
        subst h
        obtain ⟨specs, h1, h2, h3, h4, h5, h6, h7, h8, h9, -, h11⟩ :=
          parseGroupFields_shape P _ _ _ _ hp
        obtain ⟨pId, hpid⟩ := h9 rfl rfl
        refine ⟨pId, specs, ?_, h11⟩
        rw [parsedStage_eq]
        cases g1
        simp only [create, List.nil_append] at h1 h2 h3 h4 h5 h6 h7 h8 hpid
        simp only [h1, h2, h3, h4, h5, h6, h7, h8, hpid]
  · simp [ho] at h

/-- C18: in every state that a stage configured with key expression `pId` and
field specifications `specs` (as `createFromBson` and `createMerger` build it)
reaches through calls of the pull interface, before or after `populate`: the
three field vectors have the same length, the number of field specifications;
no two table entries have the same key; and the accumulator vector of every
entry has exactly that length, the accumulator at each position being the one
made by the factory at that position, bound to the expression at that position
(and fed the records of the group). So `makeDocument` stays in bounds at every
entry of the table. -/
theorem table_entries_match_field_specs (I : AccumulatorOps A) :
    (∀ (pId : Expression) (specs : List (String × AccumulatorFactory × Expression))
      (docs : List Document) (cs : List Call),
      (calls I (configure pId specs docs) cs).vFieldName.length = specs.length ∧
      (calls I (configure pId specs docs) cs).vpAccumulatorFactory.length = specs.length ∧
      (calls I (configure pId specs docs) cs).vpExpression.length = specs.length ∧
      ((calls I (configure pId specs docs) cs).groups.map Prod.fst).Nodup ∧
      (∀ key pGroup, (key, pGroup) ∈ (calls I (configure pId specs docs) cs).groups →
        pGroup.length = specs.length ∧
        pGroup = specs.map (fun s =>
          (members pId docs key).foldl I.evaluate (I.addOperand (I.create s.2.1) s.2.2))) ∧
      (∀ it, it < (calls I (configure pId specs docs) cs).groups.length →
        ∃ d, makeDocument I (calls I (configure pId specs docs) cs) it = .ok d)) ∧
    (∀ (P : ExpressionParsers) (cfg : BSONElement) (g : DocumentSourceGroup A),
      createFromBson P cfg = .ok g →
      ∃ pId specs, ∀ docs, g.setSource docs = configure pId specs docs) ∧
    (∀ (pId : Expression) (specs : List (String × AccumulatorFactory × Expression))
      (g : DocumentSourceGroup A), Configured pId specs g →
      ∃ m, createMerger g = .ok m ∧
        ∀ docs, m.setSource docs =
          configure (Expression.fieldPath "_id") (mergerSpecs specs) docs) := by
  refine ⟨?_, ?_, ?_⟩
  · intro pId specs docs cs
    obtain ⟨groups1, t1, -, hcs⟩ := calls_configure I pId specs docs
    cases cs with
    | nil =>
      simp only [calls, List.foldl_nil]
      rw [configure_eq]
      simp
    | cons c rest =>
      obtain ⟨it, -, e⟩ := hcs c rest
      rw [e]
      have hg : (positioned I (configure pId specs docs) groups1 docs.length it).groups =
          groups1 := rfl
      have hn : (positioned I (configure pId specs docs) groups1 docs.length it).vFieldName =
          specs.map (fun s => s.1) := by simp [positioned, configure_eq]
      have hlen := length_of_tableOf I pId specs docs groups1 t1
      refine ⟨by simp [positioned, configure_eq], by simp [positioned, configure_eq],
        by simp [positioned, configure_eq], ?_, ?_, ?_⟩
      · rw [hg]
        exact List.Pairwise.imp (R := Value.lt) (S := fun a b => a ≠ b)
          (fun {a b} h e => by subst e; exact GroupsType.lt_irrefl _ h) t1.1
      · rw [hg]
        intro key pGroup hm
        exact ⟨hlen _ hm, t1.2.2 _ hm⟩
      · rw [hg]
        intro j hj
        refine ⟨_, makeDocument_eq I _ j groups1[j] ?_ ?_⟩
        · rw [hg]; exact List.getElem?_eq_getElem hj
        · rw [hn, hlen _ (List.getElem_mem hj)]; simp
  · intro P cfg g h
    obtain ⟨pId, specs, hg, -⟩ := createFromBson_parsedStage_of_ok P cfg g h
    exact ⟨pId, specs, fun docs => by rw [hg]; rfl⟩
  · intro pId specs g h
    exact ⟨_, createMerger_eq pId specs g h, fun docs => rfl⟩

/-! ### Merging partial results -/

theorem Interleaves.append_left {α : Type} (a : List α) :
    ∀ b : List α, Interleaves (a ++ b) a b := by
  induction a with
  | nil =>
    intro b
    induction b with
    | nil => exact Interleaves.nil
    | cons y ys ih => exact Interleaves.right y ih
  | cons x xs ih => intro b; exact Interleaves.left x (ih b)

/-- C16: the Average accumulator does not compose through `createMerger`. There
are an input list and a split of it into two parts with different member counts
for a group (one record against two) such that the merge stage, fed the outputs
of the two local stages, yields the average 3/2 (the average of the partial
averages 0 and 3), while one local stage over the whole input yields 2. -/
theorem average_of_partial_averages_differs :
    ∃ (docs docs1 docs2 out1 out2 : List Document)
      (merger : DocumentSourceGroup Accumulator) (key vMerged vFull : Value),
      Interleaves docs docs1 docs2 ∧
      (members (Expression.fieldPath "x") docs1 key).length ≠
        (members (Expression.fieldPath "x") docs2 key).length ∧
      drain specAccumulators (docs1.length + 1)
        (configure (Expression.fieldPath "x")
          [("mean", AccumulatorFactory.AccumulatorAvg_create, Expression.fieldPath "y")]
          docs1) = .ok (out1.map some) ∧
      drain specAccumulators (docs2.length + 1)
        (configure (Expression.fieldPath "x")
          [("mean", AccumulatorFactory.AccumulatorAvg_create, Expression.fieldPath "y")]
          docs2) = .ok (out2.map some) ∧
      createMerger
        (configure (Expression.fieldPath "x")
          [("mean", AccumulatorFactory.AccumulatorAvg_create, Expression.fieldPath "y")]
          docs) = .ok merger ∧
      drain specAccumulators ((out1 ++ out2).length + 1)
        (merger.setSource (out1 ++ out2)) = .ok [some [("_id", key), ("mean", vMerged)]] ∧
      drain specAccumulators (docs.length + 1)
        (configure (Expression.fieldPath "x")
          [("mean", AccumulatorFactory.AccumulatorAvg_create, Expression.fieldPath "y")]
          docs) = .ok [some [("_id", key), ("mean", vFull)]] ∧
      vMerged = Value.num (3 / 2) ∧ vFull = Value.num 2 ∧ vMerged ≠ vFull := by
  refine ⟨[[("x", Value.num 1), ("y", Value.num 0)],
           [("x", Value.num 1), ("y", Value.num 3)],
           [("x", Value.num 1), ("y", Value.num 3)]],
    [[("x", Value.num 1), ("y", Value.num 0)]],
    [[("x", Value.num 1), ("y", Value.num 3)], [("x", Value.num 1), ("y", Value.num 3)]],
    [[("_id", Value.num 1), ("mean", Value.num 0)]],
    [[("_id", Value.num 1), ("mean", Value.num 3)]],
    parsedStage (Expression.fieldPath "_id")
      [("mean", AccumulatorFactory.AccumulatorAvg_create, Expression.fieldPath "mean")],
    Value.num 1, Value.num (3 / 2), Value.num 2, ?_, ?_, ?_, ?_, ?_, ?_, ?_, rfl, rfl, ?_⟩
  · exact Interleaves.append_left [[("x", Value.num 1), ("y", Value.num 0)]] _
  · with_unfolding_all decide
  · with_unfolding_all rfl
  · with_unfolding_all rfl
  · rfl
  · with_unfolding_all rfl
  · with_unfolding_all rfl
  · intro h
    have h2 : (3 / 2 : ℚ) = 2 := Value.num.inj h
    norm_num at h2

instance : IsAntisymm Value Value.lt :=
  ⟨fun a _ h1 h2 => absurd (GroupsType.lt_trans h1 h2) (GroupsType.lt_irrefl a)⟩

theorem sourceFields_specs (S : ExpressionSerializers)
    (specs : List (String × AccumulatorFactory × Expression)) :
    sourceFields S (specs.map (fun s => s.1)) (specs.map (fun s => s.2.1))
        (specs.map (fun s => s.2.2)) =
      .ok (specs.map (fun s =>
        (s.1, BSONValue.Object [(operatorName s.2.1, S.operandSpec s.2.2)]))) := by
  induction specs with
  | nil => simp [sourceFields]
  | cons s rest ih => simp [sourceFields, ih]

theorem registeredFactory_operatorName (f : AccumulatorFactory) :
    registeredFactory (operatorName f) = some f := by
  cases f <;> decide

/-- C15: for every configuration that `createFromBson` accepts, serializing the
stage with `sourceToBson` succeeds, and parsing the emitted `$group` element
with `createFromBson` succeeds and yields the same stage: the same key
expression and the same field names, factories and operand expressions in the
same order, hence the same output records for the same input. The external
serializers are assumed inverse to the external parsers on the expressions of
the stage: the value written for the key is object-shaped and `parseObject`
reads it back, and the value written for each operand is read back by the
parser `createFromBson` applies to it. -/
theorem parse_serialize_parse (P : ExpressionParsers) (S : ExpressionSerializers)
    (cfg : BSONElement) (g : DocumentSourceGroup A)
    (h : createFromBson P cfg = .ok g)
    (hkey : ∀ pId, g.pIdExpression = some pId →
      BSONElement.type ("_id", S.keySpec pId) = BSONType.Object ∧
      P.parseObject ("_id", S.keySpec pId) = some pId)
    (hop : ∀ e ∈ g.vpExpression, ∀ f : AccumulatorFactory,
      parsedOperand P (operatorName f, S.operandSpec e) = some e) :
    ∃ out : BSONElement, sourceToBson S g = .ok out ∧
      (createFromBson P out : Except Fault (DocumentSourceGroup A)) = .ok g ∧
      ∀ g2 : DocumentSourceGroup A, createFromBson P out = .ok g2 →
        g2.pIdExpression = g.pIdExpression ∧ g2.vFieldName = g.vFieldName ∧
        g2.vpAccumulatorFactory = g.vpAccumulatorFactory ∧
        g2.vpExpression = g.vpExpression ∧
        ∀ (I : AccumulatorOps A) (docs : List Document) (fuel : Nat),
          drain I fuel (g2.setSource docs) = drain I fuel (g.setSource docs) := by
  obtain ⟨pId, specs, hg, hnames⟩ := createFromBson_parsedStage_of_ok P cfg g h
  subst hg
  have hpid : (parsedStage pId specs : DocumentSourceGroup A).pIdExpression = some pId := by
    rw [parsedStage_eq]
  have hexp : (parsedStage pId specs : DocumentSourceGroup A).vpExpression =
      specs.map (fun s => s.2.2) := by rw [parsedStage_eq]
  obtain ⟨hk1, hk2⟩ := hkey pId hpid
  rw [hexp] at hop
  have hser : sourceToBson S (parsedStage pId specs : DocumentSourceGroup A) =
      .ok ("$group", BSONValue.Object (("_id", S.keySpec pId) ::
        specs.map (fun s =>
          (s.1, BSONValue.Object [(operatorName s.2.1, S.operandSpec s.2.2)])))) := by
    simp only [sourceToBson, parsedStage_eq, sourceFields_specs]
  have hfid : ∀ l : List (String × AccumulatorFactory × Expression),
      (∀ s ∈ l, s.1 ≠ "_id" ∧ s.1.data.head? ≠ some '$') →
      (l.map (fun s => ((s.1, BSONValue.Object [(operatorName s.2.1, S.operandSpec s.2.2)]) :
        BSONElement))).filter (fun e : BSONElement => decide (e.fieldName = "_id")) = [] := by
    intro l hl
    rw [List.filter_eq_nil_iff]
    intro e he
    obtain ⟨s, hs, rfl⟩ := List.mem_map.mp he
    simp [BSONElement.fieldName, (hl s hs).1]
  have hfnon : ∀ l : List (String × AccumulatorFactory × Expression),
      (∀ s ∈ l, s.1 ≠ "_id" ∧ s.1.data.head? ≠ some '$') →
      (l.map (fun s => ((s.1, BSONValue.Object [(operatorName s.2.1, S.operandSpec s.2.2)]) :
        BSONElement))).filter (fun e : BSONElement => decide (e.fieldName ≠ "_id")) =
      l.map (fun s => (s.1, BSONValue.Object [(operatorName s.2.1, S.operandSpec s.2.2)])) := by
    intro l hl
    rw [List.filter_eq_self]
    intro e he
    obtain ⟨s, hs, rfl⟩ := List.mem_map.mp he
    simp [BSONElement.fieldName, (hl s hs).1]
  have hspec : ∀ s ∈ specs,
      fieldSpecOf P (s.1, BSONValue.Object [(operatorName s.2.1, S.operandSpec s.2.2)]) =
        some s := by
    intro s hs
    have h1 := (hnames s hs).2
    have h2 := hop s.2.2 (List.mem_map.mpr ⟨s, hs, rfl⟩) s.2.1
    simp [fieldSpecOf, BSONElement.fieldName, BSONElement.type, BSONElement.Obj, h1,
      registeredFactory_operatorName, h2]
  have hrun := parseGroupFields_accepts P
    (("_id", S.keySpec pId) :: specs.map (fun s =>
      ((s.1, BSONValue.Object [(operatorName s.2.1, S.operandSpec s.2.2)]) : BSONElement)))
    (create : DocumentSourceGroup A) false specs
    (by
      rw [List.filter_cons_of_neg
        (p := fun e : BSONElement => decide (e.fieldName ≠ "_id"))
        (a := ("_id", S.keySpec pId)) (by simp [BSONElement.fieldName]),
        hfnon specs hnames, List.map_map]
      apply List.map_congr_left
      intro s hs
      exact hspec s hs)
    (by
      intro e he hn
      rcases List.mem_cons.mp he with e1 | e1
      · subst e1
        exact ⟨hk1, by simp [hk2]⟩
      · obtain ⟨s, hs, rfl⟩ := List.mem_map.mp e1
        exact absurd hn (hnames s hs).1)
    (by
      rw [List.filter_cons_of_pos
        (p := fun e : BSONElement => decide (e.fieldName = "_id"))
        (a := ("_id", S.keySpec pId)) (by simp [BSONElement.fieldName]),
        hfid specs hnames]
      simp)
  have hparse : (createFromBson P ("$group", BSONValue.Object (("_id", S.keySpec pId) ::
        specs.map (fun s =>
          (s.1, BSONValue.Object [(operatorName s.2.1, S.operandSpec s.2.2)]))))
        : Except Fault (DocumentSourceGroup A)) = .ok (parsedStage pId specs) := by
    have hf : (("_id", S.keySpec pId) :: specs.map (fun s =>
        ((s.1, BSONValue.Object [(operatorName s.2.1, S.operandSpec s.2.2)]) : BSONElement))).filter
          (fun e : BSONElement => decide (e.fieldName = "_id")) = [("_id", S.keySpec pId)] := by
      rw [List.filter_cons_of_pos
        (p := fun e : BSONElement => decide (e.fieldName = "_id"))
        (a := ("_id", S.keySpec pId)) (by simp [BSONElement.fieldName]),
        hfid specs hnames]
    simp only [createFromBson, BSONElement.type, BSONElement.Obj, hrun, hf, hk2,
      parsedStage_eq]
    simp [create]
  refine ⟨_, hser, hparse, ?_⟩
  intro g2 h2
  rw [hparse] at h2
  have := Except.ok.inj h2
  subst this
  exact ⟨rfl, rfl, rfl, rfl, fun _ _ _ => rfl⟩

/-- Witness for C15: field references written as strings, the key as an
object around one string; the configuration has `_id` last and the serialized
form has it first. -/
theorem parse_serialize_parse_witness :
    ∃ out : BSONElement,
      sourceToBson
        ⟨fun e => match e with
          | Expression.fieldPath p => BSONValue.Object [("k", BSONValue.String p)]
          | Expression.other _ => BSONValue.jstNULL,
         fun e => match e with
          | Expression.fieldPath p => BSONValue.String p
          | Expression.other _ => BSONValue.jstNULL⟩
        (parsedStage (Expression.fieldPath "x")
          [("total", AccumulatorFactory.AccumulatorSum_create, Expression.fieldPath "y")] :
          DocumentSourceGroup Accumulator) = .ok out ∧
      out = ("$group", BSONValue.Object
        [("_id", BSONValue.Object [("k", BSONValue.String "x")]),
         ("total", BSONValue.Object [("$sum", BSONValue.String "y")])]) ∧
      (createFromBson
        ⟨fun e => match e.2 with
          | BSONValue.Object [(_, BSONValue.String p)] => some (Expression.fieldPath p)
          | _ => none,
         fun e => match e.2 with
          | BSONValue.String p => some (Expression.fieldPath p)
          | _ => none⟩
        out : Except Fault (DocumentSourceGroup Accumulator)) =
        .ok (parsedStage (Expression.fieldPath "x")
          [("total", AccumulatorFactory.AccumulatorSum_create, Expression.fieldPath "y")]) := by
  obtain ⟨out, h1, h2, -⟩ := parse_serialize_parse (A := Accumulator)
    ⟨fun e => match e.2 with
      | BSONValue.Object [(_, BSONValue.String p)] => some (Expression.fieldPath p)
      | _ => none,
     fun e => match e.2 with
      | BSONValue.String p => some (Expression.fieldPath p)
      | _ => none⟩
    ⟨fun e => match e with
      | Expression.fieldPath p => BSONValue.Object [("k", BSONValue.String p)]
      | Expression.other _ => BSONValue.jstNULL,
     fun e => match e with
      | Expression.fieldPath p => BSONValue.String p
      | Expression.other _ => BSONValue.jstNULL⟩
    ("$group", BSONValue.Object
      [("total", BSONValue.Object [("$sum", BSONValue.String "y")]),
       ("_id", BSONValue.Object [("k", BSONValue.String "x")])])
    (parsedStage (Expression.fieldPath "x")
      [("total", AccumulatorFactory.AccumulatorSum_create, Expression.fieldPath "y")])
    rfl
    (by
      intro pId hp
      have : pId = Expression.fieldPath "x" := (Option.some.inj hp).symm
      subst this
      exact ⟨rfl, rfl⟩)
    (by
      intro e he f
      have : e = Expression.fieldPath "y" := by
        simpa [parsedStage_eq] using he
      subst this
      cases f <;> rfl)
  refine ⟨out, h1, ?_, h2⟩
  have h3 : sourceToBson
      ⟨fun e => match e with
        | Expression.fieldPath p => BSONValue.Object [("k", BSONValue.String p)]
        | Expression.other _ => BSONValue.jstNULL,
       fun e => match e with
        | Expression.fieldPath p => BSONValue.String p
        | Expression.other _ => BSONValue.jstNULL⟩
      (parsedStage (Expression.fieldPath "x")
        [("total", AccumulatorFactory.AccumulatorSum_create, Expression.fieldPath "y")] :
        DocumentSourceGroup Accumulator) =
      .ok ("$group", BSONValue.Object
        [("_id", BSONValue.Object [("k", BSONValue.String "x")]),
         ("total", BSONValue.Object [("$sum", BSONValue.String "y")])]) := rfl
  rw [h3] at h1
  exact (Except.ok.inj h1).symm

end DocumentSourceGroup

end mongo
